import Mathlib

/-!
# Shared-memory ring transport (VirtQueue) of ipc-ipcdev

A shallow embedding of `packages/ti/ipc/family/vayu/VirtQueue.c`.

Conventions of the embedding:

* C unsigned integers are natural numbers, reduced with an explicit `%` where
  the C arithmetic wraps; C signed integers (`Int16`, `Int`) are integers and
  the conversions between the two are the functions `toU32`, `toInt16`,
  `toInt32` below.
* The arrays behind the pointers of `struct vring` are functions of the index.
  The rings are only indexed modulo `num`. The descriptor table is indexed by
  a head read from shared memory, which the code converts to `Int16` and does
  not check: `desc` is the shared memory at the address of the table, in units
  of one descriptor, at every signed index, the table being the indexes
  `0 .. num - 1`.
* A division by zero, a call through a null function pointer and the
  unrecoverable `Error_raise(NULL, ..)` are results of type `Fault`.
* `GateHwi_enter` / `GateHwi_leave` only mask interrupts around a critical
  section; the embedding is sequential and does not represent them.
  `Log_print*` diagnostics are not represented either.
-/

namespace VirtQueue

/-! ## Machine integers -/

/-- Conversion of a signed integer to `unsigned int` / `__u32` (32 bits). -/
def toU32 (i : Int) : Nat := (i % 4294967296).toNat

/-- Conversion of an unsigned value to `Int16` (two's complement, 16 bits). -/
def toInt16 (n : Nat) : Int :=
  if n % 65536 < 32768 then ((n % 65536 : Nat) : Int) else ((n % 65536 : Nat) : Int) - 65536

/-- Conversion of an unsigned value to `Int` (two's complement, 32 bits). -/
def toInt32 (n : Nat) : Int :=
  if n % 4294967296 < 2147483648 then ((n % 4294967296 : Nat) : Int)
  else ((n % 4294967296 : Nat) : Int) - 4294967296

/-- The values of the C type `Int16`. -/
def isInt16 (i : Int) : Prop := -32768 ≤ i ∧ i ≤ 32767

instance (i : Int) : Decidable (isInt16 i) := by unfold isInt16; infer_instance

/-! ## Constants of VirtQueue.c -/

/-- Size of the virtqueue registry. -/
def NUM_QUEUES : Nat := 2

/-- Size of the virtqueues, in buffers. -/
def VQ_SIZE : Nat := 256

def RP_MSG_NUM_BUFS : Nat := VQ_SIZE

def VIRTIO_CONFIG_S_ACKNOWLEDGE : Nat := 1
def VIRTIO_CONFIG_S_DRIVER : Nat := 2
def VIRTIO_CONFIG_S_DRIVER_OK : Nat := 4

def VRING_BUFS_PRIMED : Nat :=
  VIRTIO_CONFIG_S_ACKNOWLEDGE ||| VIRTIO_CONFIG_S_DRIVER ||| VIRTIO_CONFIG_S_DRIVER_OK

def RP_MSG_MBOX_READY : Nat := 0xFFFFFF00
def RP_MSG_MBOX_STATE_CHANGE : Nat := 0xFFFFFF01
def RP_MSG_MBOX_CRASH : Nat := 0xFFFFFF02
def RP_MBOX_ECHO_REQUEST : Nat := 0xFFFFFF03
def RP_MBOX_ECHO_REPLY : Nat := 0xFFFFFF04
def RP_MBOX_ABORT_REQUEST : Nat := 0xFFFFFF05
def RP_MSG_FLUSH_CACHE : Nat := 0xFFFFFF06
def RP_MSG_BOOTINIT_DONE : Nat := 0xFFFFFF07
def RP_MSG_HIBERNATION : Nat := 0xFFFFFF10
def RP_MSG_HIBERNATION_FORCE : Nat := 0xFFFFFF11
def RP_MSG_HIBERNATION_ACK : Nat := 0xFFFFFF12
def RP_MSG_HIBERNATION_CANCEL : Nat := 0xFFFFFF13

def RP_MSG_VRING_ALIGN : Nat := 4096

/-- Modelled from the spec: the constants that VirtQueue.c takes from
`virtio_ring.h` and `_VirtQueue.h`, headers that are not among the sources: the
two notification-suppression bits and the ids of the two logical channels of a
link. They are parameters of every function that uses them. -/
structure Consts where
  VRING_AVAIL_F_NO_INTERRUPT : Nat
  VRING_USED_F_NO_NOTIFY : Nat
  ID_SELF_TO_HOST : Nat
  ID_HOST_TO_SELF : Nat

/-! ## Data model -/

/-- One descriptor: `struct vring_desc`. -/
structure vring_desc where
  addr : Nat
  len : Nat
  flags : Nat
  next : Nat

/-- The avail ring: `struct vring_avail`. -/
structure vring_avail where
  flags : Nat
  idx : Nat
  ring : Nat → Nat

/-- One used-ring element: `struct vring_used_elem`. -/
structure vring_used_elem where
  id : Nat
  len : Nat

/-- The used ring: `struct vring_used`. -/
structure vring_used where
  flags : Nat
  idx : Nat
  ring : Nat → vring_used_elem

/-- The shared state of a ring: `struct vring`. -/
structure Vring where
  num : Nat
  desc : Int → vring_desc
  avail : vring_avail
  used : vring_used

/-- The ring object: `VirtQueue_Object`. A function pointer is its address,
`0` being `NULL`. -/
structure VirtQueue_Object where
  id : Nat
  callback : Nat
  vring : Vring
  num_free : Nat
  last_avail_idx : Nat
  procId : Nat
  gateH : Nat
  basePa : Nat
  baseVa : Nat

/-- The ways in which a call does not return normally. -/
inductive Fault where
  | Error_E_generic
  | divideByZero
  | registryOutOfBounds (id : Nat)
  | nullCall
  | assertFailed
  deriving DecidableEq, Repr

/-! ## VirtQueue_addUsedBuf -/

/-- The source function `VirtQueue_addUsedBuf(vq, head, len)`, with `head` an
`Int16` and `len` an `Int`. `Error_raise` with a null error block does not
return. The result is the returned value and the ring after the call. -/
def VirtQueue_addUsedBuf (vq : VirtQueue_Object) (head : Int) (len : Int) :
    Except Fault (Int × VirtQueue_Object) :=
  if toU32 head > vq.vring.num ∨ head < 0 then
    .error Fault.Error_E_generic
  else if vq.vring.num = 0 then
    .error Fault.divideByZero
  else
    let slot := vq.vring.used.idx % vq.vring.num
    let used : vring_used_elem := { id := toU32 head, len := toU32 len }
    let ring := Function.update vq.vring.used.ring slot used
    let idx := (vq.vring.used.idx + 1) % 65536
    .ok (0, { vq with vring := { vq.vring with used := { vq.vring.used with ring := ring, idx := idx } } })

/-! ## VirtQueue_getAvailBuf -/

/-- The source function `_VirtQueue_getVA(vq, pa)`: `pa - basePa + baseVa` in
`UInt32` arithmetic, the result being a 32-bit pointer. -/
def _VirtQueue_getVA (vq : VirtQueue_Object) (pa : Nat) : Nat :=
  ((pa % 4294967296 + (4294967296 - vq.basePa % 4294967296)) % 4294967296
    + vq.baseVa % 4294967296) % 4294967296

/-- The assignment `vq->vring.used->flags = f` (a 16-bit field). -/
def setUsedFlags (vq : VirtQueue_Object) (f : Nat) : VirtQueue_Object :=
  { vq with vring := { vq.vring with used := { vq.vring.used with flags := f % 65536 } } }

/-- The value of `flags & ~mask` for a 16-bit `flags`. -/
def clearBits16 (flags mask : Nat) : Nat := flags &&& (65535 ^^^ (mask % 65536))

/-- What a call of `VirtQueue_getAvailBuf` leaves behind: the returned `Int16`,
the ring, and the objects behind the `buf` and `len` pointers. -/
structure GetAvailBufResult where
  head : Int
  vq : VirtQueue_Object
  buf : Nat
  len : Int

/-- The source function `VirtQueue_getAvailBuf(vq, &buf, &len)`; `buf` and `len`
are the values the two out-parameters hold before the call. The entry read from
the avail ring becomes the `Int16` `head`, which indexes `desc` as it is and is
returned as it is. -/
def VirtQueue_getAvailBuf (c : Consts) (vq : VirtQueue_Object) (buf : Nat) (len : Int) :
    Except Fault GetAvailBufResult :=
  let vq1 := setUsedFlags vq (clearBits16 vq.vring.used.flags c.VRING_USED_F_NO_NOTIFY)
  if vq1.last_avail_idx = vq1.vring.avail.idx then
    .ok { head := -1, vq := vq1, buf := buf, len := len }
  else
    let vq2 := setUsedFlags vq1 (vq1.vring.used.flags ||| c.VRING_USED_F_NO_NOTIFY)
    if vq2.vring.num = 0 then
      .error Fault.divideByZero
    else
      let head := toInt16 (vq2.vring.avail.ring (vq2.last_avail_idx % vq2.vring.num))
      let vq3 := { vq2 with last_avail_idx := (vq2.last_avail_idx + 1) % 65536 }
      .ok { head := head, vq := vq3,
            buf := _VirtQueue_getVA vq3 (vq3.vring.desc head).addr,
            len := toInt32 (vq3.vring.desc head).len }

/-- What the reference of `getAvailableBuffer` determines: the returned head (or
`-1` for none), the consumer cursor, the pointer and the length. -/
structure AvailView where
  head : Int
  last_avail_idx : Nat
  buf : Int
  len : Int
  deriving DecidableEq, Repr

/-- The reference of `getAvailableBuffer`, following the specification: nothing
when the cursor equals `avail.idx`; otherwise the head at ring position
`last_avail_idx mod capacity`, the cursor advanced modulo 2^16, the pointer
`(desc[head].addr - basePa + baseVa) mod 2^32` and the length `desc[head].len`
(as the `Int` behind the length pointer holds it). -/
def getAvailBuf_reference (vq : VirtQueue_Object) (buf : Nat) (len : Int) : AvailView :=
  if vq.last_avail_idx = vq.vring.avail.idx then
    { head := -1, last_avail_idx := vq.last_avail_idx, buf := buf, len := len }
  else
    let head := vq.vring.avail.ring (vq.last_avail_idx % vq.vring.num)
    { head := head,
      last_avail_idx := (vq.last_avail_idx + 1) % 2 ^ 16,
      buf := (((vq.vring.desc head).addr : Int) - vq.basePa + vq.baseVa) % 2 ^ 32,
      len := toInt32 (vq.vring.desc head).len }

/-- The part of a result of `VirtQueue_getAvailBuf` that the reference speaks of. -/
def GetAvailBufResult.view (r : GetAvailBufResult) : AvailView :=
  { head := r.head, last_avail_idx := r.vq.last_avail_idx, buf := r.buf, len := r.len }

/-- Consecutive calls `VirtQueue_getAvailBuf(vq, &buf, &len)` by the one consumer of
a ring, nothing else touching the ring in between: the returned values in order,
and the ring after the last call. -/
def getAvailBuf_calls (c : Consts) :
    Nat → VirtQueue_Object → Nat → Int → Except Fault (List Int × VirtQueue_Object)
  | 0, vq, _, _ => .ok ([], vq)
  | n + 1, vq, buf, len =>
    match VirtQueue_getAvailBuf c vq buf len with
    | .error f => .error f
    | .ok r =>
      match getAvailBuf_calls c n r.vq r.buf r.len with
      | .error f => .error f
      | .ok (heads, vq1) => .ok (r.head :: heads, vq1)

/-- The avail entry at the cursor, the one that the next call of `VirtQueue_getAvailBuf`
reads when the avail ring is not empty. -/
def entryAtCursor (vq : VirtQueue_Object) : Nat :=
  vq.vring.avail.ring (vq.last_avail_idx % vq.vring.num)

/-- The invariant of the data model on the state that `VirtQueue_getAvailBuf` reads:
the capacity is a power of two (at most 2^15: with 16-bit indexes a full ring of 2^16
entries could not be told from an empty one) and the cursor is a 16-bit value. The entries
of the avail ring are arbitrary. -/
def ringInvariant (vq : VirtQueue_Object) : Prop :=
  (∃ e, e ≤ 15 ∧ vq.vring.num = 2 ^ e) ∧ vq.last_avail_idx < 65536

/-! ## Notification: VirtQueue_kick and VirtQueue_isr -/

/-- The calls that leave the module, in the order in which they are made: the
mailbox (`InterruptProxy_intClear`, `InterruptProxy_intSend`), the call of a ring
callback `vq->callback(vq)`, and the calls of the cache, power and console
services. -/
inductive Event where
  | intClear (procId : Nat)
  | intSend (procId : Nat) (payload : Nat)
  | callback (fxn : Nat) (vq : VirtQueue_Object)
  | Cache_wbAll
  | IpcPower_suspend
  | System_printf (msg : Nat)
  | IpcPower_init
  | intRegister (procId : Nat)

/-- The mailbox sends of a trace: target processor and payload. -/
def sendsOf : List Event → List (Nat × Nat)
  | [] => []
  | Event.intSend p m :: es => (p, m) :: sendsOf es
  | _ :: es => sendsOf es

/-- The ring-callback invocations of a trace: function called and ring passed. -/
def callbacksOf : List Event → List (Nat × VirtQueue_Object)
  | [] => []
  | Event.callback f vq :: es => (f, vq) :: callbacksOf es
  | _ :: es => callbacksOf es

/-- The module state of VirtQueue.c: the registry `queueRegistry[NUM_QUEUES]`
(a null entry is `none`), `hostProcId`, and the `initialized` flag of
`_VirtQueue_init`. -/
structure World where
  queueRegistry : Nat → Option VirtQueue_Object
  hostProcId : Nat
  initialized : Bool

/-- The source function `VirtQueue_kick(vq)`: the calls it makes and the ring
after it. -/
def VirtQueue_kick (c : Consts) (vq : VirtQueue_Object) : List Event × VirtQueue_Object :=
  if vq.vring.avail.flags &&& c.VRING_AVAIL_F_NO_INTERRUPT ≠ 0 then
    ([], vq)
  else
    ([Event.intSend vq.procId vq.id], vq)

/-- What a run of `VirtQueue_isr` leaves behind: the calls made, the fault that
ended it (if any), and the module state. -/
structure IsrResult where
  events : List Event
  fault : Option Fault
  world : World

/-- The source function `VirtQueue_isr`. Its argument is overwritten at once by
the word that `InterruptProxy_intClear(hostProcId, &intInfo)` returns: `msg` is that
word (a 32-bit value), and `canHibernate` is what `IpcPower_canHibernate()` answers.
What a ring callback does to the rings is the callback's business, not the
handler's. -/
def VirtQueue_isr (w : World) (canHibernate : Bool) (msg : Nat) : IsrResult :=
  let clear := Event.intClear w.hostProcId
  if msg = RP_MSG_MBOX_READY then
    { events := [clear], fault := none, world := w }
  else if msg = RP_MBOX_ECHO_REQUEST then
    { events := [clear, Event.intSend w.hostProcId RP_MBOX_ECHO_REPLY], fault := none, world := w }
  else if msg = RP_MBOX_ABORT_REQUEST then
    { events := [clear], fault := some Fault.nullCall, world := w }
  else if msg = RP_MSG_FLUSH_CACHE then
    { events := [clear, Event.Cache_wbAll], fault := none, world := w }
  else if msg = RP_MSG_HIBERNATION then
    if canHibernate = false then
      { events := [clear, Event.intSend w.hostProcId RP_MSG_HIBERNATION_CANCEL],
        fault := none, world := w }
    else
      { events := [clear, Event.intSend w.hostProcId RP_MSG_HIBERNATION_ACK,
                   Event.IpcPower_suspend],
        fault := none, world := w }
  else if msg = RP_MSG_HIBERNATION_FORCE then
    { events := [clear, Event.intSend w.hostProcId RP_MSG_HIBERNATION_ACK,
                 Event.IpcPower_suspend],
      fault := none, world := w }
  else if msg ≥ NUM_QUEUES then
    { events := [clear, Event.System_printf msg], fault := none, world := w }
  else
    match w.queueRegistry msg with
    | none => { events := [clear], fault := none, world := w }
    | some vq =>
      { events := [clear, Event.callback vq.callback vq],
        fault := if vq.callback = 0 then some Fault.nullCall else none,
        world := w }

/-! ## VirtQueue_create -/

/-- The creation parameters `VirtQueue_Params`. -/
structure VirtQueue_Params where
  callback : Nat
  vqId : Nat

/-- Modelled from the spec: the collaborators of `VirtQueue_create`, none of
which is among the sources. `Resource_getVdevStatus` is the sequence of status
words that successive reads of the peer-published status return; `sharedMemory`
is the content that `vring_init` finds at the address of the ring (descriptor
table, avail ring, used ring); `garbage_num_free` is the content of the field
that the function leaves uninitialised. -/
structure Env where
  Assert_enabled : Bool
  Registry_addModule_ok : Bool
  Resource_getVdevStatus : Nat → Nat
  Memory_alloc_ok : Bool
  GateHwi_create : Option Nat
  Resource_getVringDA : Nat → Nat
  Resource_physToVirt : Nat → Option Nat
  sharedMemory : Nat → Vring
  garbage_num_free : Nat

/-- The loop `while (Resource_getVdevStatus(VIRTIO_ID_RPMSG) != VRING_BUFS_PRIMED);`
started at read `t`: the number of reads made when it stops, or `none` when it is
still polling after `fuel` reads. -/
def pollVdevStatus (status : Nat → Nat) : Nat → Nat → Option Nat
  | 0, _ => none
  | fuel + 1, t =>
    if status t ≠ VRING_BUFS_PRIMED then pollVdevStatus status fuel (t + 1) else some (t + 1)

/-- The source function `_VirtQueue_init`; `none` when the polling loop has not
stopped within `fuel` reads. -/
def _VirtQueue_init (env : Env) (fuel : Nat) (w : World) : Option (Except Fault World) :=
  if w.initialized then
    some (.ok w)
  else if ¬ env.Registry_addModule_ok then
    if env.Assert_enabled then some (.error Fault.assertFailed) else some (.ok w)
  else
    match pollVdevStatus env.Resource_getVdevStatus fuel 0 with
    | none => none
    | some _ => some (.ok { w with initialized := true })

/-- Modelled from the spec: `vring_init(&vring, num, p, align)` of `virtio_ring.h`
(not among the sources) lays the descriptor table, the avail ring and the used
ring of capacity `num` over the shared memory at `p`. -/
def vring_init (num : Nat) (mem : Vring) : Vring := { mem with num := num }

/-- The source function `VirtQueue_create(remoteProcId, params, eb)`: the handle
returned (`none` is `NULL`) and the module state after the call. -/
def VirtQueue_create (c : Consts) (env : Env) (fuel : Nat) (w : World) (remoteProcId : Nat)
    (params : VirtQueue_Params) : Option (Except Fault (Option VirtQueue_Object × World)) :=
  match _VirtQueue_init env fuel w with
  | none => none
  | some (.error f) => some (.error f)
  | some (.ok w1) =>
    if ¬ env.Memory_alloc_ok then
      some (.ok (none, w1))
    else
      match env.GateHwi_create with
      | none => some (.ok (none, w1))
      | some gate =>
        let id := params.vqId % 65536
        if id = c.ID_SELF_TO_HOST ∨ id = c.ID_HOST_TO_SELF then
          let basePa := env.Resource_getVringDA id % 4294967296
          if env.Assert_enabled ∧ basePa = 0 then
            some (.error Fault.assertFailed)
          else
            match env.Resource_physToVirt basePa with
            | none =>
              if env.Assert_enabled then some (.error Fault.assertFailed)
              else some (.ok (none, w1))
            | some baseVa =>
              let vq0 : VirtQueue_Object :=
                { id := id, callback := params.callback, procId := remoteProcId % 65536,
                  last_avail_idx := 0, basePa := basePa, baseVa := baseVa, gateH := gate,
                  num_free := env.garbage_num_free,
                  vring := vring_init RP_MSG_NUM_BUFS (env.sharedMemory baseVa) }
              let vq1 :=
                if vq0.procId = w1.hostProcId then
                  setUsedFlags vq0 (clearBits16 vq0.vring.used.flags c.VRING_USED_F_NO_NOTIFY)
                else vq0
              if id < NUM_QUEUES then
                let registry := Function.update w1.queueRegistry id (some vq1)
                some (.ok (some vq1, { w1 with queueRegistry := registry }))
              else
                some (.error (Fault.registryOutOfBounds id))
        else
          some (.ok (none, w1))

/-! ## VirtQueue_startup -/

/-- The source function `VirtQueue_startup`; `hostId` is what `MultiProc_getId("HOST")`
returns, and the status words are those that the reads of the polling loop return,
from read 0 on. The result is `none` when the loop is still polling after `fuel`
reads; otherwise the calls the function has made, in order, and the module state. -/
def VirtQueue_startup (env : Env) (hostId : Nat) (fuel : Nat) (w : World) :
    Option (List Event × World) :=
  let w1 := { w with hostProcId := hostId % 65536 }
  match pollVdevStatus env.Resource_getVdevStatus fuel 0 with
  | none => none
  | some _ => some ([Event.IpcPower_init, Event.intRegister w1.hostProcId], w1)

/-- A ring of capacity 256 with empty rings, used by the concrete evaluations. -/
def exampleRing : VirtQueue_Object :=
  { id := 0, callback := 4096, num_free := 0, last_avail_idx := 0, procId := 0, gateH := 1,
    basePa := 0xA0000000, baseVa := 0x60000000,
    vring := { num := 256,
               desc := fun i =>
                 { addr := 0xA0004000 + 512 * i.toNat, len := 512, flags := 0, next := 0 },
               avail := { flags := 0, idx := 0, ring := fun i => i % 256 },
               used := { flags := 0, idx := 0, ring := fun _ => { id := 0, len := 0 } } } }

/-- The constants as the virtio ring ABI and the IPC headers give them. -/
def exampleConsts : Consts :=
  { VRING_AVAIL_F_NO_INTERRUPT := 1, VRING_USED_F_NO_NOTIFY := 1,
    ID_SELF_TO_HOST := 0, ID_HOST_TO_SELF := 1 }

/-- The example ring after the producer has published three entries. -/
def exampleRingPublished : VirtQueue_Object :=
  { exampleRing with
    vring := { exampleRing.vring with avail := { exampleRing.vring.avail with idx := 3 } } }

/-- A module state with the example ring registered in slot 0 and slot 1 empty. -/
def exampleWorld : World :=
  { queueRegistry := fun i => if i = 0 then some exampleRing else none,
    hostProcId := 0, initialized := false }

/-- An environment in which the peer reports readiness at the third read. -/
def exampleEnv : Env :=
  { Assert_enabled := true, Registry_addModule_ok := true,
    Resource_getVdevStatus := fun t => if t < 2 then 3 else 7,
    Memory_alloc_ok := true, GateHwi_create := some 1,
    Resource_getVringDA := fun _ => 0xA0000000,
    Resource_physToVirt := fun pa => some (pa - 0x40000000),
    sharedMemory := fun _ => exampleRing.vring,
    garbage_num_free := 0 }

/-! ## The size of the shared region -/

/-- The macro `DIV_ROUND_UP(n, d)`. -/
def DIV_ROUND_UP (n d : Nat) : Nat := (n + d - 1) / d

def RP_MSG_BUF_SIZE : Nat := 512
def RP_MSG_BUFS_SPACE : Nat := RP_MSG_NUM_BUFS * RP_MSG_BUF_SIZE * 2
def PAGE_SIZE : Nat := 4096

/-- Modelled from the spec: the macro `vring_size(num, align)` of `virtio_ring.h`, a header
that is not among the sources. The split ring is the descriptor table (16 bytes for each
descriptor), the avail ring (a header of two 16-bit fields and one 16-bit entry for each
buffer), both together rounded up to the alignment, and the used ring (a header of two
16-bit fields and one 8-byte element for each buffer). -/
def vring_size (num align : Nat) : Nat :=
  (16 * num + 2 * (2 + num) + align - 1) / align * align + 2 * 2 + 8 * num

/-- The macro `RP_MSG_RING_SIZE`. -/
def RP_MSG_RING_SIZE : Nat :=
  DIV_ROUND_UP (vring_size RP_MSG_NUM_BUFS RP_MSG_VRING_ALIGN) PAGE_SIZE * PAGE_SIZE

/-- The macro `RPMSG_IPC_MEM`. -/
def RPMSG_IPC_MEM : Nat := RP_MSG_BUFS_SPACE + 2 * RP_MSG_RING_SIZE

/-- The example ring with one published entry that holds the head 300. -/
def exampleRingBadHead : VirtQueue_Object :=
  { exampleRing with
    vring := { exampleRing.vring with avail := { flags := 0, idx := 1, ring := fun _ => 300 } } }

/-- The example environment with shared memory in which the flag VRING_USED_F_NO_NOTIFY of
the used ring is set. -/
def exampleEnvNoNotify : Env :=
  { exampleEnv with
    sharedMemory := fun _ =>
      { exampleRing.vring with used := { exampleRing.vring.used with flags := 1 } } }

/-- Consecutive calls `VirtQueue_addUsedBuf(vq, head, len)` by the one producer of the used
ring, nothing else touching the ring in between: for each call the used-ring slot that it
writes, in order, and the ring after the last call. -/
def addUsedBuf_calls :
    List (Int × Int) → VirtQueue_Object → Except Fault (List Nat × VirtQueue_Object)
  | [], vq => .ok ([], vq)
  | (head, len) :: rest, vq =>
    match VirtQueue_addUsedBuf vq head len with
    | .error f => .error f
    | .ok (_, vq1) =>
      match addUsedBuf_calls rest vq1 with
      | .error f => .error f
      | .ok (slots, vq2) => .ok (vq.vring.used.idx % vq.vring.num :: slots, vq2)

/-- The example ring with one published entry that holds 0xFFFF. -/
def exampleRingHeadFFFF : VirtQueue_Object :=
  { exampleRing with
    vring := { exampleRing.vring with
      avail := { flags := 0, idx := 1, ring := fun _ => 0xFFFF } } }

/-- The example ring just before the 16-bit wrap: used.idx and the cursor are 65535, and the
producer has published two entries. -/
def exampleRingAtWrap : VirtQueue_Object :=
  { exampleRing with
    last_avail_idx := 65535,
    vring := { exampleRing.vring with
      avail := { exampleRing.vring.avail with idx := 1 },
      used := { exampleRing.vring.used with idx := 65535 } } }

end VirtQueue

/-!
# Mailbox interrupt layer of the host (VAYUIpcInt)

A shallow embedding of
`qnx/src/ipc3x_dev/ti/syslink/ipc/hlos/knl/arch/vayu/VAYUIpcInt.c`, in the build
without `IPC_BUILD_OPTIMIZE` (the status checks are compiled in).

* A device register is named by the mapped window it lies in (`Region`) and its
  offset in the window. Every access, and every call of an operating-system
  service, is appended to the `trace` of the module state. What a read returns,
  and what a service answers, is given by the `Platform`, as a function of the
  trace so far: this covers every deterministic hardware.
* A pointer to a list element is the address of the element; the element is found
  in the list by its address.
* `GT_assert` and the trace macros are diagnostics and are not represented; where
  the asserted condition guards an array access, the embedding checks it and
  answers with a `Fault`.
-/

namespace VAYUIpcInt

/-! ## Constants of VAYUIpcInt.c -/

def VAYU_NUMPROCS : Nat := 5
def VAYU_INDEX_DSP1 : Nat := 4
def VAYU_INDEX_DSP2 : Nat := 3
def VAYU_INDEX_IPU1 : Nat := 2
def VAYU_INDEX_IPU2 : Nat := 1
def VAYU_INDEX_HOST : Nat := 0

def IPU1_HOST_SUB_MBOX : Nat := 4
def HOST_IPU1_SUB_MBOX : Nat := 6
def IPU2_HOST_SUB_MBOX : Nat := 4
def HOST_IPU2_SUB_MBOX : Nat := 6
def DSP1_HOST_SUB_MBOX : Nat := 1
def HOST_DSP1_SUB_MBOX : Nat := 5
def DSP2_HOST_SUB_MBOX : Nat := 1
def HOST_DSP2_SUB_MBOX : Nat := 5

def VAYU_HOST_USER_ID : Nat := 2

def CTRL_MODULE_MPU_OFFSET : Nat := 0xA4C
def CTRL_MODULE_INT_BASE : Nat := 0x8

/-- The macro `CTRL_MODULE_INT_m_OFFSET(m)`, in `UInt32` arithmetic. -/
def CTRL_MODULE_INT_m_OFFSET (m : Nat) : Nat :=
  ((CTRL_MODULE_MPU_OFFSET
      + (((m + 4294967296 - CTRL_MODULE_INT_BASE) % 4294967296) / 2 * 4) % 4294967296)
    + 4294967296 - (if m > 131 then 4 else 0)) % 4294967296

def IRQ_XBAR_MBOX_6_USR_2 : Nat := 255
def IRQ_XBAR_MBOX_5_USR_2 : Nat := 251
def IRQ_XBAR_DSP1 : Nat := IRQ_XBAR_MBOX_5_USR_2
def IRQ_XBAR_DSP2 : Nat := IRQ_XBAR_MBOX_6_USR_2
def IRQ_XBAR_IPU1 : Nat := IRQ_XBAR_MBOX_5_USR_2
def IRQ_XBAR_IPU2 : Nat := IRQ_XBAR_MBOX_6_USR_2

def MAILBOX_MAXNUM : Nat := 0xC
def MAILBOX_MESSAGE_m_OFFSET (m : Nat) : Nat := 0x40 + (m <<< 2)
def MAILBOX_MSGSTATUS_m_OFFSET (m : Nat) : Nat := 0xC0 + (m <<< 2)
def MAILBOX_IRQSTATUS_CLEAR_OFFSET : Nat := 0x104
def MAILBOX_IRQENABLE_SET_OFFSET : Nat := 0x108
def MAILBOX_IRQENABLE_CLR_OFFSET : Nat := 0x10C
def VAYU_MAILBOX_IRQENABLE (u : Nat) : Nat := 0x108 + 0x10 * u

def CACHE_NUM : Nat := 20

/-- The constant of `_MultiProc.h`: the size of the arrays `isrObjects` and `isrLists`. -/
def MultiProc_MAXPROCESSORS : Nat := 10

/-- Modelled from the spec: the module id and the status codes of `VAYUIpcInt.h`, a
header that is not among the sources. They are parameters. -/
structure Codes where
  VAYUIPCINT_MODULEID : Nat
  VAYUIPCINT_SUCCESS : Int
  VAYUIPCINT_S_ALREADYREGISTERED : Int
  VAYUIPCINT_E_FAIL : Int
  VAYUIPCINT_E_MEMORY : Int
  VAYUIPCINT_E_INVALIDSTATE : Int

/-- The macro `VAYUIPCINT_MAKE_MAGICSTAMP(x)`. -/
def VAYUIPCINT_MAKE_MAGICSTAMP (k : Codes) (x : Nat) : Nat :=
  (k.VAYUIPCINT_MODULEID <<< 12) ||| x

/-! ## Atomic counters -/

/-- Modelled from the spec: `Atomic_cmpmask_and_set(v, mask, val)` of the OSAL (not among
the sources) stores `val` unless the counter already carries the mask; the result is
the counter after the call. -/
def Atomic_cmpmask_and_set (v mask val : Nat) : Nat := if v &&& mask ≠ mask then val else v

/-- Modelled from the spec: `Atomic_cmpmask_and_lt(v, mask, val)` of the OSAL is true when
the counter does not carry the mask or is below `val`. -/
def Atomic_cmpmask_and_lt (v mask val : Nat) : Bool :=
  if v &&& mask = mask then decide (v < val) else true

/-- Modelled from the spec: `Atomic_inc_return` of the OSAL, on a 32-bit counter. -/
def Atomic_inc_return (v : Nat) : Nat := (v + 1) % 4294967296

/-- Modelled from the spec: `Atomic_dec_return` of the OSAL, on a 32-bit counter. -/
def Atomic_dec_return (v : Nat) : Nat := (v + 4294967296 - 1) % 4294967296

/-! ## Data model -/

/-- The mapped register windows: `mailbox5Base`, `mailbox6Base`, `controlModuleBase`. -/
inductive Region where
  | mailbox5
  | mailbox6
  | controlModule
  deriving DecidableEq, Repr

/-- The register accesses and the calls that leave the module, with what they returned. -/
inductive Call where
  | regRead (r : Region) (offset value : Nat)
  | regWrite (r : Region) (offset value : Nat)
  | Memory_alloc (result : Nat)
  | Memory_free (addr : Nat)
  | OsalIsr_create (result : Nat)
  | OsalIsr_install (handle : Nat) (status : Int)
  | OsalIsr_uninstall (handle : Nat) (status : Int)
  | OsalIsr_delete (handle : Nat) (status : Int)
  | callback (fxn msg fxnArgs : Nat)
  deriving DecidableEq, Repr

/-- Modelled from the spec: the hardware and the operating-system services, none of which
is among the sources: what a register read returns, what `Memory_alloc` returns (`0` is
`NULL`) and finds in the `refCount` field of the fresh memory (`garbage`), and what the
`OsalIsr` calls answer, each as a function of the trace so far. -/
structure Platform where
  readReg : List Call → Region → Nat → Nat
  Memory_alloc : List Call → Nat
  garbage : List Call → Nat
  OsalIsr_create : List Call → Nat
  OsalIsr_install : List Call → Int
  OsalIsr_uninstall : List Call → Int
  OsalIsr_delete : List Call → Int

/-- A value of type `List_Elem *` in `isrObjects[i].isrHandle`: null, the head of the
list `isrHandles`, or an element. -/
inductive ElemPtr where
  | null
  | listHead
  | elem (addr : Nat)
  deriving DecidableEq, Repr

/-- One element of `isrHandles`: `VAYUIpcInt_isrHandleElem`, at its address. -/
structure VAYUIpcInt_isrHandleElem where
  addr : Nat
  isrHandle : Nat
  intId : Nat
  refCount : Nat
  deriving DecidableEq, Repr

/-- One message node: `VAYUIpcInt_MsgListElem`, at its address. -/
structure VAYUIpcInt_MsgListElem where
  addr : Nat
  msg : Nat
  deriving DecidableEq, Repr

/-- The per-processor object: `VAYUIpcInt_Object`. -/
structure VAYUIpcInt_Object where
  isrRefCount : Nat
  asserted : Nat
  recvIntId : Nat
  fxn : Nat
  fxnArgs : Nat
  isrHandle : ElemPtr
  deriving DecidableEq, Repr

/-- The module state: `VAYUIpcInt_state`, the statics `msg_cache` and `num_msg`, and the
trace of the accesses and calls made so far. A list is its elements from head to tail. -/
structure VAYUIpcInt_ModuleObject where
  isrHandles : List VAYUIpcInt_isrHandleElem
  procIds : Nat → Nat
  maxProcessors : Nat
  isrObjects : Nat → VAYUIpcInt_Object
  isrLists : Nat → List VAYUIpcInt_MsgListElem
  msg_cache : List VAYUIpcInt_MsgListElem
  num_msg : Int
  trace : List Call

/-- The ways in which a call runs into undefined behaviour. -/
inductive Fault where
  | objectOutOfBounds (procId : Nat)
  | noList (procId : Nat)
  | badHandle
  deriving DecidableEq, Repr

/-- Appends a call to the trace. -/
def record (m : VAYUIpcInt_ModuleObject) (c : Call) : VAYUIpcInt_ModuleObject :=
  { m with trace := m.trace ++ [c] }

/-- A read through `REG32(base + offset)`: the value and the state after it. -/
def REG32_read (pf : Platform) (m : VAYUIpcInt_ModuleObject) (r : Region) (offset : Nat) :
    Nat × VAYUIpcInt_ModuleObject :=
  let v := pf.readReg m.trace r offset % 4294967296
  (v, record m (Call.regRead r offset v))

/-- A write through `REG32(base + offset) = value`. -/
def REG32_write (m : VAYUIpcInt_ModuleObject) (r : Region) (offset value : Nat) :
    VAYUIpcInt_ModuleObject :=
  record m (Call.regWrite r offset (value % 4294967296))

/-- Modelled from the spec: the macro `SET_BIT(REG(a), pos)` of a header that is not among
the sources reads the register and writes it back with bit `pos` set. -/
def SET_BIT (pf : Platform) (m : VAYUIpcInt_ModuleObject) (r : Region) (offset pos : Nat) :
    VAYUIpcInt_ModuleObject :=
  let (v, m1) := REG32_read pf m r offset
  REG32_write m1 r offset (v ||| (1 <<< pos))

/-- The assignment to `VAYUIpcInt_state.isrObjects[procId]`. -/
def setObject (m : VAYUIpcInt_ModuleObject) (procId : Nat) (obj : VAYUIpcInt_Object) :
    VAYUIpcInt_ModuleObject :=
  { m with isrObjects := Function.update m.isrObjects procId obj }

/-- The writes of a trace to one register: the values written, in order. -/
def writesTo (r : Region) (offset : Nat) : List Call → List Nat
  | [] => []
  | Call.regWrite r1 o v :: cs =>
    if r1 = r ∧ o = offset then v :: writesTo r offset cs else writesTo r offset cs
  | _ :: cs => writesTo r offset cs

/-- The writes of a trace into one register window: offsets and values, in order. -/
def writesIn (r : Region) : List Call → List (Nat × Nat)
  | [] => []
  | Call.regWrite r1 o v :: cs => if r1 = r then (o, v) :: writesIn r cs else writesIn r cs
  | _ :: cs => writesIn r cs

/-- The reads of a trace from one register: the values read, in order. -/
def readsOf (r : Region) (offset : Nat) : List Call → List Nat
  | [] => []
  | Call.regRead r1 o v :: cs =>
    if r1 = r ∧ o = offset then v :: readsOf r offset cs else readsOf r offset cs
  | _ :: cs => readsOf r offset cs

/-- The `Memory_alloc` calls of a trace: the addresses returned. -/
def allocsOf : List Call → List Nat
  | [] => []
  | Call.Memory_alloc a :: cs => a :: allocsOf cs
  | _ :: cs => allocsOf cs

/-- The `Memory_free` calls of a trace: the addresses freed. -/
def freesOf : List Call → List Nat
  | [] => []
  | Call.Memory_free a :: cs => a :: freesOf cs
  | _ :: cs => freesOf cs

/-- The `OsalIsr_create` calls of a trace: the handles returned. -/
def createsOf : List Call → List Nat
  | [] => []
  | Call.OsalIsr_create h :: cs => h :: createsOf cs
  | _ :: cs => createsOf cs

/-- The `OsalIsr_install` calls of a trace: the handles installed. -/
def installsOf : List Call → List Nat
  | [] => []
  | Call.OsalIsr_install h _ :: cs => h :: installsOf cs
  | _ :: cs => installsOf cs

/-- The `OsalIsr_uninstall` calls of a trace: the handles uninstalled. -/
def uninstallsOf : List Call → List Nat
  | [] => []
  | Call.OsalIsr_uninstall h _ :: cs => h :: uninstallsOf cs
  | _ :: cs => uninstallsOf cs

/-- The callback invocations of a trace: function, message and argument. -/
def callbacksOf : List Call → List (Nat × Nat × Nat)
  | [] => []
  | Call.callback f msg a :: cs => (f, msg, a) :: callbacksOf cs
  | _ :: cs => callbacksOf cs

/-! ## Enabling and disabling the mailbox interrupt -/

/-- The source function `VAYUIpcInt_interruptEnable(procId, intId)`. -/
def VAYUIpcInt_interruptEnable (pf : Platform) (m : VAYUIpcInt_ModuleObject)
    (procId _intId : Nat) : VAYUIpcInt_ModuleObject :=
  if procId = m.procIds VAYU_INDEX_DSP1 then
    SET_BIT pf m Region.mailbox5 (VAYU_MAILBOX_IRQENABLE VAYU_HOST_USER_ID)
      (DSP1_HOST_SUB_MBOX <<< 1)
  else if procId = m.procIds VAYU_INDEX_DSP2 then
    SET_BIT pf m Region.mailbox6 (VAYU_MAILBOX_IRQENABLE VAYU_HOST_USER_ID)
      (DSP2_HOST_SUB_MBOX <<< 1)
  else if procId = m.procIds VAYU_INDEX_IPU1 then
    SET_BIT pf m Region.mailbox5 (VAYU_MAILBOX_IRQENABLE VAYU_HOST_USER_ID)
      (IPU1_HOST_SUB_MBOX <<< 1)
  else if procId = m.procIds VAYU_INDEX_IPU2 then
    SET_BIT pf m Region.mailbox6 (VAYU_MAILBOX_IRQENABLE VAYU_HOST_USER_ID)
      (IPU2_HOST_SUB_MBOX <<< 1)
  else
    m

/-- The source function `VAYUIpcInt_interruptDisable(procId, intId)`. -/
def VAYUIpcInt_interruptDisable (m : VAYUIpcInt_ModuleObject) (procId _intId : Nat) :
    VAYUIpcInt_ModuleObject :=
  if procId = m.procIds VAYU_INDEX_DSP1 then
    REG32_write m Region.mailbox5 (MAILBOX_IRQENABLE_CLR_OFFSET + 0x10 * VAYU_HOST_USER_ID)
      (1 <<< (DSP1_HOST_SUB_MBOX <<< 1))
  else if procId = m.procIds VAYU_INDEX_DSP2 then
    REG32_write m Region.mailbox6 (MAILBOX_IRQENABLE_CLR_OFFSET + 0x10 * VAYU_HOST_USER_ID)
      (1 <<< (DSP2_HOST_SUB_MBOX <<< 1))
  else if procId = m.procIds VAYU_INDEX_IPU1 then
    REG32_write m Region.mailbox5 (MAILBOX_IRQENABLE_CLR_OFFSET + 0x10 * VAYU_HOST_USER_ID)
      (1 <<< (IPU1_HOST_SUB_MBOX <<< 1))
  else if procId = m.procIds VAYU_INDEX_IPU2 then
    REG32_write m Region.mailbox6 (MAILBOX_IRQENABLE_CLR_OFFSET + 0x10 * VAYU_HOST_USER_ID)
      (1 <<< (IPU2_HOST_SUB_MBOX <<< 1))
  else
    m

/-! ## VAYUIpcInt_interruptRegister and VAYUIpcInt_interruptUnregister -/

/-- The end of `VAYUIpcInt_interruptRegister`: `isrObjects[procId].isrHandle = elem` when
the status is not an error, and the return of the status. -/
def registerFinish (m : VAYUIpcInt_ModuleObject) (procId : Nat) (status : Int)
    (elem : ElemPtr) : Int × VAYUIpcInt_ModuleObject :=
  if status ≥ 0 then
    (status, setObject m procId { m.isrObjects procId with isrHandle := elem })
  else
    (status, m)

/-- The crossbar source that `VAYUIpcInt_interruptRegister` selects for a processor. -/
def xbarSource (m : VAYUIpcInt_ModuleObject) (procId : Nat) : Nat :=
  if procId = m.procIds VAYU_INDEX_DSP1 then IRQ_XBAR_DSP1
  else if procId = m.procIds VAYU_INDEX_DSP2 then IRQ_XBAR_DSP2
  else if procId = m.procIds VAYU_INDEX_IPU1 then IRQ_XBAR_IPU1
  else if procId = m.procIds VAYU_INDEX_IPU2 then IRQ_XBAR_IPU2
  else 0

/-- The part of `VAYUIpcInt_interruptRegister` that programs the crossbar for `intId`. -/
def programXbar (pf : Platform) (m : VAYUIpcInt_ModuleObject) (procId intId : Nat) :
    VAYUIpcInt_ModuleObject :=
  let mboxId := xbarSource m procId
  let line := (intId + 4294967296 - 32) % 4294967296
  let (reg, m1) := REG32_read pf m Region.controlModule (CTRL_MODULE_INT_m_OFFSET line)
  if ((line + 4294967296 - CTRL_MODULE_INT_BASE) % 4294967296) % 2 ≠ 0 then
    REG32_write m1 Region.controlModule (CTRL_MODULE_INT_m_OFFSET line)
      ((reg &&& 0x0000FFFF) ||| (mboxId <<< 16))
  else
    REG32_write m1 Region.controlModule (CTRL_MODULE_INT_m_OFFSET line)
      ((reg &&& 0xFFFF0000) ||| mboxId)

/-- The first part of `VAYUIpcInt_interruptRegister` (lines 820-846): the reference count
of the processor, and on the first registration the callback and the hardware interrupt. -/
def registerObject (k : Codes) (pf : Platform) (m : VAYUIpcInt_ModuleObject)
    (procId intId fxn fxnArgs : Nat) : VAYUIpcInt_ModuleObject :=
  let obj := m.isrObjects procId
  let ref := Atomic_inc_return (Atomic_cmpmask_and_set obj.isrRefCount
    (VAYUIPCINT_MAKE_MAGICSTAMP k 0) (VAYUIPCINT_MAKE_MAGICSTAMP k 0))
  if ref ≠ VAYUIPCINT_MAKE_MAGICSTAMP k 1 then
    setObject m procId { obj with isrRefCount := ref }
  else
    VAYUIpcInt_interruptEnable pf
      (setObject m procId
        { obj with isrRefCount := ref, fxn := fxn, fxnArgs := fxnArgs, recvIntId := intId })
      procId intId

/-- The second part of `VAYUIpcInt_interruptRegister` (lines 848-950): the handle of the
interrupt line. Every path assigns the status, so the status of the first part is never
returned. -/
def registerHandle (k : Codes) (pf : Platform) (m1 : VAYUIpcInt_ModuleObject)
    (procId intId : Nat) : Int × VAYUIpcInt_ModuleObject :=
  match m1.isrHandles.find? (fun e => e.intId = intId) with
  | some e =>
    let bump := fun (x : VAYUIpcInt_isrHandleElem) =>
      if x.addr = e.addr then { x with refCount := Atomic_inc_return x.refCount } else x
    let m2 := { m1 with isrHandles := m1.isrHandles.map bump }
    registerFinish m2 procId k.VAYUIPCINT_S_ALREADYREGISTERED (ElemPtr.elem e.addr)
  | none =>
    let m2 := programXbar pf m1 procId intId
    let isrHandle := pf.OsalIsr_create m2.trace
    let m3 := record m2 (Call.OsalIsr_create isrHandle)
    if isrHandle = 0 then
      registerFinish m3 procId k.VAYUIPCINT_E_FAIL ElemPtr.listHead
    else
      let status := pf.OsalIsr_install m3.trace
      let m4 := record m3 (Call.OsalIsr_install isrHandle status)
      if status < 0 then
        registerFinish m4 procId status ElemPtr.listHead
      else
        let a := pf.Memory_alloc m4.trace
        let fresh := pf.garbage m4.trace
        let m5 := record m4 (Call.Memory_alloc a)
        if a = 0 then
          registerFinish m5 procId k.VAYUIPCINT_E_MEMORY ElemPtr.null
        else
          let elem : VAYUIpcInt_isrHandleElem :=
            { addr := a, isrHandle := isrHandle, intId := intId,
              refCount := Atomic_cmpmask_and_set fresh (VAYUIPCINT_MAKE_MAGICSTAMP k 0)
                (VAYUIPCINT_MAKE_MAGICSTAMP k 1) }
          let m6 := { m5 with isrHandles := m5.isrHandles ++ [elem] }
          registerFinish m6 procId status (ElemPtr.elem a)

/-- The source function `VAYUIpcInt_interruptRegister(procId, intId, fxn, fxnArgs)`: the
status returned and the module state after the call. -/
def VAYUIpcInt_interruptRegister (k : Codes) (pf : Platform) (m : VAYUIpcInt_ModuleObject)
    (procId intId fxn fxnArgs : Nat) : Except Fault (Int × VAYUIpcInt_ModuleObject) :=
  if ¬ procId < MultiProc_MAXPROCESSORS then
    .error (Fault.objectOutOfBounds procId)
  else
    .ok (registerHandle k pf (registerObject k pf m procId intId fxn fxnArgs) procId intId)

/-- The first part of the body of `VAYUIpcInt_interruptUnregister` (lines 995-1004): the
reference count of the processor, and at zero the hardware interrupt and the callback. -/
def unregisterObject (k : Codes) (m : VAYUIpcInt_ModuleObject) (procId : Nat) :
    VAYUIpcInt_ModuleObject :=
  let obj := m.isrObjects procId
  let ref := Atomic_dec_return obj.isrRefCount
  if ref = VAYUIPCINT_MAKE_MAGICSTAMP k 0 then
    setObject (VAYUIpcInt_interruptDisable m procId obj.recvIntId) procId
      { obj with isrRefCount := ref, fxn := 0, fxnArgs := 0, recvIntId := 4294967295 }
  else
    setObject m procId { obj with isrRefCount := ref }

/-- The second part of the body of `VAYUIpcInt_interruptUnregister` (lines 1006-1034): the
handle of the interrupt line, reached through `isrObjects[procId].isrHandle`. -/
def unregisterHandle (k : Codes) (pf : Platform) (m1 : VAYUIpcInt_ModuleObject)
    (handle : ElemPtr) : Except Fault (Int × VAYUIpcInt_ModuleObject) :=
  match handle with
  | ElemPtr.elem a =>
    match m1.isrHandles.find? (fun e => e.addr = a) with
    | none => .error Fault.badHandle
    | some e =>
      let rc := Atomic_dec_return e.refCount
      if rc = VAYUIPCINT_MAKE_MAGICSTAMP k 0 then
        let m2 := { m1 with isrHandles := m1.isrHandles.filter (fun x => x.addr ≠ a) }
        let status := pf.OsalIsr_uninstall m2.trace
        let m3 := record m2 (Call.OsalIsr_uninstall e.isrHandle status)
        let tmpStatus := pf.OsalIsr_delete m3.trace
        let m4 := record m3 (Call.OsalIsr_delete e.isrHandle tmpStatus)
        let m5 := record m4 (Call.Memory_free a)
        if status ≥ 0 ∧ tmpStatus < 0 then .ok (tmpStatus, m5) else .ok (status, m5)
      else
        let dec := fun (x : VAYUIpcInt_isrHandleElem) =>
          if x.addr = a then { x with refCount := rc } else x
        .ok (k.VAYUIPCINT_SUCCESS, { m1 with isrHandles := m1.isrHandles.map dec })
  | _ => .error Fault.badHandle

/-- The source function `VAYUIpcInt_interruptUnregister(procId)`: the status returned and
the module state after the call. -/
def VAYUIpcInt_interruptUnregister (k : Codes) (pf : Platform) (m : VAYUIpcInt_ModuleObject)
    (procId : Nat) : Except Fault (Int × VAYUIpcInt_ModuleObject) :=
  if ¬ procId < MultiProc_MAXPROCESSORS then
    .error (Fault.objectOutOfBounds procId)
  else if Atomic_cmpmask_and_lt (m.isrObjects procId).isrRefCount
      (VAYUIPCINT_MAKE_MAGICSTAMP k 0) (VAYUIPCINT_MAKE_MAGICSTAMP k 1) = true then
    .ok (k.VAYUIPCINT_E_INVALIDSTATE, m)
  else
    unregisterHandle k pf (unregisterObject k m procId) (m.isrObjects procId).isrHandle

/-- A call of the registration interface. -/
inductive IntOp where
  | register (procId intId fxn fxnArgs : Nat)
  | unregister (procId : Nat)
  deriving DecidableEq, Repr

/-- One call of the registration interface. -/
def runOp (k : Codes) (pf : Platform) (m : VAYUIpcInt_ModuleObject) :
    IntOp → Except Fault (Int × VAYUIpcInt_ModuleObject)
  | IntOp.register procId intId fxn fxnArgs =>
    VAYUIpcInt_interruptRegister k pf m procId intId fxn fxnArgs
  | IntOp.unregister procId => VAYUIpcInt_interruptUnregister k pf m procId

/-- A sequence of calls of the registration interface, one after the other: for each call
the status it returned and the register accesses and service calls it made, and the module
state after the last call. -/
def runOps (k : Codes) (pf : Platform) :
    List IntOp → VAYUIpcInt_ModuleObject →
      Except Fault (List (Int × List Call) × VAYUIpcInt_ModuleObject)
  | [], m => .ok ([], m)
  | op :: ops, m =>
    match runOp k pf m op with
    | .error f => .error f
    | .ok (status, m1) =>
      match runOps k pf ops m1 with
      | .error f => .error f
      | .ok (rs, m2) => .ok ((status, m1.trace.drop m.trace.length) :: rs, m2)

/-- The writes of a trace to the interrupt crossbar (the control-module window). -/
def xbarWrites (d : List Call) : List (Nat × Nat) := writesIn Region.controlModule d

/-- The writes of a trace that disable a mailbox interrupt of the host: the writes to the
register IRQENABLE_CLR of the host user (offset 0x12C) in either mailbox, each with the mailbox
and the value written, in order. -/
def disableWrites : List Call → List (Region × Nat)
  | [] => []
  | Call.regWrite r o v :: cs =>
    if (r = Region.mailbox5 ∨ r = Region.mailbox6) ∧ o = 0x12C then (r, v) :: disableWrites cs
    else disableWrites cs
  | _ :: cs => disableWrites cs

/-- The reference of disabling the interrupt of a processor, following the specification: the
bit of the sub-channel on which the processor signals the host (bit 2 for the DSPs, on
sub-mailbox 1, and bit 8 for the IPUs, on sub-mailbox 4), in mailbox 5 for DSP1 and IPU1 and in
mailbox 6 for DSP2 and IPU2; nothing for a processor that is not one of the four. -/
def disableTarget (ids : Nat → Nat) (q : Nat) : Option (Region × Nat) :=
  if q = ids VAYU_INDEX_DSP1 then some (Region.mailbox5, 4)
  else if q = ids VAYU_INDEX_DSP2 then some (Region.mailbox6, 4)
  else if q = ids VAYU_INDEX_IPU1 then some (Region.mailbox5, 256)
  else if q = ids VAYU_INDEX_IPU2 then some (Region.mailbox6, 256)
  else none

/-- The offset of the crossbar register of the interrupt line `intId`, as
`VAYUIpcInt_interruptRegister` computes it: `CTRL_MODULE_INT_m_OFFSET(intId - 32)`. -/
def xbarOffset (intId : Nat) : Nat :=
  CTRL_MODULE_INT_m_OFFSET ((intId + 4294967296 - 32) % 4294967296)

/-- The processor id is that of one of the four remote processors. -/
def knownProc (ids : Nat → Nat) (q : Nat) : Prop :=
  q = ids VAYU_INDEX_DSP1 ∨ q = ids VAYU_INDEX_DSP2 ∨ q = ids VAYU_INDEX_IPU1 ∨
  q = ids VAYU_INDEX_IPU2

instance (ids : Nat → Nat) (q : Nat) : Decidable (knownProc ids q) := by
  unfold knownProc; infer_instance

/-- The processor is not registered: its reference count carries no stamp, or the stamp
with the count zero. -/
def unregistered (k : Codes) (m : VAYUIpcInt_ModuleObject) (q : Nat) : Prop :=
  (m.isrObjects q).isrRefCount &&& VAYUIPCINT_MAKE_MAGICSTAMP k 0 ≠ VAYUIPCINT_MAKE_MAGICSTAMP k 0 ∨
  (m.isrObjects q).isrRefCount = VAYUIPCINT_MAKE_MAGICSTAMP k 0

instance (k : Codes) (m : VAYUIpcInt_ModuleObject) (q : Nat) : Decidable (unregistered k m q) := by
  unfold unregistered; infer_instance

/-- The number of outstanding registrations over all processor slots. -/
def total (cnt : Nat → Nat) : Nat := ∑ q in Finset.range MultiProc_MAXPROCESSORS, cnt q

/-- The outstanding registrations per processor after a sequence of calls. -/
def countAfter : List IntOp → (Nat → Nat) → (Nat → Nat)
  | [], cnt => cnt
  | IntOp.register q _ _ _ :: ops, cnt => countAfter ops (Function.update cnt q (cnt q + 1))
  | IntOp.unregister q :: ops, cnt => countAfter ops (Function.update cnt q (cnt q - 1))

/-- A sequence of calls by the processors `procs` on the one interrupt line `intId` that all
succeed: the processor ids are slots of `isrObjects`, a processor is unregistered only while
it has an outstanding registration, and the outstanding registrations fit the 12-bit count
under the stamp. -/
def validOps (intId : Nat) (procs : List Nat) : List IntOp → (Nat → Nat) → Prop
  | [], _ => True
  | IntOp.register q i _ _ :: ops, cnt =>
    q ∈ procs ∧ q < MultiProc_MAXPROCESSORS ∧ i = intId ∧ total cnt < 4095 ∧
    validOps intId procs ops (Function.update cnt q (cnt q + 1))
  | IntOp.unregister q :: ops, cnt =>
    q ∈ procs ∧ q < MultiProc_MAXPROCESSORS ∧ 0 < cnt q ∧
    validOps intId procs ops (Function.update cnt q (cnt q - 1))

/-- What the calls of a sequence are expected to do to the line `intId`, from the counts
alone: for each call the number of handler installations, the crossbar registers written, the
number of handler removals and the interrupt-disable writes. A registration installs and
writes the crossbar register of the line when nothing is outstanding on the line; an
unregistration removes the handler when it is the last one outstanding on the line, and
disables the interrupt of the processor when it is the last one outstanding for the
processor. -/
def expectedLineCalls (ids : Nat → Nat) (intId : Nat) :
    List IntOp → (Nat → Nat) → List (Nat × List Nat × Nat × List (Region × Nat))
  | [], _ => []
  | IntOp.register q _ _ _ :: ops, cnt =>
    (if total cnt = 0 then (1, [xbarOffset intId], 0, []) else (0, [], 0, [])) ::
      expectedLineCalls ids intId ops (Function.update cnt q (cnt q + 1))
  | IntOp.unregister q :: ops, cnt =>
    (0, [], (if total cnt = 1 then 1 else 0),
        (if cnt q = 1 then (disableTarget ids q).toList else [])) ::
      expectedLineCalls ids intId ops (Function.update cnt q (cnt q - 1))

/-- What a call did to the line: the number of handler installations, the offsets of its
crossbar writes, the number of handler removals and its interrupt-disable writes. -/
def lineCalls (d : List Call) : Nat × List Nat × Nat × List (Region × Nat) :=
  ((installsOf d).length, (xbarWrites d).map Prod.fst, (uninstallsOf d).length,
    disableWrites d)

/-- The state of the registrations of the processors `procs` on line `intId` that
corresponds to the outstanding counts `cnt`, relative to a starting state `m0`: the processor
ids are those of `m0`; the total fits the 12-bit count; the processors are slots of
`isrObjects`; a processor with no outstanding
registration is unregistered and one with `c > 0` of them has the count `c` under the stamp;
the handles of other lines are those of `m0`; with nothing outstanding the list has no handle
for the line; otherwise it has exactly one, its count is the total under the stamp, no other
element shares its address, and every registered processor points to it. Of the calls made
since `m0`, every handler created was installed, and every handler uninstalled is the one
installed before it: with nothing outstanding every installed handler has been uninstalled,
otherwise all but the last, which is the handler that the handle of the line holds. -/
def registryInv (k : Codes) (m0 m : VAYUIpcInt_ModuleObject) (intId : Nat) (procs : List Nat)
    (cnt : Nat → Nat) : Prop :=
  m.procIds = m0.procIds ∧ total cnt ≤ 4095 ∧ (∀ q ∈ procs, q < MultiProc_MAXPROCESSORS) ∧
  (∀ q ∈ procs,
    (cnt q = 0 → unregistered k m q) ∧
    (0 < cnt q → (m.isrObjects q).isrRefCount = VAYUIPCINT_MAKE_MAGICSTAMP k (cnt q))) ∧
  (∀ x ∈ m.isrHandles, x.intId ≠ intId → x ∈ m0.isrHandles) ∧
  (total cnt = 0 → ∀ x ∈ m.isrHandles, x.intId ≠ intId) ∧
  (0 < total cnt → ∃ e, e ∈ m.isrHandles ∧ e.intId = intId ∧
    e.refCount = VAYUIPCINT_MAKE_MAGICSTAMP k (total cnt) ∧
    (∀ x ∈ m.isrHandles, x.intId = intId → x = e) ∧
    (∀ x ∈ m.isrHandles, x.addr = e.addr → x = e) ∧
    ∀ q ∈ procs, 0 < cnt q → (m.isrObjects q).isrHandle = ElemPtr.elem e.addr) ∧
  ∃ D, m.trace = m0.trace ++ D ∧ createsOf D = installsOf D ∧
    (total cnt = 0 → uninstallsOf D = installsOf D) ∧
    (0 < total cnt → ∀ x ∈ m.isrHandles, x.intId = intId →
      installsOf D = uninstallsOf D ++ [x.isrHandle])

/-- The platform on which the calls succeed: handler creation and installation succeed,
`Memory_alloc` returns memory that is not in use by a handle of `m0` and does not happen to
carry the stamp in its `refCount` field. -/
def platformSucceeds (k : Codes) (pf : Platform) (m0 : VAYUIpcInt_ModuleObject) : Prop :=
  (∀ h, pf.OsalIsr_create h ≠ 0) ∧ (∀ h, 0 ≤ pf.OsalIsr_install h) ∧
  (∀ h, pf.Memory_alloc h ≠ 0) ∧
  (∀ h, pf.garbage h &&& VAYUIPCINT_MAKE_MAGICSTAMP k 0 ≠ VAYUIPCINT_MAKE_MAGICSTAMP k 0) ∧
  (∀ h, ∀ x ∈ m0.isrHandles, x.addr ≠ pf.Memory_alloc h)

/-! ## The message-node pool: get_msg and put_msg -/

/-- The source function `get_msg()`: the node returned (`none` is `NULL`) and the state
after the call. The content of a fresh node is what the memory happens to hold. -/
def get_msg (pf : Platform) (m : VAYUIpcInt_ModuleObject) :
    Option VAYUIpcInt_MsgListElem × VAYUIpcInt_ModuleObject :=
  match m.msg_cache with
  | msg :: rest => (some msg, { m with msg_cache := rest, num_msg := m.num_msg - 1 })
  | [] =>
    let a := pf.Memory_alloc m.trace
    let fresh := pf.garbage m.trace
    let m1 := record m (Call.Memory_alloc a)
    if a = 0 then (none, m1) else (some { addr := a, msg := fresh }, m1)

/-- The source function `put_msg(msg)`. -/
def put_msg (m : VAYUIpcInt_ModuleObject) (msg : VAYUIpcInt_MsgListElem) :
    VAYUIpcInt_ModuleObject :=
  if m.num_msg ≥ (CACHE_NUM : Int) then
    record m (Call.Memory_free msg.addr)
  else
    { m with msg_cache := msg :: m.msg_cache, num_msg := m.num_msg + 1 }

/-- A call of the pool: `get_msg()`, or `put_msg` of a node. -/
inductive PoolOp where
  | get
  | put (msg : VAYUIpcInt_MsgListElem)
  deriving DecidableEq, Repr

/-- A sequence of `get_msg` and `put_msg` calls, one after the other. -/
def runPool (pf : Platform) : List PoolOp → VAYUIpcInt_ModuleObject → VAYUIpcInt_ModuleObject
  | [], m => m
  | PoolOp.get :: ops, m => runPool pf ops (get_msg pf m).2
  | PoolOp.put msg :: ops, m => runPool pf ops (put_msg m msg)

/-- Consecutive `get_msg()` calls: what each returned, in order, and the state after them. -/
def getMany (pf : Platform) :
    Nat → VAYUIpcInt_ModuleObject → List (Option VAYUIpcInt_MsgListElem) × VAYUIpcInt_ModuleObject
  | 0, m => ([], m)
  | n + 1, m =>
    let r := get_msg pf m
    let rs := getMany pf n r.2
    (r.1 :: rs.1, rs.2)

/-- Consecutive `put_msg` calls, one for each node of the list, in order. -/
def putMany (m : VAYUIpcInt_ModuleObject) (msgs : List VAYUIpcInt_MsgListElem) :
    VAYUIpcInt_ModuleObject :=
  msgs.foldl put_msg m

/-- The invariant of the pool: `num_msg` counts the cached nodes, and there are at most
`CACHE_NUM` of them. -/
def poolInvariant (m : VAYUIpcInt_ModuleObject) : Prop :=
  m.num_msg = (m.msg_cache.length : Int) ∧ m.msg_cache.length ≤ CACHE_NUM

instance (m : VAYUIpcInt_ModuleObject) : Decidable (poolInvariant m) := by
  unfold poolInvariant; infer_instance

/-! ## The fast clear phase: _VAYUIpcInt_checkAndClearFunc -/

/-- The source function `VAYUIpcInt_clearInterrupt(procId, mboxNum)`: the word returned and
the state after the call. -/
def VAYUIpcInt_clearInterrupt (pf : Platform) (m : VAYUIpcInt_ModuleObject)
    (procId mboxNum : Nat) : Nat × VAYUIpcInt_ModuleObject :=
  let mailboxBase :=
    if procId = m.procIds VAYU_INDEX_IPU2 ∨ procId = m.procIds VAYU_INDEX_DSP2 then
      Region.mailbox6
    else
      Region.mailbox5
  if mboxNum < MAILBOX_MAXNUM then
    let (retVal, m1) := REG32_read pf m mailboxBase (MAILBOX_MESSAGE_m_OFFSET mboxNum)
    (retVal, REG32_write m1 mailboxBase
      (MAILBOX_IRQSTATUS_CLEAR_OFFSET + 0x10 * VAYU_HOST_USER_ID) (0x1 <<< (mboxNum <<< 1)))
  else
    (0, m)

/-- The call `List_put(VAYUIpcInt_state.isrLists[procId], elem)`: the node goes to the
tail of the list of the slot. The lists exist for the slots below `maxProcessors`. -/
def listPut (m : VAYUIpcInt_ModuleObject) (procId : Nat) (elem : VAYUIpcInt_MsgListElem) :
    Except Fault VAYUIpcInt_ModuleObject :=
  if procId < m.maxProcessors then
    .ok { m with isrLists := Function.update m.isrLists procId (m.isrLists procId ++ [elem]) }
  else
    .error (Fault.noList procId)

/-- The lines `elem = get_msg(); if (elem) { elem->msg = msg; List_put(isrLists[procId], elem); }`
that end each block of `_VAYUIpcInt_checkAndClearFunc`. -/
def queueMsg (pf : Platform) (m : VAYUIpcInt_ModuleObject) (procId msg : Nat) :
    Except Fault VAYUIpcInt_ModuleObject :=
  match get_msg pf m with
  | (some e, m1) => listPut m1 procId { e with msg := msg }
  | (none, m1) => .ok m1

/-- One of the four blocks of `_VAYUIpcInt_checkAndClearFunc`: the block that tests the
message-status register of sub-mailbox `subMbox` in the window `base` and serves the
processor `procIds[index]`. -/
def checkAndClearBlock (pf : Platform) (m : VAYUIpcInt_ModuleObject) (base : Region)
    (subMbox index : Nat) : Except Fault VAYUIpcInt_ModuleObject :=
  let (status, m1) := REG32_read pf m base (MAILBOX_MSGSTATUS_m_OFFSET subMbox)
  if status ≠ 0 then
    let procId := m1.procIds index
    let (msg, m2) := VAYUIpcInt_clearInterrupt pf m1 procId subMbox
    queueMsg pf m2 procId msg
  else
    .ok m1

/-- The source function `_VAYUIpcInt_checkAndClearFunc`: the value returned and the state
after the call. -/
def _VAYUIpcInt_checkAndClearFunc (pf : Platform) (m : VAYUIpcInt_ModuleObject) :
    Except Fault (Bool × VAYUIpcInt_ModuleObject) :=
  match checkAndClearBlock pf m Region.mailbox6 IPU2_HOST_SUB_MBOX VAYU_INDEX_IPU2 with
  | .error f => .error f
  | .ok m1 =>
    match checkAndClearBlock pf m1 Region.mailbox5 IPU1_HOST_SUB_MBOX VAYU_INDEX_IPU1 with
    | .error f => .error f
    | .ok m2 =>
      match checkAndClearBlock pf m2 Region.mailbox6 DSP2_HOST_SUB_MBOX VAYU_INDEX_DSP2 with
      | .error f => .error f
      | .ok m3 =>
        match checkAndClearBlock pf m3 Region.mailbox5 DSP1_HOST_SUB_MBOX VAYU_INDEX_DSP1 with
        | .error f => .error f
        | .ok m4 => .ok (true, m4)

/-- A source of notifications as the specification names it: the mailbox window and the
sub-channel on which the processor signals the host, and the index of the processor. -/
structure Source where
  base : Region
  subMbox : Nat
  index : Nat
  deriving DecidableEq, Repr

def sourceIPU2 : Source :=
  { base := Region.mailbox6, subMbox := IPU2_HOST_SUB_MBOX, index := VAYU_INDEX_IPU2 }
def sourceIPU1 : Source :=
  { base := Region.mailbox5, subMbox := IPU1_HOST_SUB_MBOX, index := VAYU_INDEX_IPU1 }
def sourceDSP2 : Source :=
  { base := Region.mailbox6, subMbox := DSP2_HOST_SUB_MBOX, index := VAYU_INDEX_DSP2 }
def sourceDSP1 : Source :=
  { base := Region.mailbox5, subMbox := DSP1_HOST_SUB_MBOX, index := VAYU_INDEX_DSP1 }

/-- The reference of queueing a word, following the specification: obtain a node and
append the word to the tail of the pending list of the processor, or drop the word (the
pending list stays as it is) when no node can be obtained. -/
def appendPending (pf : Platform) (m : VAYUIpcInt_ModuleObject) (procId word : Nat) :
    VAYUIpcInt_ModuleObject :=
  match get_msg pf m with
  | (some node, m1) =>
    { m1 with isrLists :=
        Function.update m1.isrLists procId (m1.isrLists procId ++ [{ node with msg := word }]) }
  | (none, m1) => m1

/-- The reference of the fast-clear step for one source, following the specification:
read the message-status register of the source; if it is zero touch nothing else;
otherwise pop one word from the FIFO of the source (its message register), acknowledge
the sub-channel with bit 2 * subChannel of the IRQSTATUS_CLR register of the host user,
and queue the word for the processor of the source. -/
def fastClearStep (pf : Platform) (m : VAYUIpcInt_ModuleObject) (s : Source) :
    VAYUIpcInt_ModuleObject :=
  let status := pf.readReg m.trace s.base (0xC0 + 4 * s.subMbox) % 2 ^ 32
  let m1 := record m (Call.regRead s.base (0xC0 + 4 * s.subMbox) status)
  if status = 0 then
    m1
  else
    let word := pf.readReg m1.trace s.base (0x40 + 4 * s.subMbox) % 2 ^ 32
    let m2 := record m1 (Call.regRead s.base (0x40 + 4 * s.subMbox) word)
    let m3 := record m2 (Call.regWrite s.base (0x104 + 0x10 * 2) (2 ^ (2 * s.subMbox)))
    appendPending pf m3 (m.procIds s.index) word

/-- The reference of the fast-clear phase: the four sources in the order IPU2, IPU1, DSP2,
DSP1, and the result TRUE. -/
def fastClearReference (pf : Platform) (m : VAYUIpcInt_ModuleObject) :
    Bool × VAYUIpcInt_ModuleObject :=
  (true, [sourceIPU2, sourceIPU1, sourceDSP2, sourceDSP1].foldl (fastClearStep pf) m)

/-- The four processors are known: their ids are slots that have a pending list, and the
ids of the two processors on mailbox 5 differ from those of the two on mailbox 6. -/
def knownProcIds (m : VAYUIpcInt_ModuleObject) : Prop :=
  m.procIds VAYU_INDEX_IPU2 < m.maxProcessors ∧ m.procIds VAYU_INDEX_IPU1 < m.maxProcessors ∧
  m.procIds VAYU_INDEX_DSP2 < m.maxProcessors ∧ m.procIds VAYU_INDEX_DSP1 < m.maxProcessors ∧
  m.procIds VAYU_INDEX_IPU1 ≠ m.procIds VAYU_INDEX_IPU2 ∧
  m.procIds VAYU_INDEX_IPU1 ≠ m.procIds VAYU_INDEX_DSP2 ∧
  m.procIds VAYU_INDEX_DSP1 ≠ m.procIds VAYU_INDEX_IPU2 ∧
  m.procIds VAYU_INDEX_DSP1 ≠ m.procIds VAYU_INDEX_DSP2

instance (m : VAYUIpcInt_ModuleObject) : Decidable (knownProcIds m) := by
  unfold knownProcIds; infer_instance

/-! ## The deferred dispatch phase: _VAYUIpcInt_isr -/

/-- The body of the loop of `_VAYUIpcInt_isr` for slot `i`. What the callback does is the
business of the callback. -/
def isrSlot (m : VAYUIpcInt_ModuleObject) (i : Nat) : VAYUIpcInt_ModuleObject :=
  match m.isrLists i with
  | [] => m
  | elem :: rest =>
    let m1 := { m with isrLists := Function.update m.isrLists i rest }
    let m2 :=
      if (m1.isrObjects i).fxn ≠ 0 then
        record m1 (Call.callback (m1.isrObjects i).fxn elem.msg (m1.isrObjects i).fxnArgs)
      else
        m1
    put_msg m2 elem

/-- The source function `_VAYUIpcInt_isr`: the loop over the slots
`0 .. maxProcessors - 1`, and the result TRUE. -/
def _VAYUIpcInt_isr (m : VAYUIpcInt_ModuleObject) : Bool × VAYUIpcInt_ModuleObject :=
  (true, (List.range m.maxProcessors).foldl isrSlot m)

/-- The callback invocation that a pass of `_VAYUIpcInt_isr` owes slot `i` in state `m`:
the registered function with the oldest pending message and the registered argument, if
there is a pending message and a registered function. -/
def slotCallback (m : VAYUIpcInt_ModuleObject) (i : Nat) : Option (Nat × Nat × Nat) :=
  match m.isrLists i with
  | [] => none
  | elem :: _ =>
    if (m.isrObjects i).fxn ≠ 0 then
      some ((m.isrObjects i).fxn, elem.msg, (m.isrObjects i).fxnArgs)
    else
      none

/-- The node pool as the pool functions see and leave it: the cached nodes, `num_msg`,
and the nodes freed so far. -/
def poolView (m : VAYUIpcInt_ModuleObject) : List VAYUIpcInt_MsgListElem × Int × List Nat :=
  (m.msg_cache, m.num_msg, freesOf m.trace)

/-! ## Example states -/

/-- Status codes and module id for the concrete evaluations. -/
def exampleCodes : Codes :=
  { VAYUIPCINT_MODULEID := 0xF8A7, VAYUIPCINT_SUCCESS := 0, VAYUIPCINT_S_ALREADYREGISTERED := 1,
    VAYUIPCINT_E_FAIL := -1, VAYUIPCINT_E_MEMORY := -2, VAYUIPCINT_E_INVALIDSTATE := -3 }

/-- A platform on which IPU2 has one word (0x2A) pending for the host, every other status
register reads zero, allocations succeed at fresh addresses and the interrupt services
succeed. -/
def examplePlatform : Platform :=
  { readReg := fun _ r offset =>
      if r = Region.mailbox6 ∧ offset = 0xD0 then 1
      else if r = Region.mailbox6 ∧ offset = 0x50 then 0x2A
      else 0,
    Memory_alloc := fun h => 0x1000 + 16 * h.length,
    garbage := fun _ => 0,
    OsalIsr_create := fun _ => 7,
    OsalIsr_install := fun _ => 0,
    OsalIsr_uninstall := fun _ => 0,
    OsalIsr_delete := fun _ => 0 }

/-- The module state after setup on a system with the five processors HOST, IPU2, IPU1,
DSP2, DSP1: nothing registered, no pending message, empty node pool. -/
def exampleModule : VAYUIpcInt_ModuleObject :=
  { isrHandles := [], procIds := fun i => i, maxProcessors := 5,
    isrObjects := fun _ =>
      { isrRefCount := 0, asserted := 1, recvIntId := 0, fxn := 0, fxnArgs := 0,
        isrHandle := ElemPtr.null },
    isrLists := fun _ => [], msg_cache := [], num_msg := 0, trace := [] }

/-- The example state with a full node pool. -/
def exampleFullPool : VAYUIpcInt_ModuleObject :=
  { exampleModule with
    msg_cache := (List.range 20).map (fun i => { addr := 0x2000 + 16 * i, msg := 0 }),
    num_msg := 20 }

/-- The example state with one message pending for slot 1, which has no callback registered
(the state of a slot after its last unregistration). -/
def examplePendingUnregistered : VAYUIpcInt_ModuleObject :=
  { exampleModule with
    isrLists := fun i => if i = 1 then [{ addr := 0x3000, msg := 0x2A }] else [] }

/-- The example state after processor 1 registered the callback 0x500 on line 77. -/
def exampleRegistered : VAYUIpcInt_ModuleObject :=
  { exampleModule with
    isrHandles := [{ addr := 0x1000, isrHandle := 7, intId := 77, refCount := 0xF8A7001 }],
    isrObjects := fun q =>
      if q = 1 then
        { isrRefCount := 0xF8A7001, asserted := 1, recvIntId := 77, fxn := 0x500,
          fxnArgs := 0x600, isrHandle := ElemPtr.elem 0x1000 }
      else exampleModule.isrObjects q }

instance validOps_decidable (i : Nat) (procs : List Nat) :
    ∀ (ops : List IntOp) (cnt : Nat → Nat), Decidable (validOps i procs ops cnt)
  | [], _ => isTrue trivial
  | IntOp.register q j _ _ :: ops, cnt =>
    have := validOps_decidable i procs ops (Function.update cnt q (cnt q + 1))
    by unfold validOps; infer_instance
  | IntOp.unregister q :: ops, cnt =>
    have := validOps_decidable i procs ops (Function.update cnt q (cnt q - 1))
    by unfold validOps; infer_instance

/-! ## Sending: VAYUIpcInt_waitClearInterrupt and VAYUIpcInt_sendInterrupt -/

/-- The loop `while (REG32(base + offset) & 0x3F);` of `VAYUIpcInt_waitClearInterrupt`: the
state when it stops, or `none` when it is still waiting after `fuel` reads. -/
def waitStatusClear (pf : Platform) (r : Region) (offset : Nat) :
    Nat → VAYUIpcInt_ModuleObject → Option VAYUIpcInt_ModuleObject
  | 0, _ => none
  | fuel + 1, m =>
    if (REG32_read pf m r offset).1 &&& 0x3F ≠ 0 then
      waitStatusClear pf r offset fuel (REG32_read pf m r offset).2
    else
      some (REG32_read pf m r offset).2

/-- The source function `VAYUIpcInt_waitClearInterrupt(procId, intId)`; `none` when the loop
is still waiting after `fuel` reads. -/
def VAYUIpcInt_waitClearInterrupt (k : Codes) (pf : Platform) (fuel : Nat)
    (m : VAYUIpcInt_ModuleObject) (procId _intId : Nat) :
    Option (Int × VAYUIpcInt_ModuleObject) :=
  if procId = m.procIds VAYU_INDEX_DSP1 then
    (waitStatusClear pf Region.mailbox5 (MAILBOX_MSGSTATUS_m_OFFSET HOST_DSP1_SUB_MBOX) fuel m).map
      (fun m1 => (k.VAYUIPCINT_SUCCESS, m1))
  else if procId = m.procIds VAYU_INDEX_DSP2 then
    (waitStatusClear pf Region.mailbox6 (MAILBOX_MSGSTATUS_m_OFFSET HOST_DSP2_SUB_MBOX) fuel m).map
      (fun m1 => (k.VAYUIPCINT_SUCCESS, m1))
  else if procId = m.procIds VAYU_INDEX_IPU1 then
    (waitStatusClear pf Region.mailbox5 (MAILBOX_MSGSTATUS_m_OFFSET HOST_IPU1_SUB_MBOX) fuel m).map
      (fun m1 => (k.VAYUIPCINT_SUCCESS, m1))
  else if procId = m.procIds VAYU_INDEX_IPU2 then
    (waitStatusClear pf Region.mailbox6 (MAILBOX_MSGSTATUS_m_OFFSET HOST_IPU2_SUB_MBOX) fuel m).map
      (fun m1 => (k.VAYUIPCINT_SUCCESS, m1))
  else
    some (k.VAYUIPCINT_E_FAIL, m)

/-- The source function `VAYUIpcInt_sendInterrupt(procId, intId, value)`. -/
def VAYUIpcInt_sendInterrupt (k : Codes) (m : VAYUIpcInt_ModuleObject)
    (procId _intId value : Nat) : Int × VAYUIpcInt_ModuleObject :=
  if procId = m.procIds VAYU_INDEX_DSP1 then
    (k.VAYUIPCINT_SUCCESS,
      REG32_write m Region.mailbox5 (MAILBOX_MESSAGE_m_OFFSET HOST_DSP1_SUB_MBOX) value)
  else if procId = m.procIds VAYU_INDEX_DSP2 then
    (k.VAYUIPCINT_SUCCESS,
      REG32_write m Region.mailbox6 (MAILBOX_MESSAGE_m_OFFSET HOST_DSP2_SUB_MBOX) value)
  else if procId = m.procIds VAYU_INDEX_IPU1 then
    (k.VAYUIPCINT_SUCCESS,
      REG32_write m Region.mailbox5 (MAILBOX_MESSAGE_m_OFFSET HOST_IPU1_SUB_MBOX) value)
  else if procId = m.procIds VAYU_INDEX_IPU2 then
    (k.VAYUIPCINT_SUCCESS,
      REG32_write m Region.mailbox6 (MAILBOX_MESSAGE_m_OFFSET HOST_IPU2_SUB_MBOX) value)
  else
    (k.VAYUIPCINT_E_FAIL, m)

/-- The routing table of the two functions: the mailbox block and the sub-channel on which the
host sends to a processor. -/
def sendRoute (m : VAYUIpcInt_ModuleObject) (procId : Nat) : Option (Region × Nat) :=
  if procId = m.procIds VAYU_INDEX_DSP1 then some (Region.mailbox5, HOST_DSP1_SUB_MBOX)
  else if procId = m.procIds VAYU_INDEX_DSP2 then some (Region.mailbox6, HOST_DSP2_SUB_MBOX)
  else if procId = m.procIds VAYU_INDEX_IPU1 then some (Region.mailbox5, HOST_IPU1_SUB_MBOX)
  else if procId = m.procIds VAYU_INDEX_IPU2 then some (Region.mailbox6, HOST_IPU2_SUB_MBOX)
  else none

/-- The trace after `n` more reads of one register. -/
def traceAfterReads (pf : Platform) (r : Region) (offset : Nat) : Nat → List Call → List Call
  | 0, tr => tr
  | n + 1, tr =>
    traceAfterReads pf r offset n
      (tr ++ [Call.regRead r offset (pf.readReg tr r offset % 4294967296)])

/-- A hardware on which every register reads 1: the message-status registers report one
message that is never drained. -/
def busyPlatform : Platform :=
  { examplePlatform with readReg := fun _ _ _ => 1 }

end VAYUIpcInt

/-! # MessageQ daemon: creation of a queue

Embedding of `MessageQ_create` and `_MessageQ_grow` of
`src/linux/src/daemon/MessageQ_daemon.c`. The table `MessageQ_module->queues` is a list of
slots (`none` is NULL, `some h` a handle); an access outside the allocated table is a fault. -/

namespace MessageQ

/-- Undefined behaviour of the C code, made explicit. -/
inductive Fault where
  /-- An access `queues[i]` outside the allocated table. -/
  | queuesOutOfBounds (i : Nat)
  /-- A store through the NULL result of the unchecked `calloc` of `_MessageQ_grow`. -/
  | nullTable
  deriving DecidableEq, Repr

/-- Number of entries to grow when the table runs out of indexes (line 86). -/
def MessageQ_GROWSIZE : Nat := 32

/-- Values fixed by headers and by the target that are not among the sources. -/
structure Target where
  /-- The value `MessageQ_ANY` of `params->queueIndex` (a `UInt16`). -/
  MessageQ_ANY : Nat
  /-- The value of `sizeof(MessageQ_Handle)`. -/
  sizeofHandle : Nat
  deriving Repr

/-- The fields of `MessageQ_ModuleObject` that the creation of a queue uses, with
`cfg->numReservedEntries`. -/
structure MessageQ_ModuleObject where
  queues : List (Option Nat)
  numQueues : Nat
  canFreeQueues : Bool
  numReservedEntries : Nat
  deriving DecidableEq, Repr

/-- The search of `MessageQ_create` for a hole (lines 326-333):
`for (i = numReserved; i < count; i++) if (queues[i] == NULL) ...`, with `n` the number of
indexes left below `count`. The result is the index of the first NULL slot, if any. -/
def findHole (queues : List (Option Nat)) : Nat → Nat → Except Fault (Option Nat)
  | _, 0 => .ok none
  | i, n + 1 =>
    match queues.get? i with
    | none => .error (Fault.queuesOutOfBounds i)
    | some none => .ok (some i)
    | some (some _) => findHole queues (i + 1) n

/-- The function `_MessageQ_grow` (lines 454-490): a table with `MessageQ_GROWSIZE` more
entries receives the first `oldSize` bytes of the old one, with `oldSize` a `UInt16`, and the
object at index `numQueues`. `allocOk` says whether the `calloc` of the table succeeds; its
result is not checked. The result is the index and the state. -/
def _MessageQ_grow (t : Target) (allocOk : Bool) (m : MessageQ_ModuleObject) (obj : Nat) :
    Except Fault (Nat × MessageQ_ModuleObject) :=
  let queueIndex := m.numQueues % 65536
  let oldSize := (m.numQueues * t.sizeofHandle) % 65536
  if ¬ allocOk then
    .error Fault.nullTable
  else
    let fresh : List (Option Nat) := List.replicate (m.numQueues + MessageQ_GROWSIZE) none
    if m.queues.length < oldSize / t.sizeofHandle then
      .error (Fault.queuesOutOfBounds m.queues.length)
    else
      let queues := m.queues.take (oldSize / t.sizeofHandle) ++
        fresh.drop (oldSize / t.sizeofHandle)
      if queueIndex < queues.length then
        .ok (queueIndex, { m with
          queues := queues.set queueIndex (some obj),
          numQueues := (m.numQueues + MessageQ_GROWSIZE) % 65536,
          canFreeQueues := true })
      else
        .error (Fault.queuesOutOfBounds queueIndex)

/-- The function `MessageQ_create` (lines 275-365) up to the choice of the index. `objAlloc`
is the result of the `calloc` of the object (`none` is NULL), `paramsQueueIndex` is
`params->queueIndex`. The result is NULL (`none`) or the handle with the index that its
queue id carries, and the state of the module. -/
def MessageQ_create (t : Target) (objAlloc : Option Nat) (growAllocOk : Bool)
    (m : MessageQ_ModuleObject) (paramsQueueIndex : Nat) :
    Except Fault (Option (Nat × Nat) × MessageQ_ModuleObject) :=
  match objAlloc with
  | none => .ok (none, m)
  | some obj =>
    let numReserved := m.numReservedEntries
    if paramsQueueIndex ≠ t.MessageQ_ANY then
      let queueIndex := paramsQueueIndex
      if queueIndex > numReserved then
        .ok (none, m)
      else
        match m.queues.get? queueIndex with
        | none => .error (Fault.queuesOutOfBounds queueIndex)
        | some (some _) => .ok (none, m)
        | some none =>
          .ok (some (obj, queueIndex), { m with queues := m.queues.set queueIndex (some obj) })
    else
      let count := m.numQueues
      match findHole m.queues numReserved (count - numReserved) with
      | .error f => .error f
      | .ok (some i) =>
        .ok (some (obj, i % 65536), { m with queues := m.queues.set i (some obj) })
      | .ok none =>
        match _MessageQ_grow t growAllocOk m obj with
        | .error f => .error f
        | .ok (queueIndex, m1) => .ok (some (obj, queueIndex), m1)

/-- A target with `MessageQ_ANY = 0xFFFF` and pointers of 8 bytes. -/
def exampleTarget : Target := { MessageQ_ANY := 0xFFFF, sizeofHandle := 8 }

/-- A module after setup with 4 entries, all free, of which the first 2 are reserved
(indexes 0 and 1). -/
def exampleState : MessageQ_ModuleObject :=
  { queues := [none, none, none, none], numQueues := 4, canFreeQueues := true,
    numReservedEntries := 2 }

end MessageQ

/-! # DSP MMU: splitting an entry into pages

Embedding of `_VAYUDSP_halMmuAddEntry`, `_VAYUDSP_halMmuPteSet` and
`VAYUDSP_InternalMMU_PteSet` of
`src/qnx/src/ipc3x_dev/ti/syslink/family/vayu/vayudsp/VAYUDspHalMmu.c`. `UInt32` values are
naturals with explicit `% 2^32`, `Int32` and `Int` values are integers, the calls made are
recorded in a trace, and the loop takes fuel. -/

namespace VAYUDspHalMmu

/-- Values of the headers `VAYUDspHalMmu.h`, `Processor.h`, `_ProcDefs.h` and `MMUAccInt.h`,
which are not among the sources. -/
structure Consts where
  PAGE_SIZE_4KB : Nat
  PAGE_SIZE_64KB : Nat
  PAGE_SIZE_1MB : Nat
  PAGE_SIZE_16MB : Nat
  PROCESSOR_SUCCESS : Int
  PROCESSOR_E_INVALIDARG : Int
  PROCESSOR_E_STOREENTERY : Int
  VAYUDSPPROC_E_MMUCONFIG : Int
  ELEM_SIZE_8BIT : Nat
  ELEM_SIZE_16BIT : Nat
  ELEM_SIZE_32BIT : Nat
  ELEM_SIZE_64BIT : Nat
  LITTLE_ENDIAN : Nat
  BIG_ENDIAN : Nat
  MMU_TLBES : Nat
  MMU_CPUES : Nat
  MMU_CAM_PGSZ_16M : Nat
  MMU_CAM_PGSZ_1M : Nat
  MMU_CAM_PGSZ_64K : Nat
  MMU_CAM_PGSZ_4K : Nat
  MMU_RAM_ELSZ_8 : Nat
  MMU_RAM_ELSZ_16 : Nat
  MMU_RAM_ELSZ_32 : Nat
  MMU_RAM_ENDIAN_LITTLE : Nat
  MMU_RAM_ENDIAN_BIG : Nat
  MMU_RAM_MIXED : Nat
  deriving Repr

/-- The macro `MMU_RAM_DEFAULT` (line 88). -/
def MMU_RAM_DEFAULT : Nat := 0

/-- The macro `MMU_CAM_PRESERVE` (line 113): `1 << 3`. -/
def MMU_CAM_PRESERVE : Nat := 1 <<< 3

/-- The macro `MMU_CAM_VALID` (line 114): `1 << 2`. -/
def MMU_CAM_VALID : Nat := 1 <<< 2

/-- The fields of `VAYUDSP_HalMmuEntryInfo` that the functions use. -/
structure VAYUDSP_HalMmuEntryInfo where
  size : Nat
  slaveVirtAddr : Nat
  masterPhyAddr : Nat
  elementSize : Nat
  endianism : Nat
  mixedSize : Nat
  deriving DecidableEq, Repr

/-- The fields of `struct iotlb_entry` that `_VAYUDSP_halMmuPteSet` fills. A field that a
`default` case leaves unset is `none`. -/
structure iotlb_entry where
  da : Nat
  pa : Nat
  pgsz : Option Nat
  prsvd : Nat
  valid : Nat
  elsz : Option Nat
  endian : Option Nat
  mixed : Option Nat
  deriving DecidableEq, Repr

/-- The two page-table bases of `VAYUDSP_HalObject`. -/
structure VAYUDSP_HalObject where
  mmu0Base : Nat
  mmu1Base : Nat
  deriving DecidableEq, Repr

/-- The calls that the functions make, in order. -/
inductive Call where
  /-- A call `_VAYUDSP_halMmuPteSet (halObject, &te)`. -/
  | halMmuPteSet (te : VAYUDSP_HalMmuEntryInfo)
  /-- A call `VAYUDSP_InternalMMU_PteSet (pgTblVa, &tlb_entry)`. -/
  | InternalMMU_PteSet (pgTblVa : Nat) (e : iotlb_entry)
  /-- The messages of the branch "MMU entries must be aligned to their page size". -/
  | configError
  deriving DecidableEq, Repr

/-- The conversion of a value to `Int32`, wrapping. -/
def toInt32 (x : Int) : Int :=
  if x % 4294967296 < 2147483648 then x % 4294967296 else x % 4294967296 - 4294967296

/-- The complement `~x` of a 32-bit value. -/
def not32 (x : Nat) : Nat := 4294967295 - x % 4294967296

/-- The macro `MMUPAGE_ALIGN(size, psz)` (line 139): `(((size) + psz - 1) & ~(psz -1))`,
on 32 bits. -/
def MMUPAGE_ALIGN (size psz : Nat) : Nat :=
  ((size + psz - 1) % 4294967296) &&& not32 (psz - 1)

/-- The function `VAYUDSP_InternalMMU_PteSet` (lines 947-1011): its body is under
`#ifdef MMUTEST`, which no source defines, so that it returns `status = 0`. The call is
recorded. -/
def VAYUDSP_InternalMMU_PteSet (tr : List Call) (pgTblVa : Nat) (mapAttrs : iotlb_entry) :
    Int × List Call :=
  (0, tr ++ [Call.InternalMMU_PteSet pgTblVa mapAttrs])

/-- The `switch (setPteInfo->size)` of `_VAYUDSP_halMmuPteSet` (lines 1037-1057); `none` is
the `default` case. -/
def pgszOf (c : Consts) (size : Nat) : Option Nat :=
  if size = c.PAGE_SIZE_16MB then some c.MMU_CAM_PGSZ_16M
  else if size = c.PAGE_SIZE_1MB then some c.MMU_CAM_PGSZ_1M
  else if size = c.PAGE_SIZE_64KB then some c.MMU_CAM_PGSZ_64K
  else if size = c.PAGE_SIZE_4KB then some c.MMU_CAM_PGSZ_4K
  else none

/-- The `switch (setPteInfo->elementSize)` (lines 1064-1085); `none` is the `default`
case. -/
def elszOf (c : Consts) (elementSize : Nat) : Option Nat :=
  if elementSize = c.ELEM_SIZE_8BIT then some c.MMU_RAM_ELSZ_8
  else if elementSize = c.ELEM_SIZE_16BIT then some c.MMU_RAM_ELSZ_16
  else if elementSize = c.ELEM_SIZE_32BIT then some c.MMU_RAM_ELSZ_32
  else if elementSize = c.ELEM_SIZE_64BIT then some 0x3
  else none

/-- The `switch (setPteInfo->endianism)` (lines 1090-1106); `none` is the `default` case. -/
def endianOf (c : Consts) (endianism : Nat) : Option Nat :=
  if endianism = c.LITTLE_ENDIAN then some c.MMU_RAM_ENDIAN_LITTLE
  else if endianism = c.BIG_ENDIAN then some c.MMU_RAM_ENDIAN_BIG
  else none

/-- The `switch (setPteInfo->mixedSize)` (lines 1111-1127); `none` is the `default` case. -/
def mixedOf (c : Consts) (mixedSize : Nat) : Option Nat :=
  if mixedSize = c.MMU_TLBES then some MMU_RAM_DEFAULT
  else if mixedSize = c.MMU_CPUES then some c.MMU_RAM_MIXED
  else none

/-- The function `_VAYUDSP_halMmuPteSet` (lines 1021-1160), in the build without
`IPC_BUILD_OPTIMIZE`: each `switch` sets `PROCESSOR_E_INVALIDARG` in its `default` case, the
next one runs under `if (status >= 0)`; after the last one the entry is stored in both MMUs,
and a store that fails sets `PROCESSOR_E_STOREENTERY`. The result is the status and the
trace. -/
def _VAYUDSP_halMmuPteSet (c : Consts) (halObject : VAYUDSP_HalObject) (tr : List Call)
    (setPteInfo : VAYUDSP_HalMmuEntryInfo) : Int × List Call :=
  let tr0 := tr ++ [Call.halMmuPteSet setPteInfo]
  let pgsz := pgszOf c setPteInfo.size
  let status1 := if pgsz = none then c.PROCESSOR_E_INVALIDARG else c.PROCESSOR_SUCCESS
  if status1 ≥ 0 then
    let elsz := elszOf c setPteInfo.elementSize
    let status2 := if elsz = none then c.PROCESSOR_E_INVALIDARG else status1
    if status2 ≥ 0 then
      let endian := endianOf c setPteInfo.endianism
      let status3 := if endian = none then c.PROCESSOR_E_INVALIDARG else status2
      if status3 ≥ 0 then
        let mixed := mixedOf c setPteInfo.mixedSize
        let status4 := if mixed = none then c.PROCESSOR_E_INVALIDARG else status3
        let tlb_entry : iotlb_entry :=
          { da := setPteInfo.slaveVirtAddr, pa := setPteInfo.masterPhyAddr, pgsz := pgsz,
            prsvd := MMU_CAM_PRESERVE, valid := MMU_CAM_VALID, elsz := elsz, endian := endian,
            mixed := mixed }
        let r0 := VAYUDSP_InternalMMU_PteSet tr0 halObject.mmu0Base tlb_entry
        let status5 := if r0.1 ≠ 0 then c.PROCESSOR_E_STOREENTERY else status4
        let r1 := VAYUDSP_InternalMMU_PteSet r0.2 halObject.mmu1Base tlb_entry
        let status6 := if r1.1 ≠ 0 then c.PROCESSOR_E_STOREENTERY else status5
        (status6, r1.2)
      else (status3, tr0)
    else (status2, tr0)
  else (status1, tr0)

/-- The choice of the page size in the loop of `_VAYUDSP_halMmuAddEntry` (lines 735-750):
the largest of 16MB, 1MB, 64KB, 4KB that is at most `currentEntrySize` (an `Int32`) and to
which `slaveVirtAddr` is aligned; `none` is the final `else` branch. -/
def pageSizeFor (c : Consts) (currentEntrySize : Int) (slaveVirtAddr : Nat) : Option Nat :=
  if currentEntrySize ≥ c.PAGE_SIZE_16MB ∧ slaveVirtAddr &&& (c.PAGE_SIZE_16MB - 1) = 0 then
    some c.PAGE_SIZE_16MB
  else if currentEntrySize ≥ c.PAGE_SIZE_1MB ∧ slaveVirtAddr &&& (c.PAGE_SIZE_1MB - 1) = 0 then
    some c.PAGE_SIZE_1MB
  else if currentEntrySize ≥ c.PAGE_SIZE_64KB ∧
      slaveVirtAddr &&& (c.PAGE_SIZE_64KB - 1) = 0 then
    some c.PAGE_SIZE_64KB
  else if currentEntrySize ≥ c.PAGE_SIZE_4KB ∧ slaveVirtAddr &&& (c.PAGE_SIZE_4KB - 1) = 0 then
    some c.PAGE_SIZE_4KB
  else
    none

/-- The loop of `_VAYUDSP_halMmuAddEntry` (lines 733-816),
`while ((currentEntrySize != 0) && (status >= 0))`, with fuel: `none` when the fuel runs out
before the loop ends. In the configuration-error branch the loop breaks with
`VAYUDSPPROC_E_MMUCONFIG`; otherwise the page is handed to `_VAYUDSP_halMmuPteSet`, and on
success the size left decreases and both addresses advance by the size of the page. -/
def addEntryLoop (c : Consts) (halObject : VAYUDSP_HalObject) :
    Nat → VAYUDSP_HalMmuEntryInfo → Int → Int → List Call → Option (Int × List Call)
  | 0, _, currentEntrySize, status, tr =>
    if currentEntrySize ≠ 0 ∧ status ≥ 0 then none else some (status, tr)
  | fuel + 1, currentEntry, currentEntrySize, status, tr =>
    if currentEntrySize ≠ 0 ∧ status ≥ 0 then
      match pageSizeFor c currentEntrySize currentEntry.slaveVirtAddr with
      | none => some (c.VAYUDSPPROC_E_MMUCONFIG, tr ++ [Call.configError])
      | some size =>
        if status ≥ 0 then
          match _VAYUDSP_halMmuPteSet c halObject tr { currentEntry with size := size } with
          | (status1, tr1) =>
            if status1 < 0 then
              some (status1, tr1)
            else
              addEntryLoop c halObject fuel
                { currentEntry with
                  size := size,
                  masterPhyAddr := (currentEntry.masterPhyAddr + size) % 4294967296,
                  slaveVirtAddr := (currentEntry.slaveVirtAddr + size) % 4294967296 }
                (toInt32 (currentEntrySize - size)) status1 tr1
        else
          addEntryLoop c halObject fuel { currentEntry with size := size } currentEntrySize
            status tr
    else
      some (status, tr)

/-- The function `_VAYUDSP_halMmuAddEntry` (lines 700-822): the size grows by the offset of
the virtual address in its 4KB page, both addresses are rounded down to 4KB, the size is
rounded up to 4KB and converted to `Int32`, and the loop runs. The result is the status and
the calls made, `none` when the fuel does not suffice. -/
def _VAYUDSP_halMmuAddEntry (c : Consts) (halObject : VAYUDSP_HalObject) (fuel : Nat)
    (entry : VAYUDSP_HalMmuEntryInfo) : Option (Int × List Call) :=
  addEntryLoop c halObject fuel
    { entry with
      size := MMUPAGE_ALIGN
        ((entry.size + (entry.slaveVirtAddr &&& (c.PAGE_SIZE_4KB - 1))) % 4294967296)
        c.PAGE_SIZE_4KB,
      slaveVirtAddr := entry.slaveVirtAddr &&& not32 (c.PAGE_SIZE_4KB - 1),
      masterPhyAddr := entry.masterPhyAddr &&& not32 (c.PAGE_SIZE_4KB - 1) }
    (toInt32 (MMUPAGE_ALIGN
      ((entry.size + (entry.slaveVirtAddr &&& (c.PAGE_SIZE_4KB - 1))) % 4294967296)
      c.PAGE_SIZE_4KB))
    c.PROCESSOR_SUCCESS []

/-- The pages handed to `_VAYUDSP_halMmuPteSet`, in order. -/
def pagesOf : List Call → List VAYUDSP_HalMmuEntryInfo
  | [] => []
  | Call.halMmuPteSet te :: cs => te :: pagesOf cs
  | Call.InternalMMU_PteSet _ _ :: cs => pagesOf cs
  | Call.configError :: cs => pagesOf cs

/-- The page sizes have the values that their names state. -/
def namedPageSizes (c : Consts) : Prop :=
  c.PAGE_SIZE_4KB = 4096 ∧ c.PAGE_SIZE_64KB = 65536 ∧ c.PAGE_SIZE_1MB = 1048576 ∧
    c.PAGE_SIZE_16MB = 16777216

/-- The element size, the endianism and the mixed-size attribute of an entry are each one of
the values that `_VAYUDSP_halMmuPteSet` accepts. -/
def validAttrs (c : Consts) (e : VAYUDSP_HalMmuEntryInfo) : Prop :=
  (e.elementSize = c.ELEM_SIZE_8BIT ∨ e.elementSize = c.ELEM_SIZE_16BIT ∨
    e.elementSize = c.ELEM_SIZE_32BIT ∨ e.elementSize = c.ELEM_SIZE_64BIT) ∧
  (e.endianism = c.LITTLE_ENDIAN ∨ e.endianism = c.BIG_ENDIAN) ∧
  (e.mixedSize = c.MMU_TLBES ∨ e.mixedSize = c.MMU_CPUES)

/-- The 4KB-aligned extent of an entry: its size plus the offset of its virtual address in
the 4KB page, rounded up to a multiple of 4KB. -/
def alignedExtent (e : VAYUDSP_HalMmuEntryInfo) : Nat :=
  (e.size + e.slaveVirtAddr % 4096 + 4095) / 4096 * 4096

/-- A page has one of the four sizes and its virtual address is aligned to its size. -/
def pageOk (p : VAYUDSP_HalMmuEntryInfo) : Prop :=
  (p.size = 16777216 ∨ p.size = 1048576 ∨ p.size = 65536 ∨ p.size = 4096) ∧
    p.slaveVirtAddr % p.size = 0

/-- The pages follow one another from the virtual address `va` and the physical address
`pa`: each page starts where the page before it ends, the physical address advancing by the
same amount on 32 bits. -/
def contiguous : Nat → Nat → List VAYUDSP_HalMmuEntryInfo → Prop
  | _, _, [] => True
  | va, pa, p :: ps =>
    p.slaveVirtAddr = va ∧ p.masterPhyAddr = pa ∧
      contiguous (va + p.size) ((pa + p.size) % 4294967296) ps

/-- Constants for the examples: the page sizes as named, `PROCESSOR_SUCCESS = 0`, negative
failure codes. -/
def exampleConsts : Consts :=
  { PAGE_SIZE_4KB := 0x1000, PAGE_SIZE_64KB := 0x10000, PAGE_SIZE_1MB := 0x100000,
    PAGE_SIZE_16MB := 0x1000000,
    PROCESSOR_SUCCESS := 0, PROCESSOR_E_INVALIDARG := -2, PROCESSOR_E_STOREENTERY := -3,
    VAYUDSPPROC_E_MMUCONFIG := -4,
    ELEM_SIZE_8BIT := 0, ELEM_SIZE_16BIT := 1, ELEM_SIZE_32BIT := 2, ELEM_SIZE_64BIT := 3,
    LITTLE_ENDIAN := 0, BIG_ENDIAN := 1, MMU_TLBES := 0, MMU_CPUES := 1,
    MMU_CAM_PGSZ_16M := 3, MMU_CAM_PGSZ_1M := 0, MMU_CAM_PGSZ_64K := 1, MMU_CAM_PGSZ_4K := 2,
    MMU_RAM_ELSZ_8 := 0, MMU_RAM_ELSZ_16 := 1, MMU_RAM_ELSZ_32 := 2,
    MMU_RAM_ENDIAN_LITTLE := 0, MMU_RAM_ENDIAN_BIG := 1, MMU_RAM_MIXED := 1 }

/-- Two page-table bases for the examples. -/
def exampleHal : VAYUDSP_HalObject := { mmu0Base := 0x40D01000, mmu1Base := 0x40D02000 }

/-- An entry of 0x120000 bytes at the virtual address 0x00FF0800: its extent 0x121000 from
0x00FF0000 splits into pages of 64KB, 1MB, 64KB and 4KB. -/
def exampleEntry : VAYUDSP_HalMmuEntryInfo :=
  { size := 0x120000, slaveVirtAddr := 0x00FF0800, masterPhyAddr := 0x9F000800,
    elementSize := 2, endianism := 0, mixedSize := 0 }

end VAYUDspHalMmu

namespace VirtQueue

/-! ## Theorems -/

theorem toU32_of_nonneg (i : Int) (h0 : 0 ≤ i) (h1 : i < 4294967296) : (toU32 i : Int) = i := by
  unfold toU32
  rw [Int.emod_eq_of_lt h0 h1]
  exact Int.toNat_of_nonneg h0

/-- The call with a head that passes the check of the function: the ring after it. -/
theorem addUsedBuf_accepts (vq : VirtQueue_Object) (head len : Int)
    (hty : isInt16 head) (h0 : 0 ≤ head) (hN : head ≤ vq.vring.num) (hpos : 0 < vq.vring.num) :
    VirtQueue_addUsedBuf vq head len = .ok (0,
      { vq with vring := { vq.vring with used := { vq.vring.used with
          ring := Function.update vq.vring.used.ring (vq.vring.used.idx % vq.vring.num)
            { id := toU32 head, len := toU32 len },
          idx := (vq.vring.used.idx + 1) % 65536 } } }) := by
  obtain ⟨hlo, hhi⟩ := hty
  have hu : (toU32 head : Int) = head := toU32_of_nonneg head h0 (by omega)
  have hle : ¬ (toU32 head > vq.vring.num ∨ head < 0) := by
    intro h
    rcases h with h | h
    · have : (vq.vring.num : Int) < (toU32 head : Int) := by exact_mod_cast h
      omega
    · omega
  have hnz : ¬ vq.vring.num = 0 := by omega
  unfold VirtQueue_addUsedBuf
  rw [if_neg hle, if_neg hnz]

/-- What an accepted call leaves untouched. -/
theorem addUsedBuf_frame (vq : VirtQueue_Object) (head len : Int)
    (hty : isInt16 head) (h0 : 0 ≤ head) (hN : head ≤ vq.vring.num) (hpos : 0 < vq.vring.num) :
    ∃ vq1, VirtQueue_addUsedBuf vq head len = .ok (0, vq1) ∧
      vq1.id = vq.id ∧ vq1.procId = vq.procId ∧ vq1.callback = vq.callback ∧
      vq1.vring.avail = vq.vring.avail :=
  ⟨_, addUsedBuf_accepts vq head len hty h0 hN hpos, rfl, rfl, rfl, rfl⟩

/-- C1: for a ring of capacity N, a head with 0 <= head < N and any len, VirtQueue_addUsedBuf
returns 0, writes the element with id head and length len (as the 32-bit field holds it) into
used-ring slot (old used.idx) mod N, changes no other used-ring slot and nothing else of the ring,
and leaves used.idx at (old used.idx + 1) mod 2^16. -/
theorem C1_addUsedBuf_writes_slot (vq : VirtQueue_Object) (head len : Int)
    (hty : isInt16 head) (h0 : 0 ≤ head) (hN : head < vq.vring.num) :
    ∃ vq1, VirtQueue_addUsedBuf vq head len = .ok (0, vq1) ∧
      ((vq1.vring.used.ring (vq.vring.used.idx % vq.vring.num)).id : Int) = head ∧
      (vq1.vring.used.ring (vq.vring.used.idx % vq.vring.num)).len = toU32 len ∧
      (0 ≤ len → len < 4294967296 →
        ((vq1.vring.used.ring (vq.vring.used.idx % vq.vring.num)).len : Int) = len) ∧
      (∀ j, j ≠ vq.vring.used.idx % vq.vring.num →
        vq1.vring.used.ring j = vq.vring.used.ring j) ∧
      vq1.vring.used.idx = (vq.vring.used.idx + 1) % 65536 ∧
      vq1.vring.used.flags = vq.vring.used.flags ∧
      vq1.vring.num = vq.vring.num ∧ vq1.vring.desc = vq.vring.desc ∧
      vq1.vring.avail = vq.vring.avail ∧ vq1.last_avail_idx = vq.last_avail_idx ∧
      vq1.id = vq.id ∧ vq1.procId = vq.procId ∧ vq1.callback = vq.callback := by
  have hu : (toU32 head : Int) = head := toU32_of_nonneg head h0 (by have := hty.2; omega)
  have hrun := addUsedBuf_accepts vq head len hty h0 (by omega) (by omega)
  refine ⟨_, hrun, ?_, ?_, ?_, ?_, rfl, rfl, rfl, rfl, rfl, rfl, rfl, rfl, rfl⟩
  · simp [hu]
  · simp
  · intro hl0 hl1
    simp [toU32_of_nonneg len hl0 hl1]
  · intro j hj
    simp [Function.update, hj]

theorem C1_addUsedBuf_writes_slot_witness :
    isInt16 3 ∧ (0 : Int) ≤ 3 ∧ (3 : Int) < exampleRing.vring.num ∧
    ∃ vq1, VirtQueue_addUsedBuf exampleRing 3 128 = .ok (0, vq1) ∧
      ((vq1.vring.used.ring (0 % 256)).id : Int) = 3 ∧
      (vq1.vring.used.ring (0 % 256)).len = toU32 128 ∧
      vq1.vring.used.idx = (0 + 1) % 65536 := by
  refine ⟨by decide, by decide, by decide, ?_⟩
  obtain ⟨vq1, h1, h2, h3, _, _, h6, _⟩ :=
    C1_addUsedBuf_writes_slot exampleRing 3 128 (by decide) (by decide) (by decide)
  exact ⟨vq1, h1, h2, h3, h6⟩

/-- For a head above the capacity (or negative) the call raises the generic error. -/
theorem addUsedBuf_head_gt_capacity (vq : VirtQueue_Object) (head len : Int)
    (hty : isInt16 head) (h : head < 0 ∨ (vq.vring.num : Int) < head) :
    VirtQueue_addUsedBuf vq head len = .error Fault.Error_E_generic := by
  obtain ⟨hlo, hhi⟩ := hty
  unfold VirtQueue_addUsedBuf
  rw [if_pos]
  rcases h with h | h
  · exact Or.inr h
  · left
    have h0 : 0 ≤ head := by omega
    have hu : (toU32 head : Int) = head := toU32_of_nonneg head h0 (by omega)
    have : (vq.vring.num : Int) < (toU32 head : Int) := by omega
    exact_mod_cast this

/-- C2 (evaluation at the failing input): on a ring of capacity 256 the call with
head = 256 = capacity does not raise the invalid-head error: it returns 0, stores id 256
in used-ring slot 0 and advances used.idx. -/
theorem C2_addUsedBuf_head_eq_capacity_accepted :
    exampleRing.vring.num = 256 ∧
    ∃ vq1, VirtQueue_addUsedBuf exampleRing 256 128 = .ok (0, vq1) ∧
      (vq1.vring.used.ring 0).id = 256 ∧ vq1.vring.used.idx = 1 := by
  refine ⟨rfl, _, rfl, ?_, ?_⟩
  · rfl
  · rfl

theorem toInt16_of_lt (n : Nat) (h : n < 32768) : toInt16 n = (n : Int) := by
  unfold toInt16
  have h1 : n % 65536 = n := Nat.mod_eq_of_lt (by omega)
  rw [h1, if_pos h]

theorem getVA_eq (vq : VirtQueue_Object) (pa : Nat) :
    ((_VirtQueue_getVA vq pa : Nat) : Int) = ((pa : Int) - vq.basePa + vq.baseVa) % 2 ^ 32 := by
  unfold _VirtQueue_getVA
  norm_num
  omega

/-- The call on a ring whose cursor has caught up with `avail.idx`. -/
theorem getAvailBuf_empty (c : Consts) (vq : VirtQueue_Object) (buf : Nat) (len : Int)
    (he : vq.last_avail_idx = vq.vring.avail.idx) :
    VirtQueue_getAvailBuf c vq buf len = .ok
      { head := -1,
        vq := setUsedFlags vq (clearBits16 vq.vring.used.flags c.VRING_USED_F_NO_NOTIFY),
        buf := buf, len := len } := by
  unfold VirtQueue_getAvailBuf
  simp only [setUsedFlags]
  rw [if_pos he]

/-- The call on a ring with a published entry, whatever the entry holds. -/
theorem getAvailBuf_next (c : Consts) (vq : VirtQueue_Object) (buf : Nat) (len : Int)
    (hne : vq.last_avail_idx ≠ vq.vring.avail.idx) (hnum : 0 < vq.vring.num) :
    ∃ r, VirtQueue_getAvailBuf c vq buf len = .ok r ∧
      r.head = toInt16 (entryAtCursor vq) ∧
      r.vq.last_avail_idx = (vq.last_avail_idx + 1) % 65536 ∧
      r.vq.vring.avail = vq.vring.avail ∧ r.vq.vring.num = vq.vring.num ∧
      r.vq.vring.desc = vq.vring.desc ∧ r.vq.basePa = vq.basePa ∧ r.vq.baseVa = vq.baseVa ∧
      r.buf = _VirtQueue_getVA vq (vq.vring.desc (toInt16 (entryAtCursor vq))).addr ∧
      r.len = toInt32 (vq.vring.desc (toInt16 (entryAtCursor vq))).len := by
  have hnz : ¬ vq.vring.num = 0 := by omega
  unfold VirtQueue_getAvailBuf
  simp only [setUsedFlags]
  rw [if_neg hne, if_neg hnz]
  exact ⟨_, rfl, rfl, rfl, rfl, rfl, rfl, rfl, rfl, rfl, rfl⟩

theorem toInt16_of_ge (n : Nat) (h : 32768 ≤ n % 65536) :
    toInt16 n = ((n % 65536 : Nat) : Int) - 65536 := by
  unfold toInt16
  rw [if_neg (by omega)]

/-- C3 (counterexample): on a ring of capacity 256 with one published entry that holds 0xFFFF,
the reference returns the head 65535, while VirtQueue_getAvailBuf returns -1, the value for
none, with the cursor advanced to 1 and the pointer and the length taken from desc[-1]. -/
theorem C3_getAvailBuf_entry_FFFF_counterexample :
    exampleRingHeadFFFF.vring.num = 256 ∧ entryAtCursor exampleRingHeadFFFF = 0xFFFF ∧
    (getAvailBuf_reference exampleRingHeadFFFF 0 0).head = 65535 ∧
    ∃ r, VirtQueue_getAvailBuf exampleConsts exampleRingHeadFFFF 0 0 = .ok r ∧
      r.head = -1 ∧ r.vq.last_avail_idx = 1 ∧
      r.buf = _VirtQueue_getVA exampleRingHeadFFFF (exampleRingHeadFFFF.vring.desc (-1)).addr ∧
      r.view ≠ getAvailBuf_reference exampleRingHeadFFFF 0 0 :=
  ⟨rfl, rfl, rfl, _, rfl, rfl, rfl, rfl, by decide⟩

/-- C3 (amended): on every ring state of positive capacity VirtQueue_getAvailBuf returns, and it
agrees with the reference whenever the avail entry at the cursor (read only when the ring is not
empty) is below 2^15, inside the descriptor table or not: none (-1) with the cursor, the pointer
and the length unchanged when last_avail_idx equals avail.idx; otherwise the head at avail-ring
position (old last_avail_idx) mod capacity, the cursor advanced modulo 2^16, the pointer
(desc[head].addr - basePa + baseVa) mod 2^32 and the length desc[head].len. For every entry the
returned head is the entry converted to Int16, so an entry of 2^15 or more is returned as the
entry minus 2^16, and desc is read at the returned head. -/
theorem C3_getAvailBuf_refines_reference (c : Consts) (vq : VirtQueue_Object) (buf : Nat)
    (len : Int) (hnum : 0 < vq.vring.num) :
    ∃ r, VirtQueue_getAvailBuf c vq buf len = .ok r ∧
      ((vq.last_avail_idx ≠ vq.vring.avail.idx → entryAtCursor vq < 32768) →
        r.view = getAvailBuf_reference vq buf len) ∧
      (vq.last_avail_idx ≠ vq.vring.avail.idx →
        r.head = toInt16 (entryAtCursor vq) ∧
        r.vq.last_avail_idx = (vq.last_avail_idx + 1) % 65536 ∧
        r.buf = _VirtQueue_getVA vq (vq.vring.desc r.head).addr ∧
        r.len = toInt32 (vq.vring.desc r.head).len ∧
        (32768 ≤ entryAtCursor vq % 65536 →
          r.head = ((entryAtCursor vq % 65536 : Nat) : Int) - 65536)) := by
  by_cases he : vq.last_avail_idx = vq.vring.avail.idx
  · refine ⟨_, getAvailBuf_empty c vq buf len he, fun _ => ?_, fun h => absurd he h⟩
    simp [GetAvailBufResult.view, getAvailBuf_reference, he, setUsedFlags]
  · obtain ⟨r, hr, h1, h2, _, _, _, _, _, h8, h9⟩ := getAvailBuf_next c vq buf len he hnum
    refine ⟨r, hr, fun h15 => ?_, fun _ => ⟨h1, h2, by rw [h8, h1], by rw [h9, h1], fun hge => ?_⟩⟩
    · have hh := toInt16_of_lt _ (h15 he)
      rw [hh] at h1 h8 h9
      unfold entryAtCursor at h1 h8 h9
      simp only [GetAvailBufResult.view, getAvailBuf_reference, if_neg he, h1, h2, h8, h9,
        getVA_eq]
      norm_num
    · rw [h1]
      exact toInt16_of_ge _ hge

theorem C3_getAvailBuf_refines_reference_witness :
    0 < exampleRingPublished.vring.num ∧ entryAtCursor exampleRingPublished < 32768 ∧
    getAvailBuf_reference exampleRingPublished 0 0 =
      { head := 0, last_avail_idx := 1, buf := 0x60004000, len := 512 } ∧
    ∃ r, VirtQueue_getAvailBuf exampleConsts exampleRingPublished 0 0 = .ok r ∧
      r.view = getAvailBuf_reference exampleRingPublished 0 0 := by
  obtain ⟨r, hr, href, _⟩ :=
    C3_getAvailBuf_refines_reference exampleConsts exampleRingPublished 0 0 (by decide)
  exact ⟨by decide, by decide, by decide, r, hr, href (fun _ => by decide)⟩

theorem wrap_slot (a i n : Nat) (h : n ∣ 65536) :
    ((a + 1) % 65536 + i) % n = (a + (i + 1)) % n := by
  rw [Nat.add_mod, Nat.mod_mod_of_dvd _ h, ← Nat.add_mod]
  congr 1
  omega

/-- The values returned by k + 1 consecutive calls when k entries are published: the entries at
the positions read, as `Int16`, and then none. -/
theorem getAvailBuf_calls_run (c : Consts) (n : Nat) (hdvd : n ∣ 65536) (hn : n ≤ 32768) :
    ∀ (k : Nat) (vq : VirtQueue_Object) (buf : Nat) (len : Int),
      vq.vring.num = n → vq.last_avail_idx < 65536 →
      k ≤ n → vq.vring.avail.idx = (vq.last_avail_idx + k) % 65536 →
      ∃ vq1, getAvailBuf_calls c (k + 1) vq buf len =
          .ok ((List.range k).map
                (fun i => toInt16 (vq.vring.avail.ring ((vq.last_avail_idx + i) % n))) ++ [-1],
              vq1) ∧
        vq1.last_avail_idx = vq.vring.avail.idx := by
  intro k
  induction k with
  | zero =>
    intro vq buf len _ hlast _ hidx
    have he : vq.last_avail_idx = vq.vring.avail.idx := by
      rw [hidx]
      omega
    refine ⟨setUsedFlags vq (clearBits16 vq.vring.used.flags c.VRING_USED_F_NO_NOTIFY), ?_, ?_⟩
    · simp only [getAvailBuf_calls, getAvailBuf_empty c vq buf len he]
      rfl
    · simpa [setUsedFlags] using he
  | succ k ih =>
    intro vq buf len hnum hlast hk hidx
    have hne : vq.last_avail_idx ≠ vq.vring.avail.idx := by
      rw [hidx]
      omega
    have hpos : 0 < vq.vring.num := by omega
    obtain ⟨r, hr, h1, h2, h3, h4, _⟩ := getAvailBuf_next c vq buf len hne hpos
    have hidx1 : r.vq.vring.avail.idx = (r.vq.last_avail_idx + k) % 65536 := by
      rw [h3, h2, hidx]
      omega
    obtain ⟨vq1, hrun, hfin⟩ := ih r.vq r.buf r.len (by rw [h4, hnum])
      (by rw [h2]; omega) (by omega) hidx1
    refine ⟨vq1, ?_, by rw [hfin, h3]⟩
    rw [getAvailBuf_calls]
    simp only [hr, hrun]
    unfold entryAtCursor at h1
    rw [List.range_succ_eq_map, List.map_cons, List.map_map, List.cons_append, h1, h2, h3, hnum]
    have hmap : List.map (fun i => toInt16 (vq.vring.avail.ring
          (((vq.last_avail_idx + 1) % 65536 + i) % n))) (List.range k) =
        List.map ((fun i => toInt16 (vq.vring.avail.ring ((vq.last_avail_idx + i) % n))) ∘
          Nat.succ) (List.range k) := by
      apply List.map_congr_left
      intro i _
      simp only [Function.comp, Nat.succ_eq_add_one]
      rw [wrap_slot _ _ _ hdvd]
    rw [hmap]
    simp

/-- Distinct calls among the first k read distinct positions of a ring of capacity n >= k. -/
theorem positions_nodup (a n k : Nat) (hk : k ≤ n) :
    ((List.range k).map (fun i => (a + i) % n)).Nodup := by
  apply List.Nodup.map_on _ (List.nodup_range k)
  intro x hx y hy hxy
  rw [List.mem_range] at hx hy
  have h1 : x ≡ y [MOD n] := Nat.ModEq.add_left_cancel' a hxy
  have h2 : x % n = y % n := h1
  rw [Nat.mod_eq_of_lt (by omega), Nat.mod_eq_of_lt (by omega)] at h2
  exact h2

/-- C5: VirtQueue_kick sends nothing when avail.flags has the VRING_AVAIL_F_NO_INTERRUPT bit
set; otherwise it makes exactly one call, a mailbox send to the ring's procId with the ring's
id as payload; in both cases the ring is unchanged. -/
theorem C5_kick_respects_suppression (c : Consts) (vq : VirtQueue_Object) :
    (vq.vring.avail.flags &&& c.VRING_AVAIL_F_NO_INTERRUPT ≠ 0 →
      (VirtQueue_kick c vq).1 = [] ∧ sendsOf (VirtQueue_kick c vq).1 = []) ∧
    (vq.vring.avail.flags &&& c.VRING_AVAIL_F_NO_INTERRUPT = 0 →
      (VirtQueue_kick c vq).1 = [Event.intSend vq.procId vq.id] ∧
      sendsOf (VirtQueue_kick c vq).1 = [(vq.procId, vq.id)]) ∧
    (VirtQueue_kick c vq).2 = vq := by
  refine ⟨?_, ?_, ?_⟩
  · intro h
    simp [VirtQueue_kick, h, sendsOf]
  · intro h
    simp [VirtQueue_kick, h, sendsOf]
  · unfold VirtQueue_kick
    split <;> rfl

theorem C5_kick_respects_suppression_witness :
    (exampleRing.vring.avail.flags &&& exampleConsts.VRING_AVAIL_F_NO_INTERRUPT = 0) ∧
    sendsOf (VirtQueue_kick exampleConsts exampleRing).1 = [(0, 0)] :=
  ⟨by decide,
    ((C5_kick_respects_suppression exampleConsts exampleRing).2.1 (by decide)).2⟩

/-- C6: for every notification word in the reserved control range (msg >= 0xFF000000) and
every registry state, VirtQueue_isr invokes no ring callback. -/
theorem C6_isr_control_range_no_callback (w : World) (canHibernate : Bool) (msg : Nat)
    (h : 0xFF000000 ≤ msg) :
    callbacksOf (VirtQueue_isr w canHibernate msg).events = [] := by
  have h2 : msg ≥ NUM_QUEUES := by
    unfold NUM_QUEUES
    omega
  unfold VirtQueue_isr
  simp only []
  split_ifs <;> simp [callbacksOf]

theorem C6_isr_control_range_no_callback_witness :
    (0xFF000000 ≤ 0xFFFFFF01) ∧
    callbacksOf (VirtQueue_isr exampleWorld true 0xFFFFFF01).events = [] :=
  ⟨by decide, C6_isr_control_range_no_callback exampleWorld true 0xFFFFFF01 (by decide)⟩

/-- A word below the control range is none of the control opcodes. -/
theorem isr_not_control (w : World) (canHibernate : Bool) (msg : Nat) (h : msg < 0xFF000000) :
    VirtQueue_isr w canHibernate msg =
      if msg ≥ NUM_QUEUES then
        { events := [Event.intClear w.hostProcId, Event.System_printf msg],
          fault := none, world := w }
      else
        match w.queueRegistry msg with
        | none => { events := [Event.intClear w.hostProcId], fault := none, world := w }
        | some vq =>
          { events := [Event.intClear w.hostProcId, Event.callback vq.callback vq],
            fault := if vq.callback = 0 then some Fault.nullCall else none,
            world := w } := by
  have h1 : msg ≠ RP_MSG_MBOX_READY := by unfold RP_MSG_MBOX_READY; omega
  have h2 : msg ≠ RP_MBOX_ECHO_REQUEST := by unfold RP_MBOX_ECHO_REQUEST; omega
  have h3 : msg ≠ RP_MBOX_ABORT_REQUEST := by unfold RP_MBOX_ABORT_REQUEST; omega
  have h4 : msg ≠ RP_MSG_FLUSH_CACHE := by unfold RP_MSG_FLUSH_CACHE; omega
  have h5 : msg ≠ RP_MSG_HIBERNATION := by unfold RP_MSG_HIBERNATION; omega
  have h6 : msg ≠ RP_MSG_HIBERNATION_FORCE := by unfold RP_MSG_HIBERNATION_FORCE; omega
  unfold VirtQueue_isr
  simp only [if_neg h1, if_neg h2, if_neg h3, if_neg h4, if_neg h5, if_neg h6]

/-- C7: for a notification word below the control range: if msg < NUM_QUEUES and
queueRegistry[msg] is bound, VirtQueue_isr makes exactly one callback invocation, that of the
callback of the ring in that slot, passing that ring, sends nothing and leaves the module state
as it is; if msg >= NUM_QUEUES or the slot is unbound it invokes no callback, sends nothing,
changes no state and returns normally. -/
theorem C7_isr_dispatches_ring_id (w : World) (canHibernate : Bool) (msg : Nat)
    (h : msg < 0xFF000000) :
    (∀ vq, msg < NUM_QUEUES → w.queueRegistry msg = some vq →
      callbacksOf (VirtQueue_isr w canHibernate msg).events = [(vq.callback, vq)] ∧
      sendsOf (VirtQueue_isr w canHibernate msg).events = [] ∧
      (VirtQueue_isr w canHibernate msg).world = w) ∧
    (NUM_QUEUES ≤ msg ∨ w.queueRegistry msg = none →
      callbacksOf (VirtQueue_isr w canHibernate msg).events = [] ∧
      sendsOf (VirtQueue_isr w canHibernate msg).events = [] ∧
      (VirtQueue_isr w canHibernate msg).world = w ∧
      (VirtQueue_isr w canHibernate msg).fault = none) := by
  rw [isr_not_control w canHibernate msg h]
  constructor
  · intro vq hlt hreg
    have hge : ¬ msg ≥ NUM_QUEUES := by omega
    simp [if_neg hge, hreg, callbacksOf, sendsOf]
  · intro hor
    by_cases hge : msg ≥ NUM_QUEUES
    · simp [if_pos hge, callbacksOf, sendsOf]
    · rcases hor with hor | hor
      · omega
      · simp [if_neg hge, hor, callbacksOf, sendsOf]

theorem C7_isr_dispatches_ring_id_witness :
    (0 < 0xFF000000) ∧ 0 < NUM_QUEUES ∧ exampleWorld.queueRegistry 0 = some exampleRing ∧
    callbacksOf (VirtQueue_isr exampleWorld true 0).events = [(exampleRing.callback, exampleRing)] :=
  ⟨by decide, by decide, rfl,
    ((C7_isr_dispatches_ring_id exampleWorld true 0 (by decide)).1 exampleRing
      (by decide) rfl).1⟩

/-- The callback invocations of the handler for the id of a bound registry slot. -/
theorem isr_bound_slot (w : World) (canHibernate : Bool) (msg : Nat) (vq : VirtQueue_Object)
    (hlt : msg < NUM_QUEUES) (hreg : w.queueRegistry msg = some vq) :
    callbacksOf (VirtQueue_isr w canHibernate msg).events = [(vq.callback, vq)] ∧
    sendsOf (VirtQueue_isr w canHibernate msg).events = [] ∧
    (VirtQueue_isr w canHibernate msg).world = w := by
  have h : msg < 0xFF000000 := by
    unfold NUM_QUEUES at hlt
    omega
  have hge : ¬ msg ≥ NUM_QUEUES := by omega
  rw [isr_not_control w canHibernate msg h]
  simp [if_neg hge, hreg, callbacksOf, sendsOf]

/-- The one send of a kick that is not suppressed. -/
theorem kick_unsuppressed (c : Consts) (vq : VirtQueue_Object)
    (h : vq.vring.avail.flags &&& c.VRING_AVAIL_F_NO_INTERRUPT = 0) :
    (VirtQueue_kick c vq).1 = [Event.intSend vq.procId vq.id] := by
  simp [VirtQueue_kick, h]

/-- C8: for a ring r with id below NUM_QUEUES whose avail.flags do not request suppression
(and on which 3 is a head), VirtQueue_addUsedBuf(r, 3, 128) returns 0, the one word that
VirtQueue_kick(r) then sends goes to r.procId and equals r.id, and in every module state in
which r is registered (slot r.id is bound to the ring) VirtQueue_isr receiving that word makes
exactly one callback invocation: the callback of the ring in registry slot r.id, passing that
ring; no invocation passes a ring of another id. -/
theorem C8_kick_isr_round_trip (c : Consts) (canHibernate : Bool)
    (r : VirtQueue_Object) (hid : r.id < NUM_QUEUES)
    (hflags : r.vring.avail.flags &&& c.VRING_AVAIL_F_NO_INTERRUPT = 0)
    (hcap : 3 < r.vring.num) :
    ∃ r1, VirtQueue_addUsedBuf r 3 128 = .ok (0, r1) ∧
      (VirtQueue_kick c r1).1 = [Event.intSend r.procId r.id] ∧
      sendsOf (VirtQueue_kick c r1).1 = [(r.procId, r.id)] ∧
      r1.callback = r.callback ∧
      ∀ w : World, w.queueRegistry r.id = some r1 →
        callbacksOf (VirtQueue_isr w canHibernate r.id).events = [(r1.callback, r1)] ∧
        ∀ p ∈ callbacksOf (VirtQueue_isr w canHibernate r.id).events, p.2.id = r.id := by
  obtain ⟨r1, hrun, hid1, hproc, hcb, havail⟩ := addUsedBuf_frame r 3 128 (by decide) (by decide)
    (by have : (3 : Int) < r.vring.num := by exact_mod_cast hcap
        omega) (by omega)
  have hk := kick_unsuppressed c r1 (by rw [havail]; exact hflags)
  refine ⟨r1, hrun, ?_, ?_, hcb, ?_⟩
  · rw [hk, hproc, hid1]
  · rw [hk, hproc, hid1]
    rfl
  · intro w hw
    have hcall := (isr_bound_slot w canHibernate r.id r1 hid hw).1
    refine ⟨hcall, ?_⟩
    intro p hp
    rw [hcall] at hp
    simp at hp
    rw [hp]
    exact hid1

theorem C8_kick_isr_round_trip_witness :
    exampleRing.id < NUM_QUEUES ∧
    (exampleRing.vring.avail.flags &&& exampleConsts.VRING_AVAIL_F_NO_INTERRUPT = 0) ∧
    3 < exampleRing.vring.num ∧
    ∃ r1, VirtQueue_addUsedBuf exampleRing 3 128 = .ok (0, r1) ∧
      sendsOf (VirtQueue_kick exampleConsts r1).1 = [(0, 0)] ∧
      callbacksOf (VirtQueue_isr { exampleWorld with queueRegistry := fun _ => some r1 }
        true 0).events = [(r1.callback, r1)] := by
  refine ⟨by decide, by decide, by decide, ?_⟩
  obtain ⟨r1, h1, _, h3, _, h5⟩ :=
    C8_kick_isr_round_trip exampleConsts true exampleRing (by decide) (by decide) (by decide)
  exact ⟨r1, h1, h3, (h5 { exampleWorld with queueRegistry := fun _ => some r1 } rfl).1⟩

/-- C9: for every registry state, VirtQueue_isr receiving RP_MBOX_ECHO_REQUEST (0xFFFFFF03)
clears the mailbox of the host processor and makes exactly one send, of RP_MBOX_ECHO_REPLY
(0xFFFFFF04) to that same host processor; it invokes no ring callback, returns normally and
leaves the module state as it is. -/
theorem C9_isr_echo_reply (w : World) (canHibernate : Bool) :
    (VirtQueue_isr w canHibernate 0xFFFFFF03).events =
      [Event.intClear w.hostProcId, Event.intSend w.hostProcId 0xFFFFFF04] ∧
    sendsOf (VirtQueue_isr w canHibernate 0xFFFFFF03).events = [(w.hostProcId, 0xFFFFFF04)] ∧
    callbacksOf (VirtQueue_isr w canHibernate 0xFFFFFF03).events = [] ∧
    (VirtQueue_isr w canHibernate 0xFFFFFF03).fault = none ∧
    (VirtQueue_isr w canHibernate 0xFFFFFF03).world = w ∧
    RP_MBOX_ECHO_REQUEST = 0xFFFFFF03 ∧ RP_MBOX_ECHO_REPLY = 0xFFFFFF04 := by
  have hrun : VirtQueue_isr w canHibernate 0xFFFFFF03 =
      { events := [Event.intClear w.hostProcId, Event.intSend w.hostProcId RP_MBOX_ECHO_REPLY],
        fault := none, world := w } := by
    unfold VirtQueue_isr
    simp only []
    rw [if_neg (by decide), if_pos (by decide)]
  rw [hrun]
  exact ⟨rfl, rfl, rfl, rfl, rfl, rfl, rfl⟩

/-- The polling loop stops when some read within the fuel returns the primed status. -/
theorem pollVdevStatus_stops (status : Nat → Nat) :
    ∀ (fuel t0 : Nat), (∃ t, t0 ≤ t ∧ t < t0 + fuel ∧ status t = VRING_BUFS_PRIMED) →
      ∃ n, pollVdevStatus status fuel t0 = some n := by
  intro fuel
  induction fuel with
  | zero =>
    intro t0 h
    obtain ⟨t, h1, h2, _⟩ := h
    omega
  | succ fuel ih =>
    intro t0 h
    obtain ⟨t, h1, h2, h3⟩ := h
    unfold pollVdevStatus
    by_cases hs : status t0 ≠ VRING_BUFS_PRIMED
    · rw [if_pos hs]
      apply ih
      refine ⟨t, ?_, by omega, h3⟩
      rcases Nat.eq_or_lt_of_le h1 with he | hl
      · rw [← he] at h3
        exact absurd h3 hs
      · omega
    · rw [if_neg hs]
      exact ⟨_, rfl⟩

/-- The initialisation returns when the registration does not trip the assertion and the
peer reports readiness within the fuel. -/
theorem init_returns (env : Env) (fuel : Nat) (w : World)
    (hreg : env.Registry_addModule_ok = true ∨ env.Assert_enabled = false)
    (hgate : ∃ t, t < fuel ∧ env.Resource_getVdevStatus t = VRING_BUFS_PRIMED) :
    ∃ w1, _VirtQueue_init env fuel w = some (.ok w1) ∧ w1.queueRegistry = w.queueRegistry := by
  unfold _VirtQueue_init
  by_cases hi : w.initialized = true
  · rw [if_pos hi]
    exact ⟨w, rfl, rfl⟩
  · rw [if_neg hi]
    by_cases hr : env.Registry_addModule_ok = true
    · rw [if_neg (by simpa using hr)]
      obtain ⟨t, ht, hs⟩ := hgate
      obtain ⟨n, hn⟩ := pollVdevStatus_stops env.Resource_getVdevStatus fuel 0
        ⟨t, by omega, by omega, hs⟩
      rw [hn]
      exact ⟨_, rfl, rfl⟩
    · have ha : env.Assert_enabled = false := by
        rcases hreg with h | h
        · exact absurd h hr
        · exact h
      rw [if_pos (by simpa using hr), ha]
      exact ⟨w, rfl, rfl⟩

/-- The initialisation never writes the registry. -/
theorem init_registry (env : Env) (fuel : Nat) (w w1 : World)
    (h : _VirtQueue_init env fuel w = some (.ok w1)) : w1.queueRegistry = w.queueRegistry := by
  unfold _VirtQueue_init at h
  by_cases hi : w.initialized = true
  · rw [if_pos hi] at h
    simp only [Option.some.injEq, Except.ok.injEq] at h
    rw [← h]
  · rw [if_neg hi] at h
    by_cases hr : env.Registry_addModule_ok = true
    · rw [if_neg (by simpa using hr)] at h
      cases hp : pollVdevStatus env.Resource_getVdevStatus fuel 0 with
      | none =>
        rw [hp] at h
        simp at h
      | some n =>
        rw [hp] at h
        simp only [Option.some.injEq, Except.ok.injEq] at h
        rw [← h]
    · rw [if_pos (by simpa using hr)] at h
      by_cases ha : env.Assert_enabled = true
      · rw [if_pos ha] at h
        simp at h
      · rw [if_neg ha] at h
        simp only [Option.some.injEq, Except.ok.injEq] at h
        rw [← h]

/-- The call with an id that is none of the two logical channels, once the initialisation
has returned. -/
theorem create_unknown_id (c : Consts) (env : Env) (fuel : Nat) (w w1 : World)
    (remoteProcId : Nat) (params : VirtQueue_Params)
    (hid : params.vqId % 65536 ≠ c.ID_SELF_TO_HOST ∧ params.vqId % 65536 ≠ c.ID_HOST_TO_SELF)
    (hinit : _VirtQueue_init env fuel w = some (.ok w1)) :
    VirtQueue_create c env fuel w remoteProcId params = some (.ok (none, w1)) := by
  have hno : ¬ (params.vqId % 65536 = c.ID_SELF_TO_HOST ∨
      params.vqId % 65536 = c.ID_HOST_TO_SELF) := by
    intro h
    rcases h with h | h
    · exact hid.1 h
    · exact hid.2 h
  unfold VirtQueue_create
  rw [hinit]
  simp only []
  split_ifs
  · split
    · rfl
    · rfl
  · rfl

/-- C10: for every ring id (the 16-bit id that params carries) that is neither
ID_SELF_TO_HOST nor ID_HOST_TO_SELF: when the initialisation gate lets VirtQueue_create
through (the registration does not trip the assertion and the peer reports readiness within
the polling budget), the call returns NULL and the registry is as before; and whatever the
environment, a call that returns has returned NULL and left the registry as it was. -/
theorem C10_create_rejects_unknown_id (c : Consts) (env : Env) (fuel : Nat) (w : World)
    (remoteProcId : Nat) (params : VirtQueue_Params)
    (hid : params.vqId % 65536 ≠ c.ID_SELF_TO_HOST ∧ params.vqId % 65536 ≠ c.ID_HOST_TO_SELF) :
    ((env.Registry_addModule_ok = true ∨ env.Assert_enabled = false) →
      (∃ t, t < fuel ∧ env.Resource_getVdevStatus t = VRING_BUFS_PRIMED) →
      ∃ w1, VirtQueue_create c env fuel w remoteProcId params = some (.ok (none, w1)) ∧
        w1.queueRegistry = w.queueRegistry) ∧
    (∀ handle w2, VirtQueue_create c env fuel w remoteProcId params = some (.ok (handle, w2)) →
      handle = none ∧ w2.queueRegistry = w.queueRegistry) := by
  constructor
  · intro hreg hgate
    obtain ⟨w1, hinit, hsame⟩ := init_returns env fuel w hreg hgate
    exact ⟨w1, create_unknown_id c env fuel w w1 remoteProcId params hid hinit, hsame⟩
  · intro handle w2 hrun
    cases hinit : _VirtQueue_init env fuel w with
    | none =>
      unfold VirtQueue_create at hrun
      rw [hinit] at hrun
      simp at hrun
    | some res =>
      cases res with
      | error f =>
        unfold VirtQueue_create at hrun
        rw [hinit] at hrun
        simp at hrun
      | ok w1 =>
        rw [create_unknown_id c env fuel w w1 remoteProcId params hid hinit] at hrun
        simp at hrun
        obtain ⟨h1, h2⟩ := hrun
        rw [← h1, ← h2]
        exact ⟨rfl, init_registry env fuel w w1 hinit⟩

theorem C10_create_rejects_unknown_id_witness :
    ((5 % 65536 ≠ exampleConsts.ID_SELF_TO_HOST ∧ 5 % 65536 ≠ exampleConsts.ID_HOST_TO_SELF) ∧
      exampleEnv.Resource_getVdevStatus 2 = VRING_BUFS_PRIMED) ∧
    ∃ w1, VirtQueue_create exampleConsts exampleEnv 3 exampleWorld 0
        { callback := 4096, vqId := 5 } = some (.ok (none, w1)) ∧
      w1.queueRegistry = exampleWorld.queueRegistry :=
  ⟨⟨by decide, by decide⟩,
    (C10_create_rejects_unknown_id exampleConsts exampleEnv 3 exampleWorld 0
      { callback := 4096, vqId := 5 } (by decide)).1 (Or.inl rfl) ⟨2, by decide, by decide⟩⟩

/-- The call with one of the two known ids, when the collaborators succeed: the ring built
and the registry after the call. Whether the slot was bound before plays no part. -/
theorem create_known_id (c : Consts) (env : Env) (fuel : Nat) (w w1 : World)
    (remoteProcId gate baseVa : Nat) (params : VirtQueue_Params)
    (hinit : _VirtQueue_init env fuel w = some (.ok w1))
    (halloc : env.Memory_alloc_ok = true) (hgate : env.GateHwi_create = some gate)
    (hid : params.vqId % 65536 = c.ID_SELF_TO_HOST ∨ params.vqId % 65536 = c.ID_HOST_TO_SELF)
    (hlt : params.vqId % 65536 < NUM_QUEUES)
    (hpa : ¬ (env.Assert_enabled = true ∧
      env.Resource_getVringDA (params.vqId % 65536) % 4294967296 = 0))
    (hva : env.Resource_physToVirt
      (env.Resource_getVringDA (params.vqId % 65536) % 4294967296) = some baseVa) :
    ∃ vq w2, VirtQueue_create c env fuel w remoteProcId params = some (.ok (some vq, w2)) ∧
      w2.queueRegistry = Function.update w1.queueRegistry (params.vqId % 65536) (some vq) ∧
      vq.id = params.vqId % 65536 ∧ vq.callback = params.callback ∧
      vq.vring.num = RP_MSG_NUM_BUFS := by
  unfold VirtQueue_create
  rw [hinit]
  simp only [halloc, hgate, hva, not_true_eq_false, if_false, if_pos hid, if_neg hpa, if_pos hlt]
  refine ⟨_, _, rfl, rfl, ?_, ?_, ?_⟩
  · split <;> rfl
  · split <;> rfl
  · split <;> rfl

/-- C11 (counterexample): slot 0 of the example registry is bound to the example ring
(callback 4096); VirtQueue_create called with ring id 0 and callback 8192 does not fail: it
returns a ring, and slot 0 is then bound to that new ring, not to the one registered before. -/
theorem C11_create_bound_slot_counterexample :
    exampleWorld.queueRegistry 0 = some exampleRing ∧ exampleRing.callback = 4096 ∧
    ∃ vq w2, VirtQueue_create exampleConsts exampleEnv 3 exampleWorld 0
        { callback := 8192, vqId := 0 } = some (.ok (some vq, w2)) ∧
      w2.queueRegistry 0 = some vq ∧ vq.callback = 8192 :=
  ⟨rfl, rfl, _, _, rfl, rfl, rfl⟩

/-- C11 (amended): VirtQueue_create does not look at the registry slot before it writes it.
For every registry state (slot bound or not), a call with a known ring id below NUM_QUEUES for
which the collaborators succeed returns a new ring carrying that id and the callback of params,
binds the slot to that new ring, and leaves every other slot as the initialisation left it. -/
theorem C11_create_rebinds_slot (c : Consts) (env : Env) (fuel : Nat) (w w1 : World)
    (remoteProcId gate baseVa : Nat) (params : VirtQueue_Params)
    (hinit : _VirtQueue_init env fuel w = some (.ok w1))
    (halloc : env.Memory_alloc_ok = true) (hgate : env.GateHwi_create = some gate)
    (hid : params.vqId % 65536 = c.ID_SELF_TO_HOST ∨ params.vqId % 65536 = c.ID_HOST_TO_SELF)
    (hlt : params.vqId % 65536 < NUM_QUEUES)
    (hpa : ¬ (env.Assert_enabled = true ∧
      env.Resource_getVringDA (params.vqId % 65536) % 4294967296 = 0))
    (hva : env.Resource_physToVirt
      (env.Resource_getVringDA (params.vqId % 65536) % 4294967296) = some baseVa) :
    ∃ vq w2, VirtQueue_create c env fuel w remoteProcId params = some (.ok (some vq, w2)) ∧
      w2.queueRegistry (params.vqId % 65536) = some vq ∧
      (∀ j, j ≠ params.vqId % 65536 → w2.queueRegistry j = w.queueRegistry j) ∧
      vq.id = params.vqId % 65536 ∧ vq.callback = params.callback := by
  obtain ⟨vq, w2, hrun, hreg, h1, h2, _⟩ :=
    create_known_id c env fuel w w1 remoteProcId gate baseVa params hinit halloc hgate hid hlt
      hpa hva
  refine ⟨vq, w2, hrun, ?_, ?_, h1, h2⟩
  · rw [hreg]
    simp
  · intro j hj
    rw [hreg, Function.update_noteq hj, init_registry env fuel w w1 hinit]

theorem C11_create_rebinds_slot_witness :
    exampleWorld.queueRegistry 0 = some exampleRing ∧
    ∃ vq w2, VirtQueue_create exampleConsts exampleEnv 3 exampleWorld 0
        { callback := 8192, vqId := 0 } = some (.ok (some vq, w2)) ∧
      w2.queueRegistry (0 % 65536) = some vq ∧
      (∀ j, j ≠ 0 % 65536 → w2.queueRegistry j = exampleWorld.queueRegistry j) ∧
      vq.id = 0 % 65536 ∧ vq.callback = 8192 :=
  ⟨rfl, C11_create_rebinds_slot exampleConsts exampleEnv 3 exampleWorld
    { exampleWorld with initialized := true } 0 1 0x60000000 { callback := 8192, vqId := 0 }
    rfl rfl rfl (Or.inl rfl) (by decide) (by decide) rfl⟩

/-- The polling loop started at read t0 stops after n reads exactly when read n - 1 is the
first one, from t0 on and within the fuel, that returns the primed status. -/
theorem pollVdevStatus_eq_some (status : Nat → Nat) :
    ∀ (fuel t0 n : Nat), pollVdevStatus status fuel t0 = some n ↔
      (t0 < n ∧ n ≤ t0 + fuel ∧ status (n - 1) = VRING_BUFS_PRIMED ∧
        ∀ t, t0 ≤ t → t < n - 1 → status t ≠ VRING_BUFS_PRIMED) := by
  intro fuel
  induction fuel with
  | zero =>
    intro t0 n
    simp only [pollVdevStatus]
    constructor
    · intro h
      cases h
    · intro h
      omega
  | succ fuel ih =>
    intro t0 n
    unfold pollVdevStatus
    by_cases hs : status t0 ≠ VRING_BUFS_PRIMED
    · rw [if_pos hs, ih (t0 + 1) n]
      constructor
      · rintro ⟨h1, h2, h3, h4⟩
        refine ⟨by omega, by omega, h3, ?_⟩
        intro t ht1 ht2
        rcases Nat.eq_or_lt_of_le ht1 with he | hl
        · rw [← he]
          exact hs
        · exact h4 t (by omega) ht2
      · rintro ⟨h1, h2, h3, h4⟩
        have hne : n - 1 ≠ t0 := by
          intro he
          rw [he] at h3
          exact hs h3
        refine ⟨by omega, by omega, h3, ?_⟩
        intro t ht1 ht2
        exact h4 t (by omega) ht2
    · rw [if_neg hs]
      have hs1 : status t0 = VRING_BUFS_PRIMED := by
        by_contra hc
        exact hs hc
      constructor
      · intro h
        have hn : n = t0 + 1 := by
          simp only [Option.some.injEq] at h
          omega
        subst hn
        refine ⟨by omega, by omega, by simpa using hs1, ?_⟩
        intro t ht1 ht2
        simp only [Nat.add_sub_cancel] at ht2
        omega
      · rintro ⟨h1, _, _, h4⟩
        have hn : n = t0 + 1 := by
          by_contra hc
          exact h4 t0 (Nat.le_refl _) (by omega) hs1
        rw [hn]

/-- On a peer that never reports the primed status the loop never stops. -/
theorem pollVdevStatus_never (status : Nat → Nat) (hne : ∀ t, status t ≠ VRING_BUFS_PRIMED) :
    ∀ fuel t0, pollVdevStatus status fuel t0 = none := by
  intro fuel
  induction fuel with
  | zero => intro t0; rfl
  | succ fuel ih =>
    intro t0
    unfold pollVdevStatus
    rw [if_pos (hne t0)]
    exact ih (t0 + 1)

/-- C12 (counterexample): in the sequence of status words 3, 15, 7, 7, .. the second word (15)
has the three readiness bits ACKNOWLEDGE, DRIVER and DRIVER_OK set, yet the polling loop does
not stop at it: it stops one read later, at the word 7; and on a peer that keeps reporting 15
the loop, the initialisation and the startup are still polling after 1000 reads. -/
theorem C12_handshake_counterexample :
    (15 &&& VIRTIO_CONFIG_S_ACKNOWLEDGE = VIRTIO_CONFIG_S_ACKNOWLEDGE ∧
      15 &&& VIRTIO_CONFIG_S_DRIVER = VIRTIO_CONFIG_S_DRIVER ∧
      15 &&& VIRTIO_CONFIG_S_DRIVER_OK = VIRTIO_CONFIG_S_DRIVER_OK) ∧
    pollVdevStatus (fun t => if t = 0 then 3 else if t = 1 then 15 else 7) 10 0 = some 3 ∧
    pollVdevStatus (fun _ => 15) 1000 0 = none ∧
    _VirtQueue_init { exampleEnv with Resource_getVdevStatus := fun _ => 15 } 1000
      exampleWorld = none ∧
    VirtQueue_startup { exampleEnv with Resource_getVdevStatus := fun _ => 15 } 0 1000
      exampleWorld = none := by
  have h := pollVdevStatus_never (fun _ => 15)
    (fun _ => (by decide : (15 : Nat) ≠ VRING_BUFS_PRIMED))
  refine ⟨⟨by decide, by decide, by decide⟩, by decide, h 1000 0, ?_, ?_⟩
  · simp [_VirtQueue_init, exampleWorld, exampleEnv, h]
  · simp [VirtQueue_startup, exampleEnv, h]

/-- C12 (amended): the polling loops of VirtQueue_startup and _VirtQueue_init compare the whole
status word with VRING_BUFS_PRIMED = 7. For every sequence of status words, if read t is the
first that returns exactly 7 (the three readiness bits and no other bit) and lies within the
polling budget, the loop stops at that read, and with it VirtQueue_startup returns and an
uninitialised _VirtQueue_init whose registration succeeded completes; and whenever the loop
stops, the word it stopped at is 7, so it never stops at a word in which one of the three bits
is clear (nor at a word that carries a further bit). -/
theorem C12_handshake_stops_at_primed (env : Env) (hostId fuel t : Nat) (w : World)
    (hprimed : env.Resource_getVdevStatus t = VRING_BUFS_PRIMED)
    (hfirst : ∀ s, s < t → env.Resource_getVdevStatus s ≠ VRING_BUFS_PRIMED)
    (hfuel : t < fuel) :
    pollVdevStatus env.Resource_getVdevStatus fuel 0 = some (t + 1) ∧
    VirtQueue_startup env hostId fuel w =
      some ([Event.IpcPower_init, Event.intRegister (hostId % 65536)],
        { w with hostProcId := hostId % 65536 }) ∧
    (w.initialized = false → env.Registry_addModule_ok = true →
      _VirtQueue_init env fuel w = some (.ok { w with initialized := true })) ∧
    (∀ n, pollVdevStatus env.Resource_getVdevStatus fuel 0 = some n →
      env.Resource_getVdevStatus (n - 1) = 7 ∧
      env.Resource_getVdevStatus (n - 1) &&& VIRTIO_CONFIG_S_ACKNOWLEDGE ≠ 0 ∧
      env.Resource_getVdevStatus (n - 1) &&& VIRTIO_CONFIG_S_DRIVER ≠ 0 ∧
      env.Resource_getVdevStatus (n - 1) &&& VIRTIO_CONFIG_S_DRIVER_OK ≠ 0) := by
  have hpoll : pollVdevStatus env.Resource_getVdevStatus fuel 0 = some (t + 1) := by
    rw [pollVdevStatus_eq_some]
    refine ⟨by omega, by omega, by simpa using hprimed, ?_⟩
    intro s _ hs
    exact hfirst s (by simpa using hs)
  refine ⟨hpoll, ?_, ?_, ?_⟩
  · simp [VirtQueue_startup, hpoll]
  · intro hi hr
    simp [_VirtQueue_init, hi, hr, hpoll]
  · intro n hn
    rw [pollVdevStatus_eq_some] at hn
    obtain ⟨_, _, h3, _⟩ := hn
    rw [h3]
    decide

theorem C12_handshake_stops_at_primed_witness :
    exampleEnv.Resource_getVdevStatus 2 = VRING_BUFS_PRIMED ∧
    pollVdevStatus exampleEnv.Resource_getVdevStatus 5 0 = some (2 + 1) :=
  ⟨by decide,
    (C12_handshake_stops_at_primed exampleEnv 0 5 2 exampleWorld (by decide)
      (by intro s hs; have h : s = 0 ∨ s = 1 := by omega
          rcases h with h | h <;> subst h <;> decide) (by decide)).1⟩

/-- Every ring that the function returns has the capacity `RP_MSG_NUM_BUFS`. -/
theorem create_capacity (c : Consts) (env : Env) (fuel : Nat) (w w2 : World)
    (remoteProcId : Nat) (params : VirtQueue_Params) (vq : VirtQueue_Object)
    (h : VirtQueue_create c env fuel w remoteProcId params = some (.ok (some vq, w2))) :
    vq.vring.num = RP_MSG_NUM_BUFS := by
  unfold VirtQueue_create at h
  cases hinit : _VirtQueue_init env fuel w with
  | none =>
    rw [hinit] at h
    simp at h
  | some r =>
    cases r with
    | error f =>
      rw [hinit] at h
      simp at h
    | ok w1 =>
      rw [hinit] at h
      simp only [] at h
      by_cases ha : env.Memory_alloc_ok = true
      · simp only [ha, not_true_eq_false, if_false] at h
        cases hg : env.GateHwi_create with
        | none =>
          rw [hg] at h
          simp at h
        | some gate =>
          rw [hg] at h
          simp only [] at h
          by_cases hid : params.vqId % 65536 = c.ID_SELF_TO_HOST ∨
              params.vqId % 65536 = c.ID_HOST_TO_SELF
          · rw [if_pos hid] at h
            by_cases hpa : env.Assert_enabled = true ∧
                env.Resource_getVringDA (params.vqId % 65536) % 4294967296 = 0
            · rw [if_pos hpa] at h
              simp at h
            · rw [if_neg hpa] at h
              cases hva : env.Resource_physToVirt
                  (env.Resource_getVringDA (params.vqId % 65536) % 4294967296) with
              | none =>
                rw [hva] at h
                simp only [] at h
                split_ifs at h <;> simp at h
              | some baseVa =>
                rw [hva] at h
                simp only [] at h
                by_cases hlt : params.vqId % 65536 < NUM_QUEUES
                · rw [if_pos hlt] at h
                  simp only [Option.some.injEq, Except.ok.injEq, Prod.mk.injEq] at h
                  rw [← h.1]
                  split <;> rfl
                · rw [if_neg hlt] at h
                  simp at h
          · rw [if_neg hid] at h
            simp at h
      · simp [ha] at h

/-- C13: every ring returned by VirtQueue_create has the capacity vring.num = VQ_SIZE = 256 =
2^8, a power of two. VirtQueue_create takes no capacity: the capacity is the compile-time
constant VQ_SIZE, so no call constructs a ring whose capacity is not a power of two. -/
theorem C13_create_capacity_is_VQ_SIZE (c : Consts) (env : Env) (fuel : Nat) (w w2 : World)
    (remoteProcId : Nat) (params : VirtQueue_Params) (vq : VirtQueue_Object)
    (h : VirtQueue_create c env fuel w remoteProcId params = some (.ok (some vq, w2))) :
    vq.vring.num = VQ_SIZE ∧ vq.vring.num = 2 ^ 8 ∧ (∃ e, vq.vring.num = 2 ^ e) ∧
      ∀ n, (¬ ∃ e, n = 2 ^ e) → vq.vring.num ≠ n := by
  have hn : vq.vring.num = VQ_SIZE := create_capacity c env fuel w w2 remoteProcId params vq h
  have h8 : vq.vring.num = 2 ^ 8 := by
    rw [hn]
    rfl
  exact ⟨hn, h8, ⟨8, h8⟩, fun n hnp heq => hnp ⟨8, by rw [← heq, h8]⟩⟩

theorem C13_create_capacity_is_VQ_SIZE_witness :
    ∃ vq w2, VirtQueue_create exampleConsts exampleEnv 3 exampleWorld 0
        { callback := 8192, vqId := 0 } = some (.ok (some vq, w2)) ∧
      vq.vring.num = VQ_SIZE ∧ vq.vring.num = 2 ^ 8 :=
  ⟨_, _, rfl,
    (C13_create_capacity_is_VQ_SIZE exampleConsts exampleEnv 3 exampleWorld _ 0
      { callback := 8192, vqId := 0 } _ rfl).1,
    (C13_create_capacity_is_VQ_SIZE exampleConsts exampleEnv 3 exampleWorld _ 0
      { callback := 8192, vqId := 0 } _ rfl).2.1⟩

/-- C23: with 256 buffers, alignment 4096 and page size 4096 the split ring takes
10244 bytes (8192 for the descriptor table and the avail ring rounded up to the alignment,
2052 for the used ring), RP_MSG_RING_SIZE is 3 pages = 12288 bytes, and RPMSG_IPC_MEM is
256 * 512 * 2 + 2 * 12288 = 286720. -/
theorem C23_ring_region_size :
    RP_MSG_NUM_BUFS = 256 ∧ RP_MSG_VRING_ALIGN = 4096 ∧ PAGE_SIZE = 4096 ∧
    vring_size RP_MSG_NUM_BUFS RP_MSG_VRING_ALIGN = 8192 + 2052 ∧
    RP_MSG_RING_SIZE = 3 * PAGE_SIZE ∧ RP_MSG_RING_SIZE = 12288 ∧
    RPMSG_IPC_MEM = 256 * 512 * 2 + 2 * 12288 ∧ RPMSG_IPC_MEM = 286720 := by
  refine ⟨rfl, rfl, rfl, ?_, ?_, ?_, ?_, ?_⟩ <;> decide

/-- C24: hibernation control in VirtQueue_isr, for every module state. On RP_MSG_HIBERNATION
with the can-hibernate predicate false the handler makes, after clearing the mailbox, exactly
one call, the send of RP_MSG_HIBERNATION_CANCEL to the host, and does not suspend; with the
predicate true it sends RP_MSG_HIBERNATION_ACK to the host and then calls IpcPower_suspend; on
RP_MSG_HIBERNATION_FORCE it sends RP_MSG_HIBERNATION_ACK and suspends whatever the predicate
says. In every case no ring callback is called, no fault occurs and the module state is
unchanged. -/
theorem C24_isr_hibernation (w : World) (canHibernate : Bool) :
    (VirtQueue_isr w false RP_MSG_HIBERNATION).events =
      [Event.intClear w.hostProcId, Event.intSend w.hostProcId RP_MSG_HIBERNATION_CANCEL] ∧
    (VirtQueue_isr w true RP_MSG_HIBERNATION).events =
      [Event.intClear w.hostProcId, Event.intSend w.hostProcId RP_MSG_HIBERNATION_ACK,
        Event.IpcPower_suspend] ∧
    (VirtQueue_isr w canHibernate RP_MSG_HIBERNATION_FORCE).events =
      [Event.intClear w.hostProcId, Event.intSend w.hostProcId RP_MSG_HIBERNATION_ACK,
        Event.IpcPower_suspend] ∧
    (∀ msg, msg = RP_MSG_HIBERNATION ∨ msg = RP_MSG_HIBERNATION_FORCE →
      callbacksOf (VirtQueue_isr w canHibernate msg).events = [] ∧
      (VirtQueue_isr w canHibernate msg).fault = none ∧
      (VirtQueue_isr w canHibernate msg).world = w) := by
  refine ⟨rfl, rfl, rfl, ?_⟩
  intro msg h
  rcases h with h | h
  · subst h
    cases canHibernate <;> exact ⟨rfl, rfl, rfl⟩
  · subst h
    exact ⟨rfl, rfl, rfl⟩

/-- C22 (failing input): on a ring of capacity 256 whose avail ring holds the head 300 at the
cursor, VirtQueue_getAvailBuf does not check the head: it returns 300, which is not below the
capacity, with the pointer and the length read at desc[300], outside the descriptor table. -/
theorem C22_getAvailBuf_head_outside_table :
    exampleRingBadHead.vring.num = 256 ∧
    exampleRingBadHead.vring.avail.ring
      (exampleRingBadHead.last_avail_idx % exampleRingBadHead.vring.num) = 300 ∧
    ∃ r, VirtQueue_getAvailBuf exampleConsts exampleRingBadHead 0 0 = .ok r ∧
      r.head = 300 ∧ ¬ r.head < (exampleRingBadHead.vring.num : Int) ∧
      r.buf = _VirtQueue_getVA exampleRingBadHead (exampleRingBadHead.vring.desc 300).addr ∧
      r.len = toInt32 (exampleRingBadHead.vring.desc 300).len :=
  ⟨rfl, rfl, _, rfl, rfl, by decide, rfl, rfl⟩


/-! ### The notification flag of the used ring -/

theorem bit_of_lt_65536 (m i : Nat) (hm : m < 65536) (h : m.testBit i = true) : i < 16 := by
  by_contra hi
  have h2 : m < 2 ^ i := lt_of_lt_of_le hm
    (by have : (2 : Nat) ^ 16 ≤ 2 ^ i := Nat.pow_le_pow_right (by norm_num) (by omega)
        simpa using this)
  rw [Nat.testBit_lt_two_pow h2] at h
  exact Bool.noConfusion h

theorem clearBits16_testBit (f m i : Nat) :
    (clearBits16 f m % 65536).testBit i =
      (decide (i < 16) && (f.testBit i && !(m.testBit i))) := by
  unfold clearBits16
  have h1 : (65536 : Nat) = 2 ^ 16 := by norm_num
  have h2 : (65535 : Nat) = 2 ^ 16 - 1 := by norm_num
  rw [h1, h2, Nat.testBit_mod_two_pow, Nat.testBit_and, Nat.testBit_xor,
    Nat.testBit_two_pow_sub_one, Nat.testBit_mod_two_pow]
  by_cases hi : i < 16 <;> simp [hi]

theorem setBits16_testBit (x m i : Nat) :
    ((x ||| m) % 65536).testBit i = (decide (i < 16) && (x.testBit i || m.testBit i)) := by
  have h1 : (65536 : Nat) = 2 ^ 16 := by norm_num
  rw [h1, Nat.testBit_mod_two_pow, Nat.testBit_or]

/-- After `flags &= ~mask` no bit of the mask is set. -/
theorem clearBits16_and (f m : Nat) : clearBits16 f m % 65536 &&& m = 0 := by
  apply Nat.eq_of_testBit_eq
  intro i
  rw [Nat.testBit_and, clearBits16_testBit, Nat.zero_testBit]
  cases f.testBit i <;> cases m.testBit i <;> simp

/-- After `flags |= mask` every bit of a 16-bit mask is set. -/
theorem setBits16_and (x m : Nat) (hm : m < 65536) : (x ||| m) % 65536 &&& m = m := by
  apply Nat.eq_of_testBit_eq
  intro i
  rw [Nat.testBit_and, setBits16_testBit]
  by_cases hb : m.testBit i = true
  · have hi := bit_of_lt_65536 m i hm hb
    simp [hb, hi]
  · have hb2 : m.testBit i = false := by simpa using hb
    simp [hb2]

theorem toInt16_eq_neg_one (n : Nat) : toInt16 n = -1 ↔ n % 65536 = 65535 := by
  unfold toInt16
  split_ifs with h
  · constructor <;> intro h1 <;> first | contradiction | omega
  · constructor <;> intro h1 <;> first | contradiction | omega

/-- The call returns on every ring of positive capacity; the flags of the used ring after it
depend on whether the avail ring was empty. -/
theorem getAvailBuf_flags (c : Consts) (vq : VirtQueue_Object) (buf : Nat) (len : Int)
    (hnum : 0 < vq.vring.num) :
    ∃ r, VirtQueue_getAvailBuf c vq buf len = .ok r ∧
      (vq.last_avail_idx = vq.vring.avail.idx ∧ r.head = -1 ∧
        r.vq.vring.used.flags =
          clearBits16 vq.vring.used.flags c.VRING_USED_F_NO_NOTIFY % 65536 ∨
       vq.last_avail_idx ≠ vq.vring.avail.idx ∧ r.head = toInt16 (entryAtCursor vq) ∧
        r.vq.vring.used.flags =
          (clearBits16 vq.vring.used.flags c.VRING_USED_F_NO_NOTIFY % 65536 |||
            c.VRING_USED_F_NO_NOTIFY) % 65536) ∧
      r.vq.vring.used.idx = vq.vring.used.idx ∧ r.vq.vring.used.ring = vq.vring.used.ring := by
  by_cases he : vq.last_avail_idx = vq.vring.avail.idx
  · exact ⟨_, getAvailBuf_empty c vq buf len he, Or.inl ⟨he, rfl, rfl⟩, rfl, rfl⟩
  · have hnz : ¬ vq.vring.num = 0 := by omega
    unfold VirtQueue_getAvailBuf
    simp only [setUsedFlags]
    rw [if_neg he, if_neg hnz]
    exact ⟨_, rfl, Or.inr ⟨he, rfl, rfl⟩, rfl, rfl⟩

/-- C25 (counterexample): on a ring of capacity 256 with one published entry that holds 0xFFFF,
VirtQueue_getAvailBuf returns -1, the value for none, and leaves VRING_USED_F_NO_NOTIFY set. -/
theorem C25_getAvailBuf_none_with_flag_counterexample :
    exampleRingHeadFFFF.vring.num = 256 ∧ entryAtCursor exampleRingHeadFFFF = 0xFFFF ∧
    ∃ r, VirtQueue_getAvailBuf exampleConsts exampleRingHeadFFFF 0 0 = .ok r ∧
      r.head = -1 ∧
      r.vq.vring.used.flags &&& exampleConsts.VRING_USED_F_NO_NOTIFY =
        exampleConsts.VRING_USED_F_NO_NOTIFY ∧
      exampleConsts.VRING_USED_F_NO_NOTIFY ≠ 0 :=
  ⟨rfl, rfl, _, rfl, rfl, by decide, by decide⟩

/-- C25 (amended): with VRING_USED_F_NO_NOTIFY a non-zero 16-bit mask, on every ring state of
positive capacity VirtQueue_getAvailBuf returns, and after it the mask is set in used.flags if
and only if the avail ring was not empty at the call (last_avail_idx differed from avail.idx),
and no bit of the mask is set if and only if it was empty. A call that returned a buffer (a
value other than -1) leaves the mask set, and whenever the avail entry at the cursor is not
0xFFFF the mask is set if and only if the call returned a buffer and clear if and only if it
returned none. Every bit of used.flags outside the mask, used.idx and the entries of the used
ring are unchanged. -/
theorem C25_getAvailBuf_toggles_no_notify (c : Consts) (vq : VirtQueue_Object) (buf : Nat)
    (len : Int) (hm0 : c.VRING_USED_F_NO_NOTIFY ≠ 0) (hm : c.VRING_USED_F_NO_NOTIFY < 65536)
    (hnum : 0 < vq.vring.num) :
    ∃ r, VirtQueue_getAvailBuf c vq buf len = .ok r ∧
      (vq.last_avail_idx ≠ vq.vring.avail.idx ↔
        r.vq.vring.used.flags &&& c.VRING_USED_F_NO_NOTIFY = c.VRING_USED_F_NO_NOTIFY) ∧
      (vq.last_avail_idx = vq.vring.avail.idx ↔
        r.vq.vring.used.flags &&& c.VRING_USED_F_NO_NOTIFY = 0) ∧
      (r.head ≠ -1 →
        r.vq.vring.used.flags &&& c.VRING_USED_F_NO_NOTIFY = c.VRING_USED_F_NO_NOTIFY) ∧
      (entryAtCursor vq % 65536 ≠ 65535 →
        (r.head ≠ -1 ↔
          r.vq.vring.used.flags &&& c.VRING_USED_F_NO_NOTIFY = c.VRING_USED_F_NO_NOTIFY) ∧
        (r.head = -1 ↔ r.vq.vring.used.flags &&& c.VRING_USED_F_NO_NOTIFY = 0)) ∧
      (∀ i, i < 16 → c.VRING_USED_F_NO_NOTIFY.testBit i = false →
        r.vq.vring.used.flags.testBit i = vq.vring.used.flags.testBit i) ∧
      r.vq.vring.used.idx = vq.vring.used.idx ∧ r.vq.vring.used.ring = vq.vring.used.ring := by
  obtain ⟨r, hr, hcase, hidx, hring⟩ := getAvailBuf_flags c vq buf len hnum
  refine ⟨r, hr, ?_⟩
  rcases hcase with ⟨he, hh, hf⟩ | ⟨he, hh, hf⟩
  · have hz : r.vq.vring.used.flags &&& c.VRING_USED_F_NO_NOTIFY = 0 := by
      rw [hf]
      exact clearBits16_and _ _
    have hns : ¬ r.vq.vring.used.flags &&& c.VRING_USED_F_NO_NOTIFY =
        c.VRING_USED_F_NO_NOTIFY := by
      rw [hz]
      exact fun h => hm0 h.symm
    refine ⟨⟨fun h => absurd he h, fun h => absurd h hns⟩, ⟨fun _ => hz, fun _ => he⟩,
      fun h => absurd hh h,
      fun _ => ⟨⟨fun h => absurd hh h, fun h => absurd h hns⟩, ⟨fun _ => hz, fun _ => hh⟩⟩,
      ?_, hidx, hring⟩
    intro i hi hb
    rw [hf, clearBits16_testBit]
    simp [hi, hb]
  · have hs : r.vq.vring.used.flags &&& c.VRING_USED_F_NO_NOTIFY =
        c.VRING_USED_F_NO_NOTIFY := by
      rw [hf]
      exact setBits16_and _ _ hm
    have hnz : ¬ r.vq.vring.used.flags &&& c.VRING_USED_F_NO_NOTIFY = 0 := by
      rw [hs]
      exact hm0
    refine ⟨⟨fun _ => hs, fun _ => he⟩, ⟨fun h => absurd h he, fun h => absurd h hnz⟩,
      fun _ => hs, fun hent => ?_, ?_, hidx, hring⟩
    · have hne : r.head ≠ -1 := by
        rw [hh]
        exact fun h => hent ((toInt16_eq_neg_one _).1 h)
      exact ⟨⟨fun _ => hs, fun _ => hne⟩, ⟨fun h => absurd h hne, fun h => absurd h hnz⟩⟩
    · intro i hi hb
      rw [hf, setBits16_testBit, clearBits16_testBit]
      simp [hi, hb]

theorem C25_getAvailBuf_toggles_no_notify_witness :
    0 < exampleRingPublished.vring.num ∧
    exampleRingPublished.last_avail_idx ≠ exampleRingPublished.vring.avail.idx ∧
    ∃ r, VirtQueue_getAvailBuf exampleConsts exampleRingPublished 0 0 = .ok r ∧
      r.vq.vring.used.flags &&& exampleConsts.VRING_USED_F_NO_NOTIFY =
        exampleConsts.VRING_USED_F_NO_NOTIFY := by
  obtain ⟨r, hr, h1, _⟩ := C25_getAvailBuf_toggles_no_notify exampleConsts exampleRingPublished
    0 0 (by decide) (by decide) (by decide)
  exact ⟨by decide, by decide, r, hr, h1.1 (by decide)⟩

/-- The used flags of a ring that `VirtQueue_create` builds for the host as remote processor:
the flags found in the shared memory with the bits of VRING_USED_F_NO_NOTIFY cleared. -/
theorem create_host_flags (c : Consts) (env : Env) (fuel : Nat) (w w1 : World)
    (remoteProcId gate baseVa : Nat) (params : VirtQueue_Params)
    (hinit : _VirtQueue_init env fuel w = some (.ok w1))
    (halloc : env.Memory_alloc_ok = true) (hgate : env.GateHwi_create = some gate)
    (hid : params.vqId % 65536 = c.ID_SELF_TO_HOST ∨ params.vqId % 65536 = c.ID_HOST_TO_SELF)
    (hlt : params.vqId % 65536 < NUM_QUEUES)
    (hpa : ¬ (env.Assert_enabled = true ∧
      env.Resource_getVringDA (params.vqId % 65536) % 4294967296 = 0))
    (hva : env.Resource_physToVirt
      (env.Resource_getVringDA (params.vqId % 65536) % 4294967296) = some baseVa)
    (hhost : remoteProcId % 65536 = w1.hostProcId) :
    ∃ vq w2, VirtQueue_create c env fuel w remoteProcId params = some (.ok (some vq, w2)) ∧
      vq.procId = w2.hostProcId ∧
      vq.vring.used.flags =
        clearBits16 (env.sharedMemory baseVa).used.flags c.VRING_USED_F_NO_NOTIFY % 65536 ∧
      vq.vring.used.flags &&& c.VRING_USED_F_NO_NOTIFY = 0 := by
  unfold VirtQueue_create
  rw [hinit]
  simp only [halloc, hgate, hva, not_true_eq_false, if_false, if_pos hid, if_neg hpa, if_pos hlt,
    hhost, if_true]
  refine ⟨_, _, rfl, rfl, rfl, ?_⟩
  exact clearBits16_and _ _

/-- C27 (failing input): the shared memory of the ring has VRING_USED_F_NO_NOTIFY set, and
VirtQueue_create builds the ring with the host as remote processor: on return the flag is
clear. -/
theorem C27_create_host_clears_no_notify :
    (exampleEnvNoNotify.sharedMemory 0x60000000).used.flags &&&
      exampleConsts.VRING_USED_F_NO_NOTIFY = exampleConsts.VRING_USED_F_NO_NOTIFY ∧
    ∃ vq w2, VirtQueue_create exampleConsts exampleEnvNoNotify 3 exampleWorld
        exampleWorld.hostProcId { callback := 8192, vqId := 1 } = some (.ok (some vq, w2)) ∧
      vq.procId = w2.hostProcId ∧
      vq.vring.used.flags &&& exampleConsts.VRING_USED_F_NO_NOTIFY = 0 :=
  ⟨by decide, _, _, rfl, rfl, by decide⟩


/-! ### Slot order across the 16-bit wrap -/

theorem slots_cover (a n : Nat) (hn : 0 < n) (s : Nat) (hs : s < n) :
    s ∈ (List.range n).map (fun i => (a + i) % n) := by
  rw [List.mem_map]
  refine ⟨(s + n - a % n) % n, List.mem_range.2 (Nat.mod_lt _ hn), ?_⟩
  have ha : a % n < n := Nat.mod_lt _ hn
  have h1 : a % n + (s + n - a % n) = s + n := by omega
  show (a + (s + n - a % n) % n) % n = s
  rw [Nat.add_mod_mod, ← Nat.mod_add_mod, h1, Nat.add_mod_right, Nat.mod_eq_of_lt hs]

/-- The slots written by consecutive accepted calls, the used index after them, the content of
the slots written (when the calls are at most as many as the slots) and the slots untouched. -/
theorem addUsedBuf_calls_run (n : Nat) (hdvd : n ∣ 65536) (hpos : 0 < n) :
    ∀ (calls : List (Int × Int)) (vq : VirtQueue_Object),
      vq.vring.num = n → vq.vring.used.idx < 65536 →
      (∀ c ∈ calls, isInt16 c.1 ∧ 0 ≤ c.1 ∧ c.1 < (n : Int)) →
      ∃ vq1, addUsedBuf_calls calls vq =
          .ok ((List.range calls.length).map (fun i => (vq.vring.used.idx + i) % n), vq1) ∧
        vq1.vring.used.idx = (vq.vring.used.idx + calls.length) % 65536 ∧
        vq1.vring.num = n ∧
        (∀ s, (∀ j, j < calls.length → s ≠ (vq.vring.used.idx + j) % n) →
          vq1.vring.used.ring s = vq.vring.used.ring s) ∧
        (calls.length ≤ n → ∀ i c, calls.get? i = some c →
          vq1.vring.used.ring ((vq.vring.used.idx + i) % n) =
            { id := toU32 c.1, len := toU32 c.2 }) := by
  intro calls
  induction calls with
  | nil =>
    intro vq hn hidx _
    refine ⟨vq, rfl, ?_, hn, fun _ _ => rfl, ?_⟩
    · simp only [List.length_nil, Nat.add_zero]
      exact (Nat.mod_eq_of_lt hidx).symm
    · intro _ i c hc
      simp at hc
  | cons c rest ih =>
    intro vq hn hidx hvalid
    obtain ⟨hty, h0, hlt⟩ := hvalid c (List.mem_cons_self _ _)
    obtain ⟨vq0, hacc, hnum0, hidx0, hring0⟩ : ∃ vq0,
        VirtQueue_addUsedBuf vq c.1 c.2 = .ok (0, vq0) ∧ vq0.vring.num = n ∧
        vq0.vring.used.idx = (vq.vring.used.idx + 1) % 65536 ∧
        vq0.vring.used.ring = Function.update vq.vring.used.ring (vq.vring.used.idx % n)
          { id := toU32 c.1, len := toU32 c.2 } :=
      ⟨_, addUsedBuf_accepts vq c.1 c.2 hty h0 (by rw [hn]; omega) (by rw [hn]; exact hpos),
        hn, rfl, by rw [← hn]⟩
    obtain ⟨vq1, hrun, hidx1, hnum1, hframe, hcontent⟩ := ih vq0 hnum0
      (by rw [hidx0]; exact Nat.mod_lt _ (by norm_num))
      (fun x hx => hvalid x (List.mem_cons_of_mem _ hx))
    rw [hidx0] at hrun hidx1 hframe hcontent
    refine ⟨vq1, ?_, ?_, hnum1, ?_, ?_⟩
    · obtain ⟨head, len⟩ := c
      simp only [addUsedBuf_calls, hacc, hrun, hn]
      rw [List.length_cons, List.range_succ_eq_map, List.map_cons, List.map_map]
      have hmap : List.map (fun i => ((vq.vring.used.idx + 1) % 65536 + i) % n)
            (List.range rest.length) =
          List.map ((fun i => (vq.vring.used.idx + i) % n) ∘ Nat.succ)
            (List.range rest.length) :=
        List.map_congr_left (fun i _ => by
          simp only [Function.comp, Nat.succ_eq_add_one]
          exact wrap_slot _ _ _ hdvd)
      rw [hmap]
      rfl
    · rw [hidx1, List.length_cons]
      omega
    · intro s hs
      rw [hframe s (fun j hj => by
        rw [wrap_slot _ _ _ hdvd]
        exact hs (j + 1) (by rw [List.length_cons]; omega))]
      have h0s : s ≠ vq.vring.used.idx % n := by
        have := hs 0 (by rw [List.length_cons]; omega)
        simpa using this
      rw [hring0]
      exact Function.update_noteq h0s _ _
    · intro hlen i x hx
      rw [List.length_cons] at hlen
      cases i with
      | zero =>
        simp only [List.get?_cons_zero, Option.some.injEq] at hx
        subst hx
        rw [Nat.add_zero, hframe _ (fun j hj => by
          rw [wrap_slot _ _ _ hdvd]
          intro heq
          have h1 : (vq.vring.used.idx + 0) % n = (vq.vring.used.idx + (j + 1)) % n := by
            simpa using heq
          have h2 : (0 : Nat) ≡ j + 1 [MOD n] := Nat.ModEq.add_left_cancel' _ h1
          have h3 : 0 % n = (j + 1) % n := h2
          rw [Nat.zero_mod, Nat.mod_eq_of_lt (by omega)] at h3
          omega), hring0]
        exact Function.update_same _ _ _
      | succ i =>
        simp only [List.get?_cons_succ] at hx
        have := hcontent (by omega) i x hx
        rw [wrap_slot _ _ _ hdvd] at this
        exact this


theorem count_slots (a s : Nat) (hs : s < 256) :
    ((List.range 256).map (fun i => (a + i) % 256)).count s = 1 :=
  List.count_eq_one_of_mem (positions_nodup a 256 256 (le_refl _))
    (slots_cover a 256 (by norm_num) s hs)

/-- C28: on a ring of capacity 256, for every starting value of used.idx (65535 included),
consecutive accepted VirtQueue_addUsedBuf calls write the slots (used.idx + i) mod 256 for
i = 0, 1, ..: a call that writes slot s is followed by one that writes (s + 1) mod 256, used.idx
ends at (used.idx + number of calls) mod 2^16, up to 256 calls leave their elements in these
slots, and 256 calls write every slot exactly once. In the same way, for every cursor value and
whatever the avail entries hold, when the producer has published k <= 256 entries, consecutive
VirtQueue_getAvailBuf calls read the avail-ring positions (last_avail_idx + i) mod 256 (they
return the entries stored there, as Int16), each following the one before, and 256 calls read
every position exactly once. -/
theorem C28_slot_order_across_wrap (c : Consts) (vq : VirtQueue_Object)
    (calls : List (Int × Int)) (buf : Nat) (len : Int) (k : Nat)
    (hnum : vq.vring.num = 256)
    (hused : vq.vring.used.idx < 65536) (hlast : vq.last_avail_idx < 65536)
    (hcalls : ∀ x ∈ calls, isInt16 x.1 ∧ 0 ≤ x.1 ∧ x.1 < 256)
    (hk : k ≤ 256) (hidx : vq.vring.avail.idx = (vq.last_avail_idx + k) % 65536) :
    (∃ vq1, addUsedBuf_calls calls vq =
        .ok ((List.range calls.length).map (fun i => (vq.vring.used.idx + i) % 256), vq1) ∧
      vq1.vring.used.idx = (vq.vring.used.idx + calls.length) % 65536 ∧
      (calls.length ≤ 256 → ∀ i x, calls.get? i = some x →
        vq1.vring.used.ring ((vq.vring.used.idx + i) % 256) =
          { id := toU32 x.1, len := toU32 x.2 })) ∧
    (∀ i, (vq.vring.used.idx + (i + 1)) % 256 = ((vq.vring.used.idx + i) % 256 + 1) % 256) ∧
    (calls.length = 256 → ∀ s, s < 256 →
      ((List.range calls.length).map (fun i => (vq.vring.used.idx + i) % 256)).count s = 1) ∧
    (∃ vq1, getAvailBuf_calls c (k + 1) vq buf len =
        .ok ((List.range k).map
          (fun i => toInt16 (vq.vring.avail.ring ((vq.last_avail_idx + i) % 256))) ++ [-1],
          vq1) ∧
      vq1.last_avail_idx = vq.vring.avail.idx) ∧
    (∀ i, (vq.last_avail_idx + (i + 1)) % 256 = ((vq.last_avail_idx + i) % 256 + 1) % 256) ∧
    (k = 256 → ∀ s, s < 256 →
      ((List.range k).map (fun i => (vq.last_avail_idx + i) % 256)).count s = 1) := by
  have hdvd : 256 ∣ 65536 := by norm_num
  obtain ⟨vq1, h1, h2, _, _, h5⟩ :=
    addUsedBuf_calls_run 256 hdvd (by norm_num) calls vq hnum hused
      (fun x hx => by simpa using hcalls x hx)
  obtain ⟨vq2, g1, g2⟩ := getAvailBuf_calls_run c 256 hdvd (by norm_num) k vq buf len hnum
    hlast hk hidx
  refine ⟨⟨vq1, h1, h2, h5⟩, fun i => by omega, ?_, ⟨vq2, g1, g2⟩, fun i => by omega, ?_⟩
  · intro hl s hs
    rw [hl]
    exact count_slots _ s hs
  · intro hl s hs
    rw [hl]
    exact count_slots _ s hs

theorem C28_slot_order_across_wrap_witness :
    exampleRingAtWrap.vring.num = 256 ∧ exampleRingAtWrap.vring.used.idx = 65535 ∧
    exampleRingAtWrap.last_avail_idx = 65535 ∧
    (∃ vq1, addUsedBuf_calls [(5, 10), (6, 20)] exampleRingAtWrap = .ok ([255, 0], vq1) ∧
      vq1.vring.used.idx = 1) ∧
    (∃ vq1, getAvailBuf_calls exampleConsts 3 exampleRingAtWrap 0 0 = .ok ([255, 0, -1], vq1) ∧
      vq1.last_avail_idx = 1) := by
  obtain ⟨⟨vq1, h1, h2, _⟩, _, _, ⟨vq2, g1, g2⟩, _⟩ :=
    C28_slot_order_across_wrap exampleConsts exampleRingAtWrap [(5, 10), (6, 20)] 0 0 2
      rfl (by decide) (by decide) (by decide) (by decide) rfl
  exact ⟨rfl, rfl, rfl, ⟨vq1, h1, h2⟩, ⟨vq2, g1, g2⟩⟩

end VirtQueue

namespace VAYUIpcInt

/-! ## Traces -/

theorem allocsOf_append (l1 l2 : List Call) :
    allocsOf (l1 ++ l2) = allocsOf l1 ++ allocsOf l2 := by
  induction l1 with
  | nil => rfl
  | cons c cs ih => cases c <;> simp [allocsOf, ih]

theorem freesOf_append (l1 l2 : List Call) :
    freesOf (l1 ++ l2) = freesOf l1 ++ freesOf l2 := by
  induction l1 with
  | nil => rfl
  | cons c cs ih => cases c <;> simp [freesOf, ih]

theorem callbacksOf_append (l1 l2 : List Call) :
    callbacksOf (l1 ++ l2) = callbacksOf l1 ++ callbacksOf l2 := by
  induction l1 with
  | nil => rfl
  | cons c cs ih => cases c <;> simp [callbacksOf, ih]

/-! ## The message-node pool -/

theorem get_msg_cached (pf : Platform) (m : VAYUIpcInt_ModuleObject)
    (msg : VAYUIpcInt_MsgListElem) (rest : List VAYUIpcInt_MsgListElem)
    (h : m.msg_cache = msg :: rest) :
    get_msg pf m = (some msg, { m with msg_cache := rest, num_msg := m.num_msg - 1 }) := by
  unfold get_msg
  rw [h]

theorem get_msg_empty (pf : Platform) (m : VAYUIpcInt_ModuleObject) (h : m.msg_cache = []) :
    get_msg pf m =
      (if pf.Memory_alloc m.trace = 0 then none
        else some { addr := pf.Memory_alloc m.trace, msg := pf.garbage m.trace },
       record m (Call.Memory_alloc (pf.Memory_alloc m.trace))) := by
  unfold get_msg
  rw [h]
  simp only []
  split_ifs <;> rfl

theorem get_msg_invariant (pf : Platform) (m : VAYUIpcInt_ModuleObject)
    (h : poolInvariant m) : poolInvariant (get_msg pf m).2 := by
  obtain ⟨h1, h2⟩ := h
  cases hc : m.msg_cache with
  | nil =>
    rw [get_msg_empty pf m hc]
    simp only [poolInvariant, record]
    rw [hc] at h1 h2
    exact ⟨by rw [hc]; exact h1, by rw [hc]; exact h2⟩
  | cons x rest =>
    rw [get_msg_cached pf m x rest hc]
    rw [hc] at h1 h2
    simp only [poolInvariant, List.length_cons] at h1 h2 ⊢
    constructor
    · rw [h1]
      push_cast
      ring
    · omega

theorem put_msg_invariant (m : VAYUIpcInt_ModuleObject) (msg : VAYUIpcInt_MsgListElem)
    (h : poolInvariant m) : poolInvariant (put_msg m msg) := by
  obtain ⟨h1, h2⟩ := h
  unfold put_msg
  split_ifs with hfull
  · exact ⟨h1, h2⟩
  · simp only [poolInvariant, List.length_cons]
    unfold CACHE_NUM at hfull h2 ⊢
    constructor
    · rw [h1]
      push_cast
      ring
    · rw [h1] at hfull
      omega

theorem runPool_invariant (pf : Platform) :
    ∀ (ops : List PoolOp) (m : VAYUIpcInt_ModuleObject),
      poolInvariant m → poolInvariant (runPool pf ops m) := by
  intro ops
  induction ops with
  | nil => intro m h; exact h
  | cons op ops ih =>
    intro m h
    cases op with
    | get => exact ih _ (get_msg_invariant pf m h)
    | put msg => exact ih _ (put_msg_invariant m msg h)

theorem put_msg_room (m : VAYUIpcInt_ModuleObject) (msg : VAYUIpcInt_MsgListElem)
    (h : poolInvariant m) (hroom : m.msg_cache.length < 20) :
    (put_msg m msg).msg_cache = msg :: m.msg_cache ∧
    (put_msg m msg).num_msg = m.num_msg + 1 ∧ (put_msg m msg).trace = m.trace := by
  have hlt : ¬ m.num_msg ≥ (CACHE_NUM : Int) := by
    rw [h.1]
    unfold CACHE_NUM
    omega
  unfold put_msg
  rw [if_neg hlt]
  exact ⟨rfl, rfl, rfl⟩

theorem put_msg_full (m : VAYUIpcInt_ModuleObject) (msg : VAYUIpcInt_MsgListElem)
    (h : poolInvariant m) (hfull : m.msg_cache.length = 20) :
    (put_msg m msg).msg_cache = m.msg_cache ∧ (put_msg m msg).num_msg = m.num_msg ∧
    (put_msg m msg).trace = m.trace ++ [Call.Memory_free msg.addr] := by
  have hge : m.num_msg ≥ (CACHE_NUM : Int) := by
    rw [h.1]
    unfold CACHE_NUM
    omega
  unfold put_msg
  rw [if_pos hge]
  exact ⟨rfl, rfl, rfl⟩

/-- Puts into a pool that has room for all of them: every node is cached, none is freed. -/
theorem putMany_room :
    ∀ (msgs : List VAYUIpcInt_MsgListElem) (m : VAYUIpcInt_ModuleObject),
      poolInvariant m → m.msg_cache.length + msgs.length ≤ 20 →
      (putMany m msgs).msg_cache = msgs.reverse ++ m.msg_cache ∧
      (putMany m msgs).num_msg = m.num_msg + msgs.length ∧
      (putMany m msgs).trace = m.trace := by
  intro msgs
  induction msgs with
  | nil =>
    intro m _ _
    simp [putMany]
  | cons x xs ih =>
    intro m hinv hlen
    simp only [List.length_cons] at hlen
    obtain ⟨h1, h2, h3⟩ := put_msg_room m x hinv (by omega)
    have hinv1 := put_msg_invariant m x hinv
    obtain ⟨g1, g2, g3⟩ := ih (put_msg m x) hinv1 (by rw [h1]; simp only [List.length_cons]; omega)
    have hfold : putMany m (x :: xs) = putMany (put_msg m x) xs := rfl
    rw [hfold, g1, g2, g3, h1, h2, h3]
    refine ⟨by simp, ?_, rfl⟩
    simp only [List.length_cons]
    push_cast
    ring

/-- Gets that drain a pool of n nodes and ask for one more: the first n come from the pool
without any call, the last one is a Memory_alloc call. -/
theorem getMany_drain (pf : Platform) :
    ∀ (n : Nat) (m : VAYUIpcInt_ModuleObject), m.msg_cache.length = n →
      (getMany pf (n + 1) m).1 = m.msg_cache.map some ++
        [if pf.Memory_alloc m.trace = 0 then none
          else some { addr := pf.Memory_alloc m.trace, msg := pf.garbage m.trace }] ∧
      (getMany pf (n + 1) m).2.msg_cache = [] ∧
      (getMany pf (n + 1) m).2.num_msg = m.num_msg - n ∧
      (getMany pf (n + 1) m).2.trace =
        m.trace ++ [Call.Memory_alloc (pf.Memory_alloc m.trace)] := by
  intro n
  induction n with
  | zero =>
    intro m hlen
    have hc : m.msg_cache = [] := List.length_eq_zero.mp hlen
    have hstep : getMany pf (0 + 1) m = ((get_msg pf m).1 :: [], (get_msg pf m).2) := rfl
    rw [hstep, get_msg_empty pf m hc]
    simp [record, hc]
  | succ n ih =>
    intro m hlen
    cases hc : m.msg_cache with
    | nil =>
      rw [hc] at hlen
      simp at hlen
    | cons x rest =>
      have hstep : getMany pf (n + 1 + 1) m =
          ((get_msg pf m).1 :: (getMany pf (n + 1) (get_msg pf m).2).1,
           (getMany pf (n + 1) (get_msg pf m).2).2) := rfl
      rw [hstep, get_msg_cached pf m x rest hc]
      have hlen1 : rest.length = n := by
        rw [hc] at hlen
        simpa using hlen
      obtain ⟨g1, g2, g3, g4⟩ :=
        ih { m with msg_cache := rest, num_msg := m.num_msg - 1 } hlen1
      simp only [] at g1 g2 g3 g4 ⊢
      rw [g1, g2, g3, g4]
      refine ⟨by simp, rfl, ?_, rfl⟩
      push_cast
      ring

/-- C19: the message-node pool is bounded by 20. For every sequence of get_msg and put_msg
calls from a state in which num_msg counts the cached nodes and these are at most 20 (the
initial state is one), this still holds afterwards, so num_msg stays within 0..20; get_msg
calls Memory_alloc exactly when the pool is empty (otherwise it returns the node at the head
of the pool without any call); put_msg frees the node exactly when the pool already holds 20
(otherwise it caches it). Scenario C: from a full pool, 21 gets make exactly one Memory_alloc
call, at the 21st get, which returns the node the heap provides, and 21 puts that follow
make exactly one Memory_free call, for the last node, and leave 20 nodes cached. -/
theorem C19_pool_bounded (pf : Platform) :
    (∀ (ops : List PoolOp) (m : VAYUIpcInt_ModuleObject), poolInvariant m →
      (runPool pf ops m).num_msg = ((runPool pf ops m).msg_cache.length : Int) ∧
      0 ≤ (runPool pf ops m).num_msg ∧ (runPool pf ops m).num_msg ≤ 20) ∧
    (∀ m : VAYUIpcInt_ModuleObject,
      (m.msg_cache = [] →
        (get_msg pf m).2.trace = m.trace ++ [Call.Memory_alloc (pf.Memory_alloc m.trace)]) ∧
      (m.msg_cache ≠ [] →
        (get_msg pf m).2.trace = m.trace ∧ (get_msg pf m).1 = m.msg_cache.head?)) ∧
    (∀ (m : VAYUIpcInt_ModuleObject) (msg : VAYUIpcInt_MsgListElem), poolInvariant m →
      (m.msg_cache.length = 20 →
        (put_msg m msg).trace = m.trace ++ [Call.Memory_free msg.addr] ∧
        (put_msg m msg).msg_cache = m.msg_cache) ∧
      (m.msg_cache.length < 20 →
        (put_msg m msg).trace = m.trace ∧ (put_msg m msg).msg_cache = msg :: m.msg_cache)) ∧
    (∀ (m : VAYUIpcInt_ModuleObject) (msgs : List VAYUIpcInt_MsgListElem) (last : VAYUIpcInt_MsgListElem),
      poolInvariant m → m.msg_cache.length = 20 → pf.Memory_alloc m.trace ≠ 0 →
      msgs.length = 20 →
      (getMany pf 21 m).1 = m.msg_cache.map some ++
        [some { addr := pf.Memory_alloc m.trace, msg := pf.garbage m.trace }] ∧
      allocsOf (getMany pf 21 m).2.trace = allocsOf m.trace ++ [pf.Memory_alloc m.trace] ∧
      (getMany pf 21 m).2.msg_cache = [] ∧
      allocsOf (putMany (getMany pf 21 m).2 (msgs ++ [last])).trace =
        allocsOf m.trace ++ [pf.Memory_alloc m.trace] ∧
      freesOf (putMany (getMany pf 21 m).2 (msgs ++ [last])).trace =
        freesOf m.trace ++ [last.addr] ∧
      (putMany (getMany pf 21 m).2 (msgs ++ [last])).msg_cache.length = 20 ∧
      (putMany (getMany pf 21 m).2 (msgs ++ [last])).num_msg = 20) := by
  refine ⟨?_, ?_, ?_, ?_⟩
  · intro ops m h
    obtain ⟨h1, h2⟩ := runPool_invariant pf ops m h
    unfold CACHE_NUM at h2
    refine ⟨h1, ?_, ?_⟩
    · rw [h1]
      exact Int.natCast_nonneg _
    · rw [h1]
      exact_mod_cast h2
  · intro m
    constructor
    · intro hc
      rw [get_msg_empty pf m hc]
      rfl
    · intro hc
      cases hl : m.msg_cache with
      | nil => exact absurd hl hc
      | cons x rest =>
        rw [get_msg_cached pf m x rest hl]
        exact ⟨rfl, rfl⟩
  · intro m msg h
    constructor
    · intro hfull
      obtain ⟨h1, _, h3⟩ := put_msg_full m msg h hfull
      exact ⟨h3, h1⟩
    · intro hroom
      obtain ⟨h1, _, h3⟩ := put_msg_room m msg h hroom
      exact ⟨h3, h1⟩
  · intro m msgs last hinv hfull halloc hlen
    obtain ⟨g1, g2, g3, g4⟩ := getMany_drain pf 20 m hfull
    rw [if_neg halloc] at g1
    have hinv0 : poolInvariant (getMany pf 21 m).2 := by
      constructor
      · rw [g3, g2, hinv.1, hfull]
        rfl
      · rw [g2]
        exact Nat.zero_le _
    obtain ⟨p1, p2, p3⟩ := putMany_room msgs (getMany pf 21 m).2 hinv0
      (by rw [g2, hlen]; simp)
    have hsplit : putMany (getMany pf 21 m).2 (msgs ++ [last]) =
        put_msg (putMany (getMany pf 21 m).2 msgs) last := by
      simp [putMany, List.foldl_append]
    have hinv1 : poolInvariant (putMany (getMany pf 21 m).2 msgs) := by
      constructor
      · rw [p2, p1, g3, g2, hinv.1, hfull]
        simp [hlen]
      · rw [p1, g2]
        simp [hlen, CACHE_NUM]
    have hfull1 : (putMany (getMany pf 21 m).2 msgs).msg_cache.length = 20 := by
      rw [p1, g2]
      simp [hlen]
    obtain ⟨q1, q2, q3⟩ := put_msg_full (putMany (getMany pf 21 m).2 msgs) last hinv1 hfull1
    refine ⟨g1, ?_, g2, ?_, ?_, ?_, ?_⟩
    · rw [g4, allocsOf_append]
      rfl
    · rw [hsplit, q3, p3, g4, allocsOf_append, allocsOf_append]
      simp [allocsOf]
    · rw [hsplit, q3, p3, g4, freesOf_append, freesOf_append]
      simp [freesOf]
    · rw [hsplit, q1, hfull1]
    · rw [hsplit, q2, p2, g3, hinv.1, hfull, hlen]
      norm_num

theorem C19_pool_bounded_witness :
    poolInvariant exampleFullPool ∧ exampleFullPool.msg_cache.length = 20 ∧
    allocsOf (getMany examplePlatform 21 exampleFullPool).2.trace = [0x1000] ∧
    freesOf (putMany (getMany examplePlatform 21 exampleFullPool).2
      (exampleFullPool.msg_cache ++ [{ addr := 0x1000, msg := 0 }])).trace = [0x1000] ∧
    (putMany (getMany examplePlatform 21 exampleFullPool).2
      (exampleFullPool.msg_cache ++ [{ addr := 0x1000, msg := 0 }])).msg_cache.length = 20 := by
  have h := (C19_pool_bounded examplePlatform).2.2.2 exampleFullPool exampleFullPool.msg_cache
    { addr := 0x1000, msg := 0 } (by decide) (by decide) (by decide) (by decide)
  exact ⟨by decide, by decide, h.2.1, h.2.2.2.2.1, h.2.2.2.2.2.1⟩

/-! ## The deferred dispatch phase -/

theorem put_msg_poolView (a b : VAYUIpcInt_ModuleObject) (msg : VAYUIpcInt_MsgListElem)
    (h : poolView a = poolView b) : poolView (put_msg a msg) = poolView (put_msg b msg) := by
  simp only [poolView, Prod.mk.injEq] at h
  obtain ⟨h1, h2, h3⟩ := h
  unfold put_msg
  rw [h2]
  split_ifs
  · simp [poolView, record, freesOf_append, h1, h2, h3]
  · simp [poolView, h1, h2, h3]

theorem put_msg_frame (m : VAYUIpcInt_ModuleObject) (msg : VAYUIpcInt_MsgListElem) :
    (put_msg m msg).isrLists = m.isrLists ∧ (put_msg m msg).isrObjects = m.isrObjects ∧
    (put_msg m msg).isrHandles = m.isrHandles ∧
    (put_msg m msg).maxProcessors = m.maxProcessors ∧
    callbacksOf (put_msg m msg).trace = callbacksOf m.trace := by
  unfold put_msg
  split_ifs
  · simp [record, callbacksOf_append, callbacksOf]
  · simp

/-- What the loop body does for one slot. -/
theorem isrSlot_spec (m : VAYUIpcInt_ModuleObject) (i : Nat) :
    (∀ j, (isrSlot m i).isrLists j = if j = i then (m.isrLists i).tail else m.isrLists j) ∧
    (isrSlot m i).isrObjects = m.isrObjects ∧ (isrSlot m i).isrHandles = m.isrHandles ∧
    callbacksOf (isrSlot m i).trace = callbacksOf m.trace ++ (slotCallback m i).toList ∧
    poolView (isrSlot m i) = poolView (putMany m (m.isrLists i).head?.toList) := by
  unfold isrSlot slotCallback
  cases hl : m.isrLists i with
  | nil =>
    simp only [List.tail_nil, Option.toList, List.head?_nil, List.append_nil, putMany,
      List.foldl_nil, true_and, and_true]
    intro j
    split_ifs with hj
    · rw [hj, hl]
    · rfl
  | cons e rest =>
    simp only [List.tail_cons, List.head?_cons, Option.toList, putMany, List.foldl_cons,
      List.foldl_nil]
    obtain ⟨f1, f2, f3, _, f5⟩ := put_msg_frame
      (if ({ m with isrLists := Function.update m.isrLists i rest }.isrObjects i).fxn ≠ 0 then
        record { m with isrLists := Function.update m.isrLists i rest }
          (Call.callback ({ m with isrLists := Function.update m.isrLists i rest }.isrObjects i).fxn
            e.msg ({ m with isrLists := Function.update m.isrLists i rest }.isrObjects i).fxnArgs)
        else { m with isrLists := Function.update m.isrLists i rest }) e
    refine ⟨?_, ?_, ?_, ?_, ?_⟩
    · intro j
      rw [f1]
      split_ifs <;> simp_all [record, Function.update]
    · rw [f2]
      split_ifs <;> rfl
    · rw [f3]
      split_ifs <;> rfl
    · rw [f5]
      split_ifs <;> simp [record, callbacksOf_append, callbacksOf]
    · apply put_msg_poolView
      split_ifs <;> simp [poolView, record, freesOf_append, freesOf]

/-- The state after the loop has visited the slots 0 .. n - 1. -/
theorem isr_pass (m : VAYUIpcInt_ModuleObject) :
    ∀ n : Nat,
      (∀ j, ((List.range n).foldl isrSlot m).isrLists j =
        if j < n then (m.isrLists j).tail else m.isrLists j) ∧
      ((List.range n).foldl isrSlot m).isrObjects = m.isrObjects ∧
      ((List.range n).foldl isrSlot m).isrHandles = m.isrHandles ∧
      callbacksOf ((List.range n).foldl isrSlot m).trace =
        callbacksOf m.trace ++ (List.range n).filterMap (slotCallback m) ∧
      poolView ((List.range n).foldl isrSlot m) =
        poolView (putMany m ((List.range n).filterMap (fun i => (m.isrLists i).head?))) := by
  intro n
  induction n with
  | zero =>
    simp [putMany]
  | succ n ih =>
    obtain ⟨h1, h2, h3, h4, h5⟩ := ih
    obtain ⟨s1, s2, s3, s4, s5⟩ := isrSlot_spec ((List.range n).foldl isrSlot m) n
    have hn : ((List.range n).foldl isrSlot m).isrLists n = m.isrLists n := by
      rw [h1 n, if_neg (Nat.lt_irrefl n)]
    have hcb : slotCallback ((List.range n).foldl isrSlot m) n = slotCallback m n := by
      unfold slotCallback
      rw [hn, h2]
    rw [List.range_succ, List.foldl_append, List.foldl_cons, List.foldl_nil]
    refine ⟨?_, ?_, ?_, ?_, ?_⟩
    · intro j
      rw [s1 j, hn, h1 j]
      by_cases hj : j = n
      · rw [if_pos hj, hj, if_pos (Nat.lt_succ_self n)]
      · rw [if_neg hj]
        by_cases hlt : j < n
        · rw [if_pos hlt, if_pos (by omega)]
        · rw [if_neg hlt, if_neg (by omega)]
    · rw [s2, h2]
    · rw [s3, h3]
    · rw [s4, h4, hcb, List.filterMap_append, List.append_assoc]
      congr 1
    · rw [s5, hn, List.filterMap_append]
      have hput : ∀ (a b : VAYUIpcInt_ModuleObject) (l : List VAYUIpcInt_MsgListElem),
          poolView a = poolView b → poolView (putMany a l) = poolView (putMany b l) := by
        intro a b l
        induction l generalizing a b with
        | nil => intro h; exact h
        | cons x xs ihx =>
          intro h
          exact ihx _ _ (put_msg_poolView a b x h)
      rw [hput _ _ _ h5]
      simp only [putMany, List.foldl_append]
      cases hh : (m.isrLists n).head? <;> simp [Option.toList, List.filterMap_cons, hh]

/-- C18 (counterexample): slot 1 has one pending message and no registered callback (fxn is
NULL, as after its last unregistration). One pass of _VAYUIpcInt_isr removes the message and
returns the node to the pool through put_msg, and invokes no callback. -/
theorem C18_isr_unregistered_slot_counterexample :
    examplePendingUnregistered.isrLists 1 = [{ addr := 0x3000, msg := 0x2A }] ∧
    (examplePendingUnregistered.isrObjects 1).fxn = 0 ∧
    1 < examplePendingUnregistered.maxProcessors ∧
    (_VAYUIpcInt_isr examplePendingUnregistered).2.isrLists 1 = [] ∧
    callbacksOf (_VAYUIpcInt_isr examplePendingUnregistered).2.trace = [] ∧
    (_VAYUIpcInt_isr examplePendingUnregistered).2.msg_cache =
      [{ addr := 0x3000, msg := 0x2A }] := by
  refine ⟨by decide, by decide, by decide, by decide, by decide, by decide⟩

/-- C18 (amended): for every state, one pass of _VAYUIpcInt_isr returns TRUE and treats the
slots 0 .. maxProcessors - 1 in ascending order: from each slot with a pending message it
removes one message, the oldest (the head of the list), invokes the callback of the slot once
with (message, fxnArgs) when the slot has a registered callback (fxn is not NULL) and invokes
nothing when it has none, and in both cases returns the node through put_msg; a slot whose list
is empty gets no callback and keeps its list, and the slots from maxProcessors on are not
visited; so each list shrinks by at most one. The registrations are untouched. -/
theorem C18_isr_dispatches_one_per_slot (m : VAYUIpcInt_ModuleObject) :
    (_VAYUIpcInt_isr m).1 = true ∧
    (∀ i, i < m.maxProcessors →
      (_VAYUIpcInt_isr m).2.isrLists i = (m.isrLists i).tail ∧
      (m.isrLists i).length ≤ ((_VAYUIpcInt_isr m).2.isrLists i).length + 1) ∧
    (∀ i, m.maxProcessors ≤ i → (_VAYUIpcInt_isr m).2.isrLists i = m.isrLists i) ∧
    callbacksOf (_VAYUIpcInt_isr m).2.trace =
      callbacksOf m.trace ++ (List.range m.maxProcessors).filterMap (slotCallback m) ∧
    (∀ i, m.isrLists i = [] → slotCallback m i = none) ∧
    (∀ i elem rest, m.isrLists i = elem :: rest → (m.isrObjects i).fxn ≠ 0 →
      slotCallback m i = some ((m.isrObjects i).fxn, elem.msg, (m.isrObjects i).fxnArgs)) ∧
    (∀ i elem rest, m.isrLists i = elem :: rest → (m.isrObjects i).fxn = 0 →
      slotCallback m i = none) ∧
    poolView (_VAYUIpcInt_isr m).2 =
      poolView (putMany m
        ((List.range m.maxProcessors).filterMap (fun i => (m.isrLists i).head?))) ∧
    (_VAYUIpcInt_isr m).2.isrObjects = m.isrObjects ∧
    (_VAYUIpcInt_isr m).2.isrHandles = m.isrHandles := by
  obtain ⟨h1, h2, h3, h4, h5⟩ := isr_pass m m.maxProcessors
  refine ⟨rfl, ?_, ?_, h4, ?_, ?_, ?_, h5, h2, h3⟩
  · intro i hi
    have ht : (_VAYUIpcInt_isr m).2.isrLists i = (m.isrLists i).tail := by
      show ((List.range m.maxProcessors).foldl isrSlot m).isrLists i = _
      rw [h1 i, if_pos hi]
    refine ⟨ht, ?_⟩
    rw [ht, List.length_tail]
    omega
  · intro i hi
    show ((List.range m.maxProcessors).foldl isrSlot m).isrLists i = _
    rw [h1 i, if_neg (by omega)]
  · intro i hl
    unfold slotCallback
    rw [hl]
  · intro i elem rest hl hf
    unfold slotCallback
    rw [hl]
    simp only []
    rw [if_pos hf]
  · intro i elem rest hl hf
    unfold slotCallback
    rw [hl]
    simp only []
    rw [if_neg (not_not.2 hf)]

/-! ## The fast clear phase -/

theorem msgstatus_offset (sub : Nat) : MAILBOX_MSGSTATUS_m_OFFSET sub = 0xC0 + 4 * sub := by
  unfold MAILBOX_MSGSTATUS_m_OFFSET
  rw [Nat.shiftLeft_eq]
  omega

theorem message_offset (sub : Nat) : MAILBOX_MESSAGE_m_OFFSET sub = 0x40 + 4 * sub := by
  unfold MAILBOX_MESSAGE_m_OFFSET
  rw [Nat.shiftLeft_eq]
  omega

theorem ack_value (sub : Nat) (h : sub < MAILBOX_MAXNUM) :
    (0x1 <<< (sub <<< 1)) % 4294967296 = 2 ^ (2 * sub) := by
  unfold MAILBOX_MAXNUM at h
  rw [Nat.shiftLeft_eq, Nat.shiftLeft_eq, one_mul, Nat.mul_comm sub]
  apply Nat.mod_eq_of_lt
  calc 2 ^ (2 ^ 1 * sub) < 2 ^ 32 := Nat.pow_lt_pow_right (by norm_num) (by omega)
    _ = 4294967296 := by norm_num

theorem get_msg_frame (pf : Platform) (m : VAYUIpcInt_ModuleObject) :
    (get_msg pf m).2.procIds = m.procIds ∧ (get_msg pf m).2.maxProcessors = m.maxProcessors ∧
    (get_msg pf m).2.isrLists = m.isrLists ∧ (get_msg pf m).2.isrObjects = m.isrObjects ∧
    (get_msg pf m).2.isrHandles = m.isrHandles := by
  cases hc : m.msg_cache with
  | nil =>
    rw [get_msg_empty pf m hc]
    exact ⟨rfl, rfl, rfl, rfl, rfl⟩
  | cons x rest =>
    rw [get_msg_cached pf m x rest hc]
    exact ⟨rfl, rfl, rfl, rfl, rfl⟩

theorem appendPending_frame (pf : Platform) (m : VAYUIpcInt_ModuleObject) (procId word : Nat) :
    (appendPending pf m procId word).procIds = m.procIds ∧
    (appendPending pf m procId word).maxProcessors = m.maxProcessors ∧
    (appendPending pf m procId word).isrObjects = m.isrObjects ∧
    (appendPending pf m procId word).isrHandles = m.isrHandles := by
  obtain ⟨f1, f2, _, f4, f5⟩ := get_msg_frame pf m
  unfold appendPending
  cases hg : get_msg pf m with
  | mk o m1 =>
    rw [hg] at f1 f2 f4 f5
    cases o with
    | none => exact ⟨f1, f2, f4, f5⟩
    | some node => exact ⟨f1, f2, f4, f5⟩

theorem queueMsg_eq (pf : Platform) (m : VAYUIpcInt_ModuleObject) (procId word : Nat)
    (hlt : procId < m.maxProcessors) :
    queueMsg pf m procId word = .ok (appendPending pf m procId word) := by
  obtain ⟨_, f2, _⟩ := get_msg_frame pf m
  unfold queueMsg appendPending
  cases hg : get_msg pf m with
  | mk o m1 =>
    rw [hg] at f2
    cases o with
    | none => rfl
    | some node =>
      simp only [listPut]
      rw [if_pos (by rw [f2]; exact hlt)]

/-- The reference step leaves the configuration and the registrations as they are. -/
theorem fastClearStep_frame (pf : Platform) (m : VAYUIpcInt_ModuleObject) (s : Source) :
    (fastClearStep pf m s).procIds = m.procIds ∧
    (fastClearStep pf m s).maxProcessors = m.maxProcessors ∧
    (fastClearStep pf m s).isrObjects = m.isrObjects ∧
    (fastClearStep pf m s).isrHandles = m.isrHandles := by
  unfold fastClearStep
  simp only []
  split_ifs
  · exact ⟨rfl, rfl, rfl, rfl⟩
  · rw [(appendPending_frame pf _ _ _).1, (appendPending_frame pf _ _ _).2.1,
      (appendPending_frame pf _ _ _).2.2.1, (appendPending_frame pf _ _ _).2.2.2]
    exact ⟨rfl, rfl, rfl, rfl⟩

/-- A block of the source function is the reference step for its source, when the processor
of the block has a pending list and its id selects the mailbox of the block. -/
theorem block_eq_step (pf : Platform) (m : VAYUIpcInt_ModuleObject) (s : Source)
    (hlt : m.procIds s.index < m.maxProcessors)
    (hbase : (if m.procIds s.index = m.procIds VAYU_INDEX_IPU2 ∨
        m.procIds s.index = m.procIds VAYU_INDEX_DSP2 then Region.mailbox6
      else Region.mailbox5) = s.base)
    (hsub : s.subMbox < MAILBOX_MAXNUM) :
    checkAndClearBlock pf m s.base s.subMbox s.index = .ok (fastClearStep pf m s) := by
  have e3 := ack_value s.subMbox hsub
  have e4 : MAILBOX_IRQSTATUS_CLEAR_OFFSET + 0x10 * VAYU_HOST_USER_ID = 0x104 + 0x10 * 2 := rfl
  have e5 : (2 : Nat) ^ 32 = 4294967296 := by norm_num
  unfold checkAndClearBlock fastClearStep
  simp only [REG32_read, VAYUIpcInt_clearInterrupt, REG32_write, msgstatus_offset,
    message_offset, e3, e4, e5, record, hbase, if_pos hsub]
  by_cases hst : pf.readReg m.trace s.base (0xC0 + 4 * s.subMbox) % 4294967296 = 0
  · simp only [hst, ne_eq, not_true_eq_false, if_false, if_true]
  · simp only [hst, ne_eq, not_false_eq_true, if_true, if_false]
    rw [queueMsg_eq]
    exact hlt

/-- With the four processors known, the source function is the reference. -/
theorem checkAndClear_eq_reference (pf : Platform) (m : VAYUIpcInt_ModuleObject)
    (h : knownProcIds m) :
    _VAYUIpcInt_checkAndClearFunc pf m = .ok (fastClearReference pf m) := by
  obtain ⟨k1, k2, k3, k4, d1, d2, d3, d4⟩ := h
  have b1 : checkAndClearBlock pf m Region.mailbox6 IPU2_HOST_SUB_MBOX VAYU_INDEX_IPU2 =
      .ok (fastClearStep pf m sourceIPU2) :=
    block_eq_step pf m sourceIPU2 k1 (by simp [sourceIPU2]) (by decide)
  obtain ⟨p1, q1, _, _⟩ := fastClearStep_frame pf m sourceIPU2
  have b2 : checkAndClearBlock pf (fastClearStep pf m sourceIPU2) Region.mailbox5
      IPU1_HOST_SUB_MBOX VAYU_INDEX_IPU1 =
      .ok (fastClearStep pf (fastClearStep pf m sourceIPU2) sourceIPU1) :=
    block_eq_step pf _ sourceIPU1 (by rw [p1, q1]; exact k2)
      (by rw [p1]; simp [sourceIPU1, d1, d2]) (by decide)
  obtain ⟨p2, q2, _, _⟩ := fastClearStep_frame pf (fastClearStep pf m sourceIPU2) sourceIPU1
  have b3 : checkAndClearBlock pf (fastClearStep pf (fastClearStep pf m sourceIPU2) sourceIPU1)
      Region.mailbox6 DSP2_HOST_SUB_MBOX VAYU_INDEX_DSP2 =
      .ok (fastClearStep pf (fastClearStep pf (fastClearStep pf m sourceIPU2) sourceIPU1)
        sourceDSP2) :=
    block_eq_step pf _ sourceDSP2 (by rw [p2, q2, p1, q1]; exact k3)
      (by rw [p2, p1]; simp [sourceDSP2]) (by decide)
  obtain ⟨p3, q3, _, _⟩ := fastClearStep_frame pf
    (fastClearStep pf (fastClearStep pf m sourceIPU2) sourceIPU1) sourceDSP2
  have b4 : checkAndClearBlock pf
      (fastClearStep pf (fastClearStep pf (fastClearStep pf m sourceIPU2) sourceIPU1) sourceDSP2)
      Region.mailbox5 DSP1_HOST_SUB_MBOX VAYU_INDEX_DSP1 =
      .ok (fastClearStep pf
        (fastClearStep pf (fastClearStep pf (fastClearStep pf m sourceIPU2) sourceIPU1) sourceDSP2)
        sourceDSP1) :=
    block_eq_step pf _ sourceDSP1 (by rw [p3, q3, p2, q2, p1, q1]; exact k4)
      (by rw [p3, p2, p1]; simp [sourceDSP1, d3, d4]) (by decide)
  unfold _VAYUIpcInt_checkAndClearFunc
  rw [b1]
  simp only []
  rw [b2]
  simp only []
  rw [b3]
  simp only []
  rw [b4]
  rfl

/-- The reference step for a source whose message-status register reads zero: one read of
that register, and nothing else. -/
theorem fastClearStep_idle (pf : Platform) (m : VAYUIpcInt_ModuleObject) (s : Source)
    (h : pf.readReg m.trace s.base (0xC0 + 4 * s.subMbox) % 2 ^ 32 = 0) :
    fastClearStep pf m s = record m (Call.regRead s.base (0xC0 + 4 * s.subMbox) 0) := by
  unfold fastClearStep
  simp only [h, if_true]

/-- The reference step for a source whose message-status register does not read zero. -/
theorem fastClearStep_pending (pf : Platform) (m : VAYUIpcInt_ModuleObject) (s : Source)
    (h : pf.readReg m.trace s.base (0xC0 + 4 * s.subMbox) % 2 ^ 32 ≠ 0) :
    fastClearStep pf m s =
      appendPending pf
        (record (record (record m
          (Call.regRead s.base (0xC0 + 4 * s.subMbox)
            (pf.readReg m.trace s.base (0xC0 + 4 * s.subMbox) % 2 ^ 32)))
          (Call.regRead s.base (0x40 + 4 * s.subMbox)
            (pf.readReg (m.trace ++ [Call.regRead s.base (0xC0 + 4 * s.subMbox)
              (pf.readReg m.trace s.base (0xC0 + 4 * s.subMbox) % 2 ^ 32)]) s.base
              (0x40 + 4 * s.subMbox) % 2 ^ 32)))
          (Call.regWrite s.base (0x104 + 0x10 * 2) (2 ^ (2 * s.subMbox))))
        (m.procIds s.index)
        (pf.readReg (m.trace ++ [Call.regRead s.base (0xC0 + 4 * s.subMbox)
          (pf.readReg m.trace s.base (0xC0 + 4 * s.subMbox) % 2 ^ 32)]) s.base
          (0x40 + 4 * s.subMbox) % 2 ^ 32) := by
  unfold fastClearStep
  simp only [if_neg h]
  rfl

/-- Queueing a word: with a node the word goes to the tail of the list of the processor and
no other list changes; without a node no list changes. -/
theorem appendPending_lists (pf : Platform) (m : VAYUIpcInt_ModuleObject) (procId word : Nat) :
    (∀ node, (get_msg pf m).1 = some node →
      (appendPending pf m procId word).isrLists procId =
        m.isrLists procId ++ [{ node with msg := word }] ∧
      ∀ j, j ≠ procId → (appendPending pf m procId word).isrLists j = m.isrLists j) ∧
    ((get_msg pf m).1 = none → (appendPending pf m procId word).isrLists = m.isrLists) := by
  obtain ⟨_, _, f3, _⟩ := get_msg_frame pf m
  unfold appendPending
  cases hg : get_msg pf m with
  | mk o m1 =>
    rw [hg] at f3
    simp only [] at f3
    cases o with
    | none =>
      refine ⟨?_, ?_⟩
      · intro node hn
        cases hn
      · intro _
        exact f3
    | some n =>
      refine ⟨?_, ?_⟩
      · intro node hn
        simp only [Option.some.injEq] at hn
        subst hn
        simp only [f3]
        refine ⟨by simp, ?_⟩
        intro j hj
        simp [Function.update, hj]
      · intro hn
        cases hn

/-- C17: with the four processors known (ids that have a pending list, the ids on mailbox 5
distinct from those on mailbox 6), one run of _VAYUIpcInt_checkAndClearFunc is the reference:
it returns TRUE after the steps for IPU2, IPU1, DSP2, DSP1 in this order. For a source whose
message-status register reads zero the step is that one read: neither the FIFO nor a list is
touched. For a source whose status is not zero the step reads the status, pops one word from
the message register of the source, writes bit 2 * subChannel to the IRQSTATUS_CLR register of
the host user (offset 0x124), and queues the word: with a node it goes to the tail of the
pending list of the processor, without a node it is dropped and the lists are unchanged. -/
theorem C17_fast_clear_refines_reference (pf : Platform) (m : VAYUIpcInt_ModuleObject)
    (h : knownProcIds m) :
    _VAYUIpcInt_checkAndClearFunc pf m =
      .ok (true, [sourceIPU2, sourceIPU1, sourceDSP2, sourceDSP1].foldl (fastClearStep pf) m) ∧
    (∀ (m0 : VAYUIpcInt_ModuleObject) (s : Source),
      pf.readReg m0.trace s.base (0xC0 + 4 * s.subMbox) % 2 ^ 32 = 0 →
      fastClearStep pf m0 s = record m0 (Call.regRead s.base (0xC0 + 4 * s.subMbox) 0)) ∧
    (∀ (m0 : VAYUIpcInt_ModuleObject) (s : Source),
      pf.readReg m0.trace s.base (0xC0 + 4 * s.subMbox) % 2 ^ 32 ≠ 0 →
      ∃ m3 word, fastClearStep pf m0 s = appendPending pf m3 (m0.procIds s.index) word ∧
        m3.trace = m0.trace ++
          [Call.regRead s.base (0xC0 + 4 * s.subMbox)
            (pf.readReg m0.trace s.base (0xC0 + 4 * s.subMbox) % 2 ^ 32),
           Call.regRead s.base (0x40 + 4 * s.subMbox) word,
           Call.regWrite s.base 0x124 (2 ^ (2 * s.subMbox))] ∧
        m3.isrLists = m0.isrLists ∧ m3.msg_cache = m0.msg_cache) ∧
    (∀ (m3 : VAYUIpcInt_ModuleObject) (procId word : Nat),
      (∀ node, (get_msg pf m3).1 = some node →
        (appendPending pf m3 procId word).isrLists procId =
          m3.isrLists procId ++ [{ node with msg := word }] ∧
        ∀ j, j ≠ procId → (appendPending pf m3 procId word).isrLists j = m3.isrLists j) ∧
      ((get_msg pf m3).1 = none → (appendPending pf m3 procId word).isrLists = m3.isrLists)) := by
  refine ⟨checkAndClear_eq_reference pf m h, fastClearStep_idle pf, ?_, appendPending_lists pf⟩
  intro m0 s hs
  refine ⟨_, _, fastClearStep_pending pf m0 s hs, ?_, rfl, rfl⟩
  simp [record]

theorem C17_fast_clear_refines_reference_witness :
    knownProcIds exampleModule ∧
    ∃ m1, _VAYUIpcInt_checkAndClearFunc examplePlatform exampleModule = .ok (true, m1) ∧
      m1 = [sourceIPU2, sourceIPU1, sourceDSP2, sourceDSP1].foldl
        (fastClearStep examplePlatform) exampleModule ∧
      m1.isrLists 1 = [{ addr := 0x1030, msg := 0x2A }] ∧
      m1.trace = [Call.regRead Region.mailbox6 0xD0 1, Call.regRead Region.mailbox6 0x50 0x2A,
        Call.regWrite Region.mailbox6 0x124 256, Call.Memory_alloc 0x1030,
        Call.regRead Region.mailbox5 0xD0 0, Call.regRead Region.mailbox6 0xC4 0,
        Call.regRead Region.mailbox5 0xC4 0] :=
  ⟨by decide, _, (C17_fast_clear_refines_reference examplePlatform exampleModule (by decide)).1,
    rfl, by decide, by decide⟩

/-- Queueing a word takes the node from the pool when the pool has one, and calls
Memory_alloc only when the pool is empty; it frees nothing. -/
theorem appendPending_alloc (pf : Platform) (m : VAYUIpcInt_ModuleObject) (procId word : Nat) :
    ∃ extra, allocsOf (appendPending pf m procId word).trace = allocsOf m.trace ++ extra ∧
      (appendPending pf m procId word).msg_cache.length ≤ m.msg_cache.length ∧
      extra.length +
        (m.msg_cache.length - (appendPending pf m procId word).msg_cache.length) ≤ 1 ∧
      (extra ≠ [] → m.msg_cache = []) ∧
      freesOf (appendPending pf m procId word).trace = freesOf m.trace := by
  unfold appendPending
  cases hc : m.msg_cache with
  | nil =>
    rw [get_msg_empty pf m hc]
    refine ⟨[pf.Memory_alloc m.trace], ?_⟩
    split_ifs
    · simp [record, allocsOf_append, allocsOf, freesOf_append, freesOf, hc]
    · simp [record, allocsOf_append, allocsOf, freesOf_append, freesOf, hc]
  | cons x rest =>
    rw [get_msg_cached pf m x rest hc]
    exact ⟨[], by simp⟩

theorem fastClearStep_alloc (pf : Platform) (m : VAYUIpcInt_ModuleObject) (s : Source) :
    ∃ extra, allocsOf (fastClearStep pf m s).trace = allocsOf m.trace ++ extra ∧
      (fastClearStep pf m s).msg_cache.length ≤ m.msg_cache.length ∧
      extra.length + (m.msg_cache.length - (fastClearStep pf m s).msg_cache.length) ≤ 1 ∧
      (extra ≠ [] → m.msg_cache = []) ∧
      freesOf (fastClearStep pf m s).trace = freesOf m.trace := by
  by_cases hs : pf.readReg m.trace s.base (0xC0 + 4 * s.subMbox) % 2 ^ 32 = 0
  · rw [fastClearStep_idle pf m s hs]
    exact ⟨[], by simp [record, allocsOf_append, allocsOf, freesOf_append, freesOf]⟩
  · rw [fastClearStep_pending pf m s hs]
    obtain ⟨extra, h1, h2, h3, h4, h5⟩ := appendPending_alloc pf
      (record (record (record m
          (Call.regRead s.base (0xC0 + 4 * s.subMbox)
            (pf.readReg m.trace s.base (0xC0 + 4 * s.subMbox) % 2 ^ 32)))
          (Call.regRead s.base (0x40 + 4 * s.subMbox)
            (pf.readReg (m.trace ++ [Call.regRead s.base (0xC0 + 4 * s.subMbox)
              (pf.readReg m.trace s.base (0xC0 + 4 * s.subMbox) % 2 ^ 32)]) s.base
              (0x40 + 4 * s.subMbox) % 2 ^ 32)))
          (Call.regWrite s.base (0x104 + 0x10 * 2) (2 ^ (2 * s.subMbox))))
        (m.procIds s.index)
        (pf.readReg (m.trace ++ [Call.regRead s.base (0xC0 + 4 * s.subMbox)
          (pf.readReg m.trace s.base (0xC0 + 4 * s.subMbox) % 2 ^ 32)]) s.base
          (0x40 + 4 * s.subMbox) % 2 ^ 32)
    refine ⟨extra, ?_, h2, h3, h4, ?_⟩
    · rw [h1]
      simp [record, allocsOf_append, allocsOf]
    · rw [h5]
      simp [record, freesOf_append, freesOf]

/-- The allocations of the reference steps for a list of sources. -/
theorem fastClear_alloc (pf : Platform) :
    ∀ (srcs : List Source) (m : VAYUIpcInt_ModuleObject),
      ∃ extra, allocsOf (srcs.foldl (fastClearStep pf) m).trace = allocsOf m.trace ++ extra ∧
        (srcs.foldl (fastClearStep pf) m).msg_cache.length ≤ m.msg_cache.length ∧
        extra.length + (m.msg_cache.length - (srcs.foldl (fastClearStep pf) m).msg_cache.length)
          ≤ srcs.length ∧
        (extra ≠ [] → (srcs.foldl (fastClearStep pf) m).msg_cache = []) ∧
        freesOf (srcs.foldl (fastClearStep pf) m).trace = freesOf m.trace := by
  intro srcs
  induction srcs with
  | nil =>
    intro m
    exact ⟨[], by simp⟩
  | cons s rest ih =>
    intro m
    obtain ⟨e1, a1, a2, a3, a4, a5⟩ := fastClearStep_alloc pf m s
    obtain ⟨e2, b1, b2, b3, b4, b5⟩ := ih (fastClearStep pf m s)
    rw [List.foldl_cons]
    refine ⟨e1 ++ e2, ?_, by omega, ?_, ?_, ?_⟩
    · rw [b1, a1, List.append_assoc]
    · simp only [List.length_append, List.length_cons]
      omega
    · intro hne
      by_cases h2 : e2 = []
      · have h1 : e1 ≠ [] := by
          intro h1
          rw [h1, h2] at hne
          exact hne rfl
        have hm := a4 h1
        rw [hm] at a2
        have hz : (rest.foldl (fastClearStep pf) (fastClearStep pf m s)).msg_cache.length = 0 := by
          simp only [List.length_nil] at a2
          omega
        exact List.length_eq_zero.mp hz
      · exact b4 h2
    · rw [b5, a5]

/-- C20 (counterexample): in the state after setup the node pool is empty; with one word
pending from IPU2 the fast-clear phase calls Memory_alloc for the node it queues. -/
theorem C20_fast_clear_allocates_counterexample :
    exampleModule.msg_cache = [] ∧ poolInvariant exampleModule ∧
    ∃ m1, _VAYUIpcInt_checkAndClearFunc examplePlatform exampleModule = .ok (true, m1) ∧
      allocsOf m1.trace = [0x1030] ∧ m1.isrLists 1 = [{ addr := 0x1030, msg := 0x2A }] :=
  ⟨rfl, by decide, _, rfl, by decide, by decide⟩

/-- C20 (amended): the fast-clear phase draws its nodes from the recycle pool as long as the
pool has nodes and calls Memory_alloc only for a source that is pending when the pool is
empty. With the four processors known, one run of _VAYUIpcInt_checkAndClearFunc returns, frees
nothing, makes no Memory_alloc call when the pool holds at least 4 nodes, makes at most
4 - (cached nodes) such calls otherwise, and leaves the pool empty whenever it has made one. -/
theorem C20_fast_clear_allocates_only_on_empty_pool (pf : Platform)
    (m : VAYUIpcInt_ModuleObject) (h : knownProcIds m) :
    ∃ m1 extra, _VAYUIpcInt_checkAndClearFunc pf m = .ok (true, m1) ∧
      allocsOf m1.trace = allocsOf m.trace ++ extra ∧
      (4 ≤ m.msg_cache.length → extra = []) ∧
      extra.length ≤ 4 - m.msg_cache.length ∧
      (extra ≠ [] → m1.msg_cache = []) ∧
      freesOf m1.trace = freesOf m.trace := by
  obtain ⟨extra, h1, h2, h3, h4, h5⟩ :=
    fastClear_alloc pf [sourceIPU2, sourceIPU1, sourceDSP2, sourceDSP1] m
  refine ⟨_, extra, checkAndClear_eq_reference pf m h, h1, ?_, ?_, h4, h5⟩
  · intro hc
    by_contra hne
    have hz := h4 hne
    rw [hz] at h3
    have hpos : 0 < extra.length := List.length_pos.mpr hne
    simp only [List.length_nil, List.length_cons] at h3
    omega
  · by_cases hne : extra = []
    · rw [hne]
      simp
    · have hz := h4 hne
      rw [hz] at h3
      simp only [List.length_nil, List.length_cons] at h3
      omega

theorem C20_fast_clear_allocates_only_on_empty_pool_witness :
    knownProcIds exampleFullPool ∧
    ∃ m1, _VAYUIpcInt_checkAndClearFunc examplePlatform exampleFullPool = .ok (true, m1) ∧
      allocsOf m1.trace = [] := by
  obtain ⟨m1, extra, h1, h2, h3, _⟩ :=
    C20_fast_clear_allocates_only_on_empty_pool examplePlatform exampleFullPool (by decide)
  refine ⟨by decide, m1, h1, ?_⟩
  rw [h2, h3 (by decide)]
  rfl

/-! ## Registration and reference counts -/

/-! ### The stamped reference counts -/

theorem and_or_self (a b : Nat) : (a ||| b) &&& a = a := by
  apply Nat.eq_of_testBit_eq
  intro i
  simp only [Nat.testBit_and, Nat.testBit_or]
  cases a.testBit i <;> simp

theorem magic_zero (k : Codes) :
    VAYUIPCINT_MAKE_MAGICSTAMP k 0 = k.VAYUIPCINT_MODULEID * 4096 := by
  simp [VAYUIPCINT_MAKE_MAGICSTAMP, Nat.shiftLeft_eq]

theorem magic_eq (k : Codes) (x : Nat) (hx : x < 4096) :
    VAYUIPCINT_MAKE_MAGICSTAMP k x = k.VAYUIPCINT_MODULEID * 4096 + x := by
  unfold VAYUIPCINT_MAKE_MAGICSTAMP
  rw [Nat.shiftLeft_eq, Nat.mul_comm]
  exact (Nat.mul_add_lt_is_or (i := 12) hx k.VAYUIPCINT_MODULEID).symm

theorem magic_stamped (k : Codes) (x : Nat) :
    VAYUIPCINT_MAKE_MAGICSTAMP k x &&& VAYUIPCINT_MAKE_MAGICSTAMP k 0 =
      VAYUIPCINT_MAKE_MAGICSTAMP k 0 := by
  have h0 : VAYUIPCINT_MAKE_MAGICSTAMP k 0 = k.VAYUIPCINT_MODULEID <<< 12 := by
    simp [VAYUIPCINT_MAKE_MAGICSTAMP]
  rw [h0]
  exact and_or_self _ _

theorem cmpmask_set_unregistered (v mask : Nat) (h : v &&& mask ≠ mask ∨ v = mask) :
    Atomic_cmpmask_and_set v mask mask = mask := by
  unfold Atomic_cmpmask_and_set
  rcases h with h | h
  · rw [if_pos h]
  · subst h; simp

theorem cmpmask_set_stamped (v mask val : Nat) (h : v &&& mask = mask) :
    Atomic_cmpmask_and_set v mask val = v := by
  unfold Atomic_cmpmask_and_set
  rw [if_neg (by simpa using h)]

theorem inc_magic (k : Codes) (hk : k.VAYUIPCINT_MODULEID < 1048576) (x : Nat) (hx : x < 4095) :
    Atomic_inc_return (VAYUIPCINT_MAKE_MAGICSTAMP k x) = VAYUIPCINT_MAKE_MAGICSTAMP k (x + 1) := by
  rw [magic_eq k x (by omega), magic_eq k (x + 1) (by omega)]
  unfold Atomic_inc_return
  omega

theorem dec_magic (k : Codes) (hk : k.VAYUIPCINT_MODULEID < 1048576) (x : Nat) (hx : x < 4095) :
    Atomic_dec_return (VAYUIPCINT_MAKE_MAGICSTAMP k (x + 1)) = VAYUIPCINT_MAKE_MAGICSTAMP k x := by
  rw [magic_eq k x (by omega), magic_eq k (x + 1) (by omega)]
  unfold Atomic_dec_return
  omega

theorem magic_inj (k : Codes) (x y : Nat) (hx : x < 4096) (hy : y < 4096)
    (h : VAYUIPCINT_MAKE_MAGICSTAMP k x = VAYUIPCINT_MAKE_MAGICSTAMP k y) : x = y := by
  rw [magic_eq k x hx, magic_eq k y hy] at h
  omega

theorem cmpmask_lt_registered (k : Codes) (x : Nat) (h1 : 1 ≤ x) (hx : x < 4096) :
    Atomic_cmpmask_and_lt (VAYUIPCINT_MAKE_MAGICSTAMP k x) (VAYUIPCINT_MAKE_MAGICSTAMP k 0)
      (VAYUIPCINT_MAKE_MAGICSTAMP k 1) = false := by
  unfold Atomic_cmpmask_and_lt
  rw [if_pos (magic_stamped k x), magic_eq k x hx, magic_eq k 1 (by omega)]
  simp
  omega

/-! ### Lists of handles -/

theorem find_unique {α : Type} (p : α → Bool) (l : List α) (e : α) (he : e ∈ l) (hp : p e = true)
    (hu : ∀ x ∈ l, p x = true → x = e) : l.find? p = some e := by
  induction l with
  | nil => cases he
  | cons y ys ih =>
    by_cases hy : p y = true
    · have : y = e := hu y (List.mem_cons_self _ _) hy
      rw [List.find?_cons_of_pos _ hy, this]
    · rw [List.find?_cons_of_neg _ hy]
      have hne : e ≠ y := fun h => hy (h ▸ hp)
      rcases List.mem_cons.1 he with h | h
      · exact absurd h hne
      · exact ih h (fun x hx => hu x (List.mem_cons_of_mem _ hx))

theorem find_none_of {α : Type} (p : α → Bool) (l : List α) (h : ∀ x ∈ l, p x = false) :
    l.find? p = none := by
  rw [List.find?_eq_none]
  intro x hx
  simp [h x hx]

/-! ### Trace counts -/

theorem installsOf_append (a b : List Call) : installsOf (a ++ b) = installsOf a ++ installsOf b := by
  induction a with
  | nil => rfl
  | cons c cs ih => cases c <;> simp [installsOf, ih]

theorem uninstallsOf_append (a b : List Call) :
    uninstallsOf (a ++ b) = uninstallsOf a ++ uninstallsOf b := by
  induction a with
  | nil => rfl
  | cons c cs ih => cases c <;> simp [uninstallsOf, ih]


theorem writesTo_append (r : Region) (o : Nat) (a b : List Call) :
    writesTo r o (a ++ b) = writesTo r o a ++ writesTo r o b := by
  induction a with
  | nil => rfl
  | cons c cs ih =>
    cases c <;> simp [writesTo, ih]
    split <;> simp

theorem writesIn_append (r : Region) (a b : List Call) :
    writesIn r (a ++ b) = writesIn r a ++ writesIn r b := by
  induction a with
  | nil => rfl
  | cons c cs ih =>
    cases c <;> simp [writesIn, ih]
    split <;> simp

theorem createsOf_append (a b : List Call) :
    createsOf (a ++ b) = createsOf a ++ createsOf b := by
  induction a with
  | nil => rfl
  | cons c cs ih =>
    cases c <;> simp [createsOf, ih]

theorem disableWrites_append (a b : List Call) :
    disableWrites (a ++ b) = disableWrites a ++ disableWrites b := by
  induction a with
  | nil => rfl
  | cons c cs ih =>
    cases c <;> simp [disableWrites, ih]
    split <;> simp

theorem lineCalls_append (a b : List Call) :
    lineCalls (a ++ b) =
      ((lineCalls a).1 + (lineCalls b).1, (lineCalls a).2.1 ++ (lineCalls b).2.1,
        (lineCalls a).2.2.1 + (lineCalls b).2.2.1, (lineCalls a).2.2.2 ++ (lineCalls b).2.2.2) := by
  simp only [lineCalls, xbarWrites, disableWrites_append, installsOf_append, uninstallsOf_append,
    writesIn_append, List.length_append, List.map_append]

theorem installsOf_nil_of_lineCalls (d : List Call) (x : List Nat) (y : Nat)
    (z : List (Region × Nat)) (h : lineCalls d = (0, x, y, z)) : installsOf d = [] :=
  List.length_eq_zero.1 (congrArg Prod.fst h)

theorem uninstallsOf_nil_of_lineCalls (d : List Call) (w : Nat) (x : List Nat)
    (z : List (Region × Nat)) (h : lineCalls d = (w, x, 0, z)) : uninstallsOf d = [] :=
  List.length_eq_zero.1 (congrArg (fun t => t.2.2.1) h)

theorem disableTarget_known (ids : Nat → Nat) (q : Nat) (h : knownProc ids q) :
    ∃ t, disableTarget ids q = some t := by
  unfold disableTarget
  split_ifs with h1 h2 h3 h4
  · exact ⟨_, rfl⟩
  · exact ⟨_, rfl⟩
  · exact ⟨_, rfl⟩
  · exact ⟨_, rfl⟩
  · rcases h with h | h | h | h
    · exact absurd h h1
    · exact absurd h h2
    · exact absurd h h3
    · exact absurd h h4

/-! ### The parts of the two calls -/

theorem SET_BIT_eq (pf : Platform) (m : VAYUIpcInt_ModuleObject) (r : Region) (o pos : Nat) :
    SET_BIT pf m r o pos =
      { m with trace := m.trace ++
        [Call.regRead r o (pf.readReg m.trace r o % 4294967296),
         Call.regWrite r o (((pf.readReg m.trace r o % 4294967296) ||| (1 <<< pos)) % 4294967296)] } := by
  simp [SET_BIT, REG32_read, REG32_write, record]

theorem interruptEnable_spec (pf : Platform) (m : VAYUIpcInt_ModuleObject) (p i : Nat) :
    ∃ d, VAYUIpcInt_interruptEnable pf m p i = { m with trace := m.trace ++ d } ∧
      lineCalls d = (0, [], 0, []) ∧ createsOf d = [] := by
  unfold VAYUIpcInt_interruptEnable
  split_ifs
  · exact ⟨_, SET_BIT_eq _ _ _ _ _, rfl, rfl⟩
  · exact ⟨_, SET_BIT_eq _ _ _ _ _, rfl, rfl⟩
  · exact ⟨_, SET_BIT_eq _ _ _ _ _, rfl, rfl⟩
  · exact ⟨_, SET_BIT_eq _ _ _ _ _, rfl, rfl⟩
  · exact ⟨[], by simp, rfl, rfl⟩

theorem interruptDisable_spec (m : VAYUIpcInt_ModuleObject) (p i : Nat) :
    ∃ d, VAYUIpcInt_interruptDisable m p i = { m with trace := m.trace ++ d } ∧
      lineCalls d = (0, [], 0, (disableTarget m.procIds p).toList) ∧ createsOf d = [] := by
  unfold VAYUIpcInt_interruptDisable disableTarget
  by_cases h1 : p = m.procIds VAYU_INDEX_DSP1
  · rw [if_pos h1, if_pos h1]
    exact ⟨[_], rfl, rfl, rfl⟩
  rw [if_neg h1, if_neg h1]
  by_cases h2 : p = m.procIds VAYU_INDEX_DSP2
  · rw [if_pos h2, if_pos h2]
    exact ⟨[_], rfl, rfl, rfl⟩
  rw [if_neg h2, if_neg h2]
  by_cases h3 : p = m.procIds VAYU_INDEX_IPU1
  · rw [if_pos h3, if_pos h3]
    exact ⟨[_], rfl, rfl, rfl⟩
  rw [if_neg h3, if_neg h3]
  by_cases h4 : p = m.procIds VAYU_INDEX_IPU2
  · rw [if_pos h4, if_pos h4]
    exact ⟨[_], rfl, rfl, rfl⟩
  rw [if_neg h4, if_neg h4]
  exact ⟨[], by simp, rfl, rfl⟩

theorem programXbar_spec (pf : Platform) (m : VAYUIpcInt_ModuleObject) (p i : Nat) :
    ∃ d, programXbar pf m p i = { m with trace := m.trace ++ d } ∧
      lineCalls d = (0, [xbarOffset i], 0, []) ∧ createsOf d = [] := by
  unfold programXbar
  simp only [REG32_read, REG32_write, record, List.append_assoc, List.singleton_append]
  split_ifs
  · exact ⟨_, rfl, rfl, rfl⟩
  · exact ⟨_, rfl, rfl, rfl⟩

theorem registerObject_spec (k : Codes) (pf : Platform) (m : VAYUIpcInt_ModuleObject)
    (p i f a c : Nat) (hk : k.VAYUIPCINT_MODULEID < 1048576) (hc : c < 4095)
    (h0 : c = 0 → unregistered k m p)
    (h1 : 0 < c → (m.isrObjects p).isrRefCount = VAYUIPCINT_MAKE_MAGICSTAMP k c) :
    ∃ d obj, registerObject k pf m p i f a =
        { m with trace := m.trace ++ d, isrObjects := Function.update m.isrObjects p obj } ∧
      lineCalls d = (0, [], 0, []) ∧ createsOf d = [] ∧
      obj.isrRefCount = VAYUIPCINT_MAKE_MAGICSTAMP k (c + 1) ∧
      obj.isrHandle = (m.isrObjects p).isrHandle := by
  have href : Atomic_inc_return (Atomic_cmpmask_and_set (m.isrObjects p).isrRefCount
      (VAYUIPCINT_MAKE_MAGICSTAMP k 0) (VAYUIPCINT_MAKE_MAGICSTAMP k 0)) =
      VAYUIPCINT_MAKE_MAGICSTAMP k (c + 1) := by
    rcases Nat.eq_zero_or_pos c with hz | hp
    · rw [cmpmask_set_unregistered _ _ (h0 hz), hz]
      exact inc_magic k hk 0 (by omega)
    · rw [h1 hp, cmpmask_set_stamped _ _ _ (magic_stamped k c)]
      exact inc_magic k hk c hc
  unfold registerObject
  simp only []
  rw [href]
  by_cases hne : VAYUIPCINT_MAKE_MAGICSTAMP k (c + 1) ≠ VAYUIPCINT_MAKE_MAGICSTAMP k 1
  · rw [if_pos hne]
    refine ⟨[], { m.isrObjects p with isrRefCount := VAYUIPCINT_MAKE_MAGICSTAMP k (c + 1) },
      ?_, rfl, rfl, rfl, rfl⟩
    simp [setObject]
  · rw [if_neg hne]
    obtain ⟨d, hd, hl, hcr⟩ := interruptEnable_spec pf
      (setObject m p { m.isrObjects p with
        isrRefCount := VAYUIPCINT_MAKE_MAGICSTAMP k (c + 1), fxn := f, fxnArgs := a,
        recvIntId := i }) p i
    rw [hd]
    exact ⟨d, _, rfl, hl, hcr, rfl, rfl⟩

theorem registerHandle_found (k : Codes) (pf : Platform) (m1 : VAYUIpcInt_ModuleObject)
    (p i : Nat) (e : VAYUIpcInt_isrHandleElem)
    (hfind : m1.isrHandles.find? (fun x => x.intId = i) = some e) :
    registerHandle k pf m1 p i =
      registerFinish
        { m1 with isrHandles := m1.isrHandles.map (fun x =>
            if x.addr = e.addr then { x with refCount := Atomic_inc_return x.refCount } else x) }
        p k.VAYUIPCINT_S_ALREADYREGISTERED (ElemPtr.elem e.addr) := by
  unfold registerHandle
  rw [hfind]

theorem registerHandle_new (k : Codes) (pf : Platform) (m0 m1 : VAYUIpcInt_ModuleObject)
    (p i : Nat) (hpf : platformSucceeds k pf m0)
    (hnone : m1.isrHandles.find? (fun x => x.intId = i) = none) :
    ∃ d a h st, lineCalls d = (1, [xbarOffset i], 0, []) ∧ createsOf d = [h] ∧
      installsOf d = [h] ∧ 0 ≤ st ∧ (∀ x ∈ m0.isrHandles, x.addr ≠ a) ∧
      registerHandle k pf m1 p i =
        (st, { m1 with
          trace := m1.trace ++ d,
          isrHandles := m1.isrHandles ++
            [{ addr := a, isrHandle := h, intId := i,
               refCount := VAYUIPCINT_MAKE_MAGICSTAMP k 1 }],
          isrObjects := Function.update m1.isrObjects p
            { m1.isrObjects p with isrHandle := ElemPtr.elem a } }) := by
  obtain ⟨hcreate, hinstall, halloc, hgarbage, hfresh⟩ := hpf
  obtain ⟨d0, hx, hl0, hc0⟩ := programXbar_spec pf m1 p i
  have hi0 : installsOf d0 = [] := installsOf_nil_of_lineCalls d0 _ _ _ hl0
  unfold registerHandle
  rw [hnone]
  simp only []
  rw [hx]
  simp only [record]
  rw [if_neg (hcreate _), if_neg (not_lt.2 (hinstall _)), if_neg (halloc _)]
  unfold registerFinish
  rw [if_pos (hinstall _)]
  unfold Atomic_cmpmask_and_set
  rw [if_pos (hgarbage _)]
  simp only [setObject, List.append_assoc]
  refine ⟨_, _, _, _, ?_, ?_, ?_, hinstall _, fun x hx => hfresh _ x hx, rfl⟩
  · rw [lineCalls_append, hl0]
    rfl
  · rw [createsOf_append, hc0]
    rfl
  · rw [installsOf_append, hi0]
    rfl

theorem unregisterObject_spec (k : Codes) (m : VAYUIpcInt_ModuleObject) (p c : Nat)
    (hk : k.VAYUIPCINT_MODULEID < 1048576) (hc : c < 4095)
    (href : (m.isrObjects p).isrRefCount = VAYUIPCINT_MAKE_MAGICSTAMP k (c + 1)) :
    ∃ d obj, unregisterObject k m p =
        { m with trace := m.trace ++ d, isrObjects := Function.update m.isrObjects p obj } ∧
      lineCalls d = (0, [], 0, if c = 0 then (disableTarget m.procIds p).toList else []) ∧
      createsOf d = [] ∧
      obj.isrRefCount = VAYUIPCINT_MAKE_MAGICSTAMP k c ∧
      obj.isrHandle = (m.isrObjects p).isrHandle := by
  unfold unregisterObject
  simp only []
  rw [href, dec_magic k hk c hc]
  by_cases hz : c = 0
  · subst hz
    rw [if_pos rfl]
    obtain ⟨d, hd, hl, hcr⟩ := interruptDisable_spec m p (m.isrObjects p).recvIntId
    rw [hd]
    refine ⟨d, _, rfl, ?_, hcr, rfl, rfl⟩
    rw [hl, if_pos rfl]
  · rw [if_neg (fun h => hz (magic_inj k c 0 (by omega) (by omega) h))]
    refine ⟨[], { m.isrObjects p with isrRefCount := VAYUIPCINT_MAKE_MAGICSTAMP k c },
      by simp [setObject], ?_, rfl, rfl, rfl⟩
    rw [if_neg hz]
    rfl

theorem unregisterHandle_mid (k : Codes) (pf : Platform) (m1 : VAYUIpcInt_ModuleObject)
    (a : Nat) (e : VAYUIpcInt_isrHandleElem)
    (hfind : m1.isrHandles.find? (fun x => x.addr = a) = some e)
    (hrc : Atomic_dec_return e.refCount ≠ VAYUIPCINT_MAKE_MAGICSTAMP k 0) :
    unregisterHandle k pf m1 (ElemPtr.elem a) =
      .ok (k.VAYUIPCINT_SUCCESS, { m1 with isrHandles := m1.isrHandles.map (fun x =>
        if x.addr = a then { x with refCount := Atomic_dec_return e.refCount } else x) }) := by
  unfold unregisterHandle
  simp only [hfind]
  rw [if_neg hrc]

theorem unregisterHandle_last (k : Codes) (pf : Platform) (m1 : VAYUIpcInt_ModuleObject)
    (a : Nat) (e : VAYUIpcInt_isrHandleElem)
    (hfind : m1.isrHandles.find? (fun x => x.addr = a) = some e)
    (hrc : Atomic_dec_return e.refCount = VAYUIPCINT_MAKE_MAGICSTAMP k 0) :
    ∃ st d, lineCalls d = (0, [], 1, []) ∧ createsOf d = [] ∧
      uninstallsOf d = [e.isrHandle] ∧
      unregisterHandle k pf m1 (ElemPtr.elem a) =
        .ok (st, { m1 with isrHandles := m1.isrHandles.filter (fun x => x.addr ≠ a),
                           trace := m1.trace ++ d }) := by
  unfold unregisterHandle
  simp only [hfind]
  rw [if_pos hrc]
  simp only [record, List.append_assoc]
  split_ifs
  · exact ⟨_, _, by rfl, by rfl, by rfl, rfl⟩
  · exact ⟨_, _, by rfl, by rfl, by rfl, rfl⟩


/-! ### The outstanding counts -/

theorem total_update (cnt : Nat → Nat) (q v : Nat) (hq : q < MultiProc_MAXPROCESSORS) :
    total (Function.update cnt q v) + cnt q = total cnt + v := by
  have hmem : q ∈ Finset.range MultiProc_MAXPROCESSORS := Finset.mem_range.2 hq
  unfold total
  rw [Finset.sum_update_of_mem hmem, Finset.sum_eq_add_sum_diff_singleton hmem cnt]
  omega

theorem le_total (cnt : Nat → Nat) (q : Nat) (hq : q < MultiProc_MAXPROCESSORS) :
    cnt q ≤ total cnt :=
  Finset.single_le_sum (f := cnt) (fun _ _ => Nat.zero_le _) (Finset.mem_range.2 hq)

/-! ### The invariant over one call -/

theorem objects_step (k : Codes) (m m1 : VAYUIpcInt_ModuleObject) (procs : List Nat)
    (cnt : Nat → Nat) (q : Nat) (o : VAYUIpcInt_Object) (c : Nat)
    (hobj : ∀ q ∈ procs, (cnt q = 0 → unregistered k m q) ∧
      (0 < cnt q → (m.isrObjects q).isrRefCount = VAYUIPCINT_MAKE_MAGICSTAMP k (cnt q)))
    (hm : m1.isrObjects = Function.update m.isrObjects q o)
    (ho : o.isrRefCount = VAYUIPCINT_MAKE_MAGICSTAMP k c) :
    ∀ r ∈ procs, (Function.update cnt q c r = 0 → unregistered k m1 r) ∧
      (0 < Function.update cnt q c r →
        (m1.isrObjects r).isrRefCount = VAYUIPCINT_MAKE_MAGICSTAMP k (Function.update cnt q c r)) := by
  intro r hr
  by_cases h : r = q
  · subst h
    simp only [Function.update_same, hm, unregistered]
    exact ⟨fun hc => Or.inr (by rw [ho, hc]), fun _ => ho⟩
  · simp only [Function.update_noteq h, hm, unregistered]
    exact hobj r hr

theorem pointers_step (m m1 : VAYUIpcInt_ModuleObject) (procs : List Nat)
    (cnt : Nat → Nat) (q : Nat) (o : VAYUIpcInt_Object) (c : Nat) (ptr : ElemPtr)
    (hp : ∀ q ∈ procs, 0 < cnt q → (m.isrObjects q).isrHandle = ptr)
    (hm : m1.isrObjects = Function.update m.isrObjects q o)
    (ho : 0 < c → o.isrHandle = ptr) :
    ∀ r ∈ procs, 0 < Function.update cnt q c r → (m1.isrObjects r).isrHandle = ptr := by
  intro r hr
  by_cases h : r = q
  · subst h
    simp only [Function.update_same, hm]
    exact ho
  · simp only [Function.update_noteq h, hm]
    exact hp r hr

theorem handles_map (l l0 : List VAYUIpcInt_isrHandleElem) (i : Nat)
    (e : VAYUIpcInt_isrHandleElem) (g : VAYUIpcInt_isrHandleElem → VAYUIpcInt_isrHandleElem)
    (hg1 : ∀ x, (g x).addr = x.addr) (hg2 : ∀ x, (g x).intId = x.intId)
    (hg3 : ∀ x, x.addr ≠ e.addr → g x = x)
    (hothers : ∀ x ∈ l, x.intId ≠ i → x ∈ l0)
    (hmem : e ∈ l) (hint : e.intId = i)
    (hui : ∀ x ∈ l, x.intId = i → x = e) (hua : ∀ x ∈ l, x.addr = e.addr → x = e) :
    (∀ x ∈ l.map g, x.intId ≠ i → x ∈ l0) ∧ g e ∈ l.map g ∧ (g e).intId = i ∧
      (∀ x ∈ l.map g, x.intId = i → x = g e) ∧
      (∀ x ∈ l.map g, x.addr = (g e).addr → x = g e) := by
  refine ⟨?_, List.mem_map_of_mem g hmem, by rw [hg2, hint], ?_, ?_⟩
  · intro x hx hne
    obtain ⟨y, hy, rfl⟩ := List.mem_map.1 hx
    rw [hg2] at hne
    have hya : y.addr ≠ e.addr := fun h => hne (by rw [hua y hy h, hint])
    rw [hg3 y hya]
    exact hothers y hy hne
  · intro x hx hxi
    obtain ⟨y, hy, rfl⟩ := List.mem_map.1 hx
    rw [hg2] at hxi
    rw [hui y hy hxi]
  · intro x hx hxa
    obtain ⟨y, hy, rfl⟩ := List.mem_map.1 hx
    rw [hg1, hg1] at hxa
    rw [hua y hy hxa]

theorem handles_filter (l l0 : List VAYUIpcInt_isrHandleElem) (i : Nat)
    (e : VAYUIpcInt_isrHandleElem)
    (hothers : ∀ x ∈ l, x.intId ≠ i → x ∈ l0)
    (hui : ∀ x ∈ l, x.intId = i → x = e) :
    (∀ x ∈ l.filter (fun x => x.addr ≠ e.addr), x.intId ≠ i → x ∈ l0) ∧
      (∀ x ∈ l.filter (fun x => x.addr ≠ e.addr), x.intId ≠ i) := by
  constructor
  · intro x hx hne
    exact hothers x (List.mem_filter.1 hx).1 hne
  · intro x hx hxi
    have h := List.mem_filter.1 hx
    have hxe := hui x h.1 hxi
    subst hxe
    simpa using h.2

theorem handles_append (l l0 : List VAYUIpcInt_isrHandleElem) (i : Nat)
    (n : VAYUIpcInt_isrHandleElem) (hn : n.intId = i)
    (hfresh : ∀ x ∈ l0, x.addr ≠ n.addr)
    (hothers : ∀ x ∈ l, x.intId ≠ i → x ∈ l0)
    (hzero : ∀ x ∈ l, x.intId ≠ i) :
    (∀ x ∈ l ++ [n], x.intId ≠ i → x ∈ l0) ∧ n ∈ l ++ [n] ∧
      (∀ x ∈ l ++ [n], x.intId = i → x = n) ∧
      (∀ x ∈ l ++ [n], x.addr = n.addr → x = n) := by
  refine ⟨?_, by simp, ?_, ?_⟩
  · intro x hx hne
    rcases List.mem_append.1 hx with h | h
    · exact hothers x h hne
    · rw [List.mem_singleton.1 h] at hne
      exact absurd hn hne
  · intro x hx hxi
    rcases List.mem_append.1 hx with h | h
    · exact absurd hxi (hzero x h)
    · exact List.mem_singleton.1 h
  · intro x hx hxa
    rcases List.mem_append.1 hx with h | h
    · exact absurd hxa (hfresh x (hothers x h (hzero x h)))
    · exact List.mem_singleton.1 h


theorem step_register (k : Codes) (pf : Platform) (m0 m : VAYUIpcInt_ModuleObject)
    (i : Nat) (procs : List Nat) (cnt : Nat → Nat) (q f a : Nat)
    (hk : k.VAYUIPCINT_MODULEID < 1048576) (hs : 0 ≤ k.VAYUIPCINT_S_ALREADYREGISTERED)
    (hpf : platformSucceeds k pf m0) (hinv : registryInv k m0 m i procs cnt)
    (hq : q ∈ procs) (ht : total cnt < 4095) :
    ∃ st m1, VAYUIpcInt_interruptRegister k pf m q i f a = .ok (st, m1) ∧
      registryInv k m0 m1 i procs (Function.update cnt q (cnt q + 1)) ∧
      lineCalls (m1.trace.drop m.trace.length) =
        (if total cnt = 0 then (1, [xbarOffset i], 0, []) else (0, [], 0, [])) := by
  obtain ⟨hids, hle, hlt, hobj, hothers, hzero, hpos, D, hD, hcre, hz0, hp0⟩ := hinv
  have hq10 := hlt q hq
  have hcq := le_total cnt q hq10
  have htot : total (Function.update cnt q (cnt q + 1)) = total cnt + 1 := by
    have := total_update cnt q (cnt q + 1) hq10
    omega
  have hnz : ¬ total (Function.update cnt q (cnt q + 1)) = 0 := by omega
  obtain ⟨d1, obj, h1, hl1, hcr1, hrc, hptr⟩ := registerObject_spec k pf m q i f a (cnt q) hk
    (by omega) (fun h => (hobj q hq).1 h) (fun h => (hobj q hq).2 h)
  have hi1 : installsOf d1 = [] := installsOf_nil_of_lineCalls d1 _ _ _ hl1
  have hu1 : uninstallsOf d1 = [] := uninstallsOf_nil_of_lineCalls d1 _ _ _ hl1
  unfold VAYUIpcInt_interruptRegister
  rw [if_neg (not_not.2 hq10)]
  obtain ⟨m1, hm1⟩ : ∃ m1, registerObject k pf m q i f a = m1 := ⟨_, rfl⟩
  rw [hm1] at h1 ⊢
  have e1 : m1.isrHandles = m.isrHandles := by rw [h1]
  have e2 : m1.isrObjects = Function.update m.isrObjects q obj := by rw [h1]
  have e3 : m1.trace = m.trace ++ d1 := by rw [h1]
  have e4 : m1.procIds = m.procIds := by rw [h1]
  clear h1 hm1
  rw [← e1] at hothers hzero hpos hp0
  by_cases hz : total cnt = 0
  · rw [if_pos hz]
    have hnone : m1.isrHandles.find? (fun x => x.intId = i) = none :=
      find_none_of _ _ (fun x hx => by simpa using hzero hz x hx)
    obtain ⟨d, a1, h, st, hl, hcrd, hind, _, hfresh, hreg⟩ :=
      registerHandle_new k pf m0 m1 q i hpf hnone
    have hud : uninstallsOf d = [] := uninstallsOf_nil_of_lineCalls d _ _ _ hl
    rw [hreg]
    obtain ⟨ho1, ho2, ho3, ho4⟩ := handles_append m1.isrHandles m0.isrHandles i
      { addr := a1, isrHandle := h, intId := i, refCount := VAYUIPCINT_MAKE_MAGICSTAMP k 1 }
      rfl hfresh hothers (hzero hz)
    refine ⟨_, _, rfl, ⟨e4.trans hids, by omega, hlt, ?_, ho1, fun h0 => by omega,
      fun _ => ⟨_, ho2, rfl, by rw [htot, hz], ho3, ho4, ?_⟩, ?_⟩, ?_⟩
    · exact objects_step k m _ procs cnt q { obj with isrHandle := ElemPtr.elem a1 } (cnt q + 1)
        hobj (by simp [e2]) hrc
    · exact pointers_step m _ procs cnt q { obj with isrHandle := ElemPtr.elem a1 } (cnt q + 1)
        (ElemPtr.elem a1)
        (fun r hr hp => absurd hp (by have := le_total cnt r (hlt r hr); omega))
        (by simp [e2]) (fun _ => rfl)
    · refine ⟨D ++ (d1 ++ d), ?_, ?_, fun h0 => absurd h0 hnz, fun _ x hx hxi => ?_⟩
      · show m1.trace ++ d = m0.trace ++ (D ++ (d1 ++ d))
        rw [e3, hD]
        simp only [List.append_assoc]
      · rw [createsOf_append, createsOf_append, installsOf_append, installsOf_append, hcre,
          hcr1, hcrd, hi1, hind]
      · rw [ho3 x hx hxi, installsOf_append, installsOf_append, uninstallsOf_append,
          uninstallsOf_append, hi1, hind, hu1, hud, hz0 hz]
        simp
    · show lineCalls (List.drop m.trace.length (m1.trace ++ d)) = _
      rw [e3, List.append_assoc, List.drop_left, lineCalls_append, hl1, hl]
      rfl
  · rw [if_neg hz]
    obtain ⟨e, hmem, hint, hrce, hui, hua, hptrs⟩ := hpos (Nat.pos_of_ne_zero hz)
    have hfind : m1.isrHandles.find? (fun x => x.intId = i) = some e :=
      find_unique _ _ e hmem (by simp [hint]) (fun x hx hp => hui x hx (by simpa using hp))
    rw [registerHandle_found k pf _ q i e hfind]
    unfold registerFinish
    rw [if_pos hs]
    obtain ⟨ho1, ho2, ho3, ho4, ho5⟩ := handles_map m1.isrHandles m0.isrHandles i e
      (fun x => if x.addr = e.addr then { x with refCount := Atomic_inc_return x.refCount } else x)
      (fun x => by simp only []; split <;> rfl) (fun x => by simp only []; split <;> rfl)
      (fun x hx => by simp only []; rw [if_neg hx]) hothers hmem hint hui hua
    simp only [if_true] at ho2 ho3 ho4 ho5
    refine ⟨_, _, rfl, ⟨e4.trans hids, by omega, hlt, ?_, ho1, fun h0 => by omega,
      fun _ => ⟨_, ho2, ho3, ?_, ho4, ho5, ?_⟩, ?_⟩, ?_⟩
    · exact objects_step k m _ procs cnt q { obj with isrHandle := ElemPtr.elem e.addr }
        (cnt q + 1) hobj (by simp [setObject, e2]) hrc
    · show Atomic_inc_return e.refCount = _
      rw [hrce, htot]
      exact inc_magic k hk _ ht
    · exact pointers_step m _ procs cnt q { obj with isrHandle := ElemPtr.elem e.addr }
        (cnt q + 1) (ElemPtr.elem e.addr) hptrs (by simp [setObject, e2]) (fun _ => rfl)
    · refine ⟨D ++ d1, ?_, ?_, fun h0 => absurd h0 hnz, fun _ x hx hxi => ?_⟩
      · show m1.trace = m0.trace ++ (D ++ d1)
        rw [e3, hD, List.append_assoc]
      · rw [createsOf_append, installsOf_append, hcre, hcr1, hi1]
      · rw [ho4 x hx hxi, installsOf_append, uninstallsOf_append, hi1, hu1, List.append_nil,
          List.append_nil]
        exact hp0 (Nat.pos_of_ne_zero hz) e hmem hint
    · show lineCalls (List.drop m.trace.length m1.trace) = _
      rw [e3, List.drop_left, hl1]


theorem step_unregister (k : Codes) (pf : Platform) (m0 m : VAYUIpcInt_ModuleObject)
    (i : Nat) (procs : List Nat) (cnt : Nat → Nat) (q : Nat)
    (hk : k.VAYUIPCINT_MODULEID < 1048576) (hinv : registryInv k m0 m i procs cnt)
    (hq : q ∈ procs) (hc : 0 < cnt q) :
    ∃ st m1, VAYUIpcInt_interruptUnregister k pf m q = .ok (st, m1) ∧
      registryInv k m0 m1 i procs (Function.update cnt q (cnt q - 1)) ∧
      lineCalls (m1.trace.drop m.trace.length) =
        (0, [], (if total cnt = 1 then 1 else 0),
          (if cnt q = 1 then (disableTarget m0.procIds q).toList else [])) := by
  obtain ⟨hids, hle, hlt, hobj, hothers, hzero, hpos, D, hD, hcre, hz0, hp0⟩ := hinv
  have hq10 := hlt q hq
  have hcq := le_total cnt q hq10
  have htot : total (Function.update cnt q (cnt q - 1)) = total cnt - 1 := by
    have := total_update cnt q (cnt q - 1) hq10
    omega
  have href := (hobj q hq).2 hc
  have htpos : 0 < total cnt := by omega
  obtain ⟨e, hmem, hint, hrce, hui, hua, hptrs⟩ := hpos htpos
  have hhist := hp0 htpos e hmem hint
  have hptrq := hptrs q hq hc
  obtain ⟨d1, obj, h1, hl1, hcr1, hrc, hptr⟩ :=
    unregisterObject_spec k m q (cnt q - 1) hk (by omega)
      (by rw [href, Nat.sub_add_cancel hc])
  have hdec : Atomic_dec_return e.refCount = VAYUIPCINT_MAKE_MAGICSTAMP k (total cnt - 1) := by
    have := dec_magic k hk (total cnt - 1) (by omega)
    rw [Nat.sub_add_cancel (by omega)] at this
    rw [hrce, this]
  have hcalls : lineCalls d1 =
      (0, [], 0, if cnt q = 1 then (disableTarget m0.procIds q).toList else []) := by
    rw [hl1, hids]
    by_cases hh : cnt q = 1
    · rw [if_pos hh, if_pos (by omega)]
    · rw [if_neg hh, if_neg (by omega)]
  have hi1 : installsOf d1 = [] := installsOf_nil_of_lineCalls d1 _ _ _ hl1
  have hu1 : uninstallsOf d1 = [] := uninstallsOf_nil_of_lineCalls d1 _ _ _ hl1
  unfold VAYUIpcInt_interruptUnregister
  rw [if_neg (not_not.2 hq10), href, cmpmask_lt_registered k (cnt q) hc (by omega),
    if_neg (by simp), hptrq]
  obtain ⟨m1, hm1⟩ : ∃ m1, unregisterObject k m q = m1 := ⟨_, rfl⟩
  rw [hm1] at h1 ⊢
  have e1 : m1.isrHandles = m.isrHandles := by rw [h1]
  have e2 : m1.isrObjects = Function.update m.isrObjects q obj := by rw [h1]
  have e3 : m1.trace = m.trace ++ d1 := by rw [h1]
  have e4 : m1.procIds = m.procIds := by rw [h1]
  clear h1 hm1
  rw [← e1] at hothers hmem hui hua
  have hfind : m1.isrHandles.find? (fun x => x.addr = e.addr) = some e :=
    find_unique _ _ e hmem (by simp) (fun x hx hp => hua x hx (by simpa using hp))
  have hx1 : total (Function.update cnt q (cnt q - 1)) ≤ 4095 := by omega
  by_cases h1t : total cnt = 1
  · obtain ⟨st, d, hl, hcrd, hund, hreg⟩ := unregisterHandle_last k pf m1 e.addr e hfind
      (by rw [hdec, h1t])
    have hind : installsOf d = [] := installsOf_nil_of_lineCalls d _ _ _ hl
    rw [hreg, if_pos h1t]
    obtain ⟨ho1, ho2⟩ := handles_filter m1.isrHandles m0.isrHandles i e hothers hui
    have hx3 : ¬ 0 < total (Function.update cnt q (cnt q - 1)) := by omega
    have hx4 : lineCalls (List.drop m.trace.length (m1.trace ++ d)) =
        (0, [], 1, if cnt q = 1 then (disableTarget m0.procIds q).toList else []) := by
      rw [e3, List.append_assoc, List.drop_left, lineCalls_append, hcalls, hl]
      simp
    refine ⟨_, _, rfl, ?_, hx4⟩
    refine ⟨e4.trans hids, hx1, hlt,
      objects_step k m _ procs cnt q obj (cnt q - 1) hobj e2 hrc,
      ho1, fun _ => ho2, fun hp => absurd hp hx3, D ++ (d1 ++ d), ?_, ?_, fun _ => ?_,
      fun hp => absurd hp hx3⟩
    · show m1.trace ++ d = m0.trace ++ (D ++ (d1 ++ d))
      rw [e3, hD]
      simp only [List.append_assoc]
    · rw [createsOf_append, createsOf_append, installsOf_append, installsOf_append, hcre,
        hcr1, hcrd, hi1, hind]
    · rw [installsOf_append, installsOf_append, uninstallsOf_append, uninstallsOf_append, hi1,
        hind, hu1, hund, hhist]
      simp
  · have hne : Atomic_dec_return e.refCount ≠ VAYUIPCINT_MAKE_MAGICSTAMP k 0 := by
      rw [hdec]
      intro h
      have := magic_inj k (total cnt - 1) 0 (by omega) (by omega) h
      omega
    rw [unregisterHandle_mid k pf m1 e.addr e hfind hne, if_neg h1t]
    obtain ⟨ho1, ho2, ho3, ho4, ho5⟩ := handles_map m1.isrHandles m0.isrHandles i e
      (fun x => if x.addr = e.addr then { x with refCount := Atomic_dec_return e.refCount } else x)
      (fun x => by simp only []; split <;> rfl) (fun x => by simp only []; split <;> rfl)
      (fun x hx => by simp only []; rw [if_neg hx]) hothers hmem hint hui hua
    simp only [if_true] at ho2 ho3 ho4 ho5
    have hx3 : ¬ total (Function.update cnt q (cnt q - 1)) = 0 := by omega
    have hx4 : lineCalls (List.drop m.trace.length m1.trace) =
        (0, [], 0, if cnt q = 1 then (disableTarget m0.procIds q).toList else []) := by
      rw [e3, List.drop_left, hcalls]
    have hx5 : Atomic_dec_return e.refCount =
        VAYUIPCINT_MAKE_MAGICSTAMP k (total (Function.update cnt q (cnt q - 1))) := by
      rw [hdec, htot]
    refine ⟨_, _, rfl, ?_, hx4⟩
    refine ⟨e4.trans hids, hx1, hlt,
      objects_step k m _ procs cnt q obj (cnt q - 1) hobj e2 hrc,
      ho1, fun h0 => absurd h0 hx3,
      fun _ => ⟨_, ho2, ho3, hx5, ho4, ho5,
        pointers_step m _ procs cnt q obj (cnt q - 1) (ElemPtr.elem e.addr) hptrs e2
          (fun _ => hptr.trans hptrq)⟩,
      D ++ d1, ?_, ?_, fun h0 => absurd h0 hx3, fun _ x hx hxi => ?_⟩
    · show m1.trace = m0.trace ++ (D ++ d1)
      rw [e3, hD, List.append_assoc]
    · rw [createsOf_append, installsOf_append, hcre, hcr1, hi1]
    · rw [ho4 x hx hxi, installsOf_append, uninstallsOf_append, hi1, hu1, List.append_nil,
        List.append_nil]
      exact hhist

/-! ### Sequences of calls -/

theorem runOps_line (k : Codes) (pf : Platform) (m0 : VAYUIpcInt_ModuleObject) (i : Nat)
    (procs : List Nat) (hk : k.VAYUIPCINT_MODULEID < 1048576)
    (hs : 0 ≤ k.VAYUIPCINT_S_ALREADYREGISTERED) (hpf : platformSucceeds k pf m0) :
    ∀ (ops : List IntOp) (m : VAYUIpcInt_ModuleObject) (cnt : Nat → Nat),
      registryInv k m0 m i procs cnt → validOps i procs ops cnt →
      ∃ rs m1, runOps k pf ops m = .ok (rs, m1) ∧
        registryInv k m0 m1 i procs (countAfter ops cnt) ∧
        rs.map (fun r => lineCalls r.2) = expectedLineCalls m0.procIds i ops cnt := by
  intro ops
  induction ops with
  | nil => exact fun m cnt hinv _ => ⟨[], m, rfl, hinv, rfl⟩
  | cons op ops ih =>
    intro m cnt hinv hv
    cases op with
    | register q j f a =>
      obtain ⟨hq, _, hj, ht, hrest⟩ := hv
      subst hj
      obtain ⟨st, m1, hreg, hinv1, hcalls⟩ :=
        step_register k pf m0 m j procs cnt q f a hk hs hpf hinv hq ht
      obtain ⟨rs, m2, hrun, hinv2, hmap⟩ := ih m1 _ hinv1 hrest
      refine ⟨(st, m1.trace.drop m.trace.length) :: rs, m2, ?_, hinv2, ?_⟩
      · simp only [runOps, runOp, hreg, hrun]
      · simp only [List.map_cons, expectedLineCalls, hcalls, hmap]
    | unregister q =>
      obtain ⟨hq, _, hc, hrest⟩ := hv
      obtain ⟨st, m1, hreg, hinv1, hcalls⟩ :=
        step_unregister k pf m0 m i procs cnt q hk hinv hq hc
      obtain ⟨rs, m2, hrun, hinv2, hmap⟩ := ih m1 _ hinv1 hrest
      refine ⟨(st, m1.trace.drop m.trace.length) :: rs, m2, ?_, hinv2, ?_⟩
      · simp only [runOps, runOp, hreg, hrun]
      · simp only [List.map_cons, expectedLineCalls, hcalls, hmap]

theorem total_zero : total (fun _ => 0) = 0 := by
  simp [total]

theorem registryInv_start (k : Codes) (m0 : VAYUIpcInt_ModuleObject) (i : Nat)
    (procs : List Nat)
    (hprocs : ∀ q ∈ procs, q < MultiProc_MAXPROCESSORS ∧ unregistered k m0 q)
    (hline : ∀ x ∈ m0.isrHandles, x.intId ≠ i) :
    registryInv k m0 m0 i procs (fun _ => 0) :=
  ⟨rfl, by rw [total_zero]; omega, fun q hq => (hprocs q hq).1,
    fun q hq => ⟨fun _ => (hprocs q hq).2, fun h => absurd h (lt_irrefl 0)⟩,
    fun _ hx _ => hx, fun _ => hline, fun h => absurd h (by rw [total_zero]; exact lt_irrefl 0),
    [], (List.append_nil _).symm, rfl, fun _ => rfl,
    fun h => absurd h (by rw [total_zero]; exact lt_irrefl 0)⟩

theorem total_single (p c : Nat) (hp : p < MultiProc_MAXPROCESSORS) :
    total (Function.update (fun _ => 0) p c) = c := by
  have h := total_update (fun _ => 0) p c hp
  rw [total_zero] at h
  simpa using h

theorem update_single (p c v : Nat) :
    Function.update (Function.update (fun _ => (0 : Nat)) p c) p v =
      Function.update (fun _ => 0) p v :=
  Function.update_idem _ _ _

theorem validOps_register (i : Nat) (procs : List Nat) (q j f a : Nat) (ops : List IntOp)
    (cnt : Nat → Nat) :
    validOps i procs (IntOp.register q j f a :: ops) cnt =
      (q ∈ procs ∧ q < MultiProc_MAXPROCESSORS ∧ j = i ∧ total cnt < 4095 ∧
        validOps i procs ops (Function.update cnt q (cnt q + 1))) := rfl

theorem validOps_unregister (i : Nat) (procs : List Nat) (q : Nat) (ops : List IntOp)
    (cnt : Nat → Nat) :
    validOps i procs (IntOp.unregister q :: ops) cnt =
      (q ∈ procs ∧ q < MultiProc_MAXPROCESSORS ∧ 0 < cnt q ∧
        validOps i procs ops (Function.update cnt q (cnt q - 1))) := rfl

theorem expected_register (ids : Nat → Nat) (i q j f a : Nat) (ops : List IntOp)
    (cnt : Nat → Nat) :
    expectedLineCalls ids i (IntOp.register q j f a :: ops) cnt =
      (if total cnt = 0 then (1, [xbarOffset i], 0, []) else (0, [], 0, [])) ::
        expectedLineCalls ids i ops (Function.update cnt q (cnt q + 1)) := rfl

theorem expected_unregister (ids : Nat → Nat) (i q : Nat) (ops : List IntOp)
    (cnt : Nat → Nat) :
    expectedLineCalls ids i (IntOp.unregister q :: ops) cnt =
      (0, [], (if total cnt = 1 then 1 else 0),
        (if cnt q = 1 then (disableTarget ids q).toList else [])) ::
        expectedLineCalls ids i ops (Function.update cnt q (cnt q - 1)) := rfl

theorem validOps_registers (i p : Nat) (hp : p < MultiProc_MAXPROCESSORS) :
    ∀ (args : List (Nat × Nat)) (c : Nat) (rest : List IntOp),
      c + args.length ≤ 4095 →
      validOps i [p] rest (Function.update (fun _ => 0) p (c + args.length)) →
      validOps i [p] (args.map (fun a => IntOp.register p i a.1 a.2) ++ rest)
        (Function.update (fun _ => 0) p c) := by
  intro args
  induction args with
  | nil => exact fun c rest _ h => h
  | cons a as ih =>
    intro c rest hc h
    rw [List.length_cons] at hc h
    rw [List.map_cons, List.cons_append, validOps_register, Function.update_same,
      update_single, total_single p c hp]
    refine ⟨List.mem_singleton.2 rfl, hp, rfl, by omega, ?_⟩
    apply ih (c + 1) rest (by omega)
    rw [show c + 1 + as.length = c + (as.length + 1) by omega]
    exact h

theorem validOps_unregisters (i p : Nat) (hp : p < MultiProc_MAXPROCESSORS) :
    ∀ (n c : Nat), n ≤ c →
      validOps i [p] (List.replicate n (IntOp.unregister p))
        (Function.update (fun _ => 0) p c) := by
  intro n
  induction n with
  | zero => exact fun _ _ => trivial
  | succ n ih =>
    intro c hc
    rw [List.replicate_succ, validOps_unregister, Function.update_same, update_single]
    exact ⟨List.mem_singleton.2 rfl, hp, by omega, ih (c - 1) (by omega)⟩

theorem expected_registers (ids : Nat → Nat) (i p : Nat) (hp : p < MultiProc_MAXPROCESSORS) :
    ∀ (args : List (Nat × Nat)) (c : Nat) (rest : List IntOp), 0 < c →
      expectedLineCalls ids i (args.map (fun a => IntOp.register p i a.1 a.2) ++ rest)
          (Function.update (fun _ => 0) p c) =
        List.replicate args.length (0, [], 0, []) ++
          expectedLineCalls ids i rest (Function.update (fun _ => 0) p (c + args.length)) := by
  intro args
  induction args with
  | nil => exact fun c rest _ => rfl
  | cons a as ih =>
    intro c rest hc
    rw [List.map_cons, List.cons_append, expected_register, Function.update_same,
      update_single, total_single p c hp, if_neg (by omega), ih (c + 1) rest (by omega),
      List.length_cons, List.replicate_succ, List.cons_append,
      show c + 1 + as.length = c + (as.length + 1) by omega]

theorem expected_unregisters (ids : Nat → Nat) (i p : Nat) (hp : p < MultiProc_MAXPROCESSORS)
    (t : Region × Nat) (ht : disableTarget ids p = some t) :
    ∀ n : Nat, expectedLineCalls ids i (List.replicate (n + 1) (IntOp.unregister p))
          (Function.update (fun _ => 0) p (n + 1)) =
        List.replicate n (0, [], 0, []) ++ [(0, [], 1, [t])] := by
  intro n
  induction n with
  | zero =>
    rw [List.replicate_succ, expected_unregister, Function.update_same,
      total_single p _ hp, if_pos rfl, if_pos rfl, ht]
    rfl
  | succ n ih =>
    rw [List.replicate_succ, expected_unregister, Function.update_same, update_single,
      total_single p _ hp, if_neg (by omega), if_neg (by omega),
      show n + 1 + 1 - 1 = n + 1 by omega, ih]
    rfl


theorem countAfter_registers (i p : Nat) :
    ∀ (args : List (Nat × Nat)) (c : Nat) (rest : List IntOp),
      countAfter (args.map (fun a => IntOp.register p i a.1 a.2) ++ rest)
          (Function.update (fun _ => 0) p c) =
        countAfter rest (Function.update (fun _ => 0) p (c + args.length)) := by
  intro args
  induction args with
  | nil => exact fun c rest => rfl
  | cons a as ih =>
    intro c rest
    rw [List.map_cons, List.cons_append]
    show countAfter _ (Function.update (Function.update (fun _ => 0) p c) p
      (Function.update (fun _ => 0) p c p + 1)) = _
    rw [Function.update_same, update_single, ih (c + 1) rest, List.length_cons,
      show c + 1 + as.length = c + (as.length + 1) by omega]

theorem countAfter_unregisters (p : Nat) :
    ∀ (n c : Nat), countAfter (List.replicate n (IntOp.unregister p))
        (Function.update (fun _ => 0) p c) = Function.update (fun _ => 0) p (c - n) := by
  intro n
  induction n with
  | zero => exact fun c => rfl
  | succ n ih =>
    intro c
    rw [List.replicate_succ]
    show countAfter _ (Function.update (Function.update (fun _ => 0) p c) p
      (Function.update (fun _ => 0) p c p - 1)) = _
    rw [Function.update_same, update_single, ih (c - 1),
      show c - 1 - n = c - (n + 1) by omega]

/-- C14: a processor that is already registered (its reference count carries the stamp and a
count of at least one, and the 32-bit counter does not wrap) registers again on a line whose
handle is installed: the call returns VAYUIPCINT_S_ALREADYREGISTERED, the callback, the
argument and recvIntId stored for the processor are unchanged, no register is accessed and no
service is called (so the hardware interrupt is not enabled again), and the reference count of
the processor is one higher. -/
theorem C14_reregister_reports_already_registered (k : Codes) (pf : Platform)
    (m : VAYUIpcInt_ModuleObject) (p intId f2 a2 : Nat) (e : VAYUIpcInt_isrHandleElem)
    (hp : p < MultiProc_MAXPROCESSORS)
    (hreg : Atomic_cmpmask_and_lt (m.isrObjects p).isrRefCount
      (VAYUIPCINT_MAKE_MAGICSTAMP k 0) (VAYUIPCINT_MAKE_MAGICSTAMP k 1) = false)
    (hfit : (m.isrObjects p).isrRefCount + 1 < 4294967296)
    (hline : m.isrHandles.find? (fun x => x.intId = intId) = some e) :
    ∃ m1, VAYUIpcInt_interruptRegister k pf m p intId f2 a2 =
        .ok (k.VAYUIPCINT_S_ALREADYREGISTERED, m1) ∧
      (m1.isrObjects p).fxn = (m.isrObjects p).fxn ∧
      (m1.isrObjects p).fxnArgs = (m.isrObjects p).fxnArgs ∧
      (m1.isrObjects p).recvIntId = (m.isrObjects p).recvIntId ∧
      m1.trace = m.trace ∧
      (m1.isrObjects p).isrRefCount = (m.isrObjects p).isrRefCount + 1 := by
  have hst : (m.isrObjects p).isrRefCount &&& VAYUIPCINT_MAKE_MAGICSTAMP k 0 =
      VAYUIPCINT_MAKE_MAGICSTAMP k 0 := by
    by_contra h
    unfold Atomic_cmpmask_and_lt at hreg
    rw [if_neg h] at hreg
    exact absurd hreg (by simp)
  have hge : VAYUIPCINT_MAKE_MAGICSTAMP k 1 ≤ (m.isrObjects p).isrRefCount := by
    unfold Atomic_cmpmask_and_lt at hreg
    rw [if_pos hst] at hreg
    simpa using hreg
  have hobj : registerObject k pf m p intId f2 a2 =
      setObject m p { m.isrObjects p with isrRefCount := (m.isrObjects p).isrRefCount + 1 } := by
    unfold registerObject
    simp only []
    rw [cmpmask_set_stamped _ _ _ hst]
    unfold Atomic_inc_return
    rw [Nat.mod_eq_of_lt hfit, if_pos (by omega)]
  unfold VAYUIpcInt_interruptRegister
  rw [if_neg (not_not.2 hp), hobj, registerHandle_found k pf
    (setObject m p { m.isrObjects p with isrRefCount := (m.isrObjects p).isrRefCount + 1 })
    p intId e hline]
  unfold registerFinish
  split
  · exact ⟨_, rfl, by simp [setObject], by simp [setObject], by simp [setObject], rfl,
      by simp [setObject]⟩
  · exact ⟨_, rfl, by simp [setObject], by simp [setObject], by simp [setObject], rfl,
      by simp [setObject]⟩

theorem C14_reregister_reports_already_registered_witness :
    ∃ m1, VAYUIpcInt_interruptRegister exampleCodes examplePlatform exampleRegistered 1 77
        0x700 0x800 = .ok (1, m1) ∧
      (m1.isrObjects 1).fxn = 0x500 ∧ (m1.isrObjects 1).fxnArgs = 0x600 ∧
      (m1.isrObjects 1).recvIntId = 77 ∧ m1.trace = [] ∧
      (m1.isrObjects 1).isrRefCount = 0xF8A7002 :=
  C14_reregister_reports_already_registered exampleCodes examplePlatform exampleRegistered 1 77
    0x700 0x800 { addr := 0x1000, isrHandle := 7, intId := 77, refCount := 0xF8A7001 }
    (by decide) (by decide) (by decide) (by decide)

theorem examplePlatform_succeeds : platformSucceeds exampleCodes examplePlatform exampleModule :=
  ⟨fun _ => (by decide : (7 : Nat) ≠ 0), fun _ => (by decide : (0 : Int) ≤ 0),
    fun h => (by show 0x1000 + 16 * h.length ≠ 0; omega),
    fun _ => (by decide :
      (0 : Nat) &&& VAYUIPCINT_MAKE_MAGICSTAMP exampleCodes 0 ≠
        VAYUIPCINT_MAKE_MAGICSTAMP exampleCodes 0),
    fun _ x hx => absurd hx (List.not_mem_nil x)⟩

theorem sendRoute_known (m : VAYUIpcInt_ModuleObject) (p : Nat) (h : knownProc m.procIds p) :
    ∃ r sub, sendRoute m p = some (r, sub) := by
  unfold sendRoute
  by_cases h1 : p = m.procIds VAYU_INDEX_DSP1
  · rw [if_pos h1]; exact ⟨_, _, rfl⟩
  rw [if_neg h1]
  by_cases h2 : p = m.procIds VAYU_INDEX_DSP2
  · rw [if_pos h2]; exact ⟨_, _, rfl⟩
  rw [if_neg h2]
  by_cases h3 : p = m.procIds VAYU_INDEX_IPU1
  · rw [if_pos h3]; exact ⟨_, _, rfl⟩
  rw [if_neg h3]
  by_cases h4 : p = m.procIds VAYU_INDEX_IPU2
  · rw [if_pos h4]; exact ⟨_, _, rfl⟩
  rcases h with h | h | h | h
  · exact absurd h h1
  · exact absurd h h2
  · exact absurd h h3
  · exact absurd h h4

/-- The send is the one write of the word to the message register of the route. -/
theorem sendInterrupt_route (k : Codes) (m : VAYUIpcInt_ModuleObject) (p intId value : Nat)
    (r : Region) (sub : Nat) (h : sendRoute m p = some (r, sub)) :
    VAYUIpcInt_sendInterrupt k m p intId value =
      (k.VAYUIPCINT_SUCCESS, REG32_write m r (MAILBOX_MESSAGE_m_OFFSET sub) value) := by
  unfold sendRoute at h
  unfold VAYUIpcInt_sendInterrupt
  by_cases h1 : p = m.procIds VAYU_INDEX_DSP1
  · rw [if_pos h1] at h ⊢
    cases h; rfl
  rw [if_neg h1] at h ⊢
  by_cases h2 : p = m.procIds VAYU_INDEX_DSP2
  · rw [if_pos h2] at h ⊢
    cases h; rfl
  rw [if_neg h2] at h ⊢
  by_cases h3 : p = m.procIds VAYU_INDEX_IPU1
  · rw [if_pos h3] at h ⊢
    cases h; rfl
  rw [if_neg h3] at h ⊢
  by_cases h4 : p = m.procIds VAYU_INDEX_IPU2
  · rw [if_pos h4] at h ⊢
    cases h; rfl
  rw [if_neg h4] at h
  cases h

/-- The wait is the loop on the message-status register of the route. -/
theorem waitClearInterrupt_route (k : Codes) (pf : Platform) (fuel : Nat)
    (m : VAYUIpcInt_ModuleObject) (p intId : Nat)
    (r : Region) (sub : Nat) (h : sendRoute m p = some (r, sub)) :
    VAYUIpcInt_waitClearInterrupt k pf fuel m p intId =
      (waitStatusClear pf r (MAILBOX_MSGSTATUS_m_OFFSET sub) fuel m).map
        (fun m1 => (k.VAYUIPCINT_SUCCESS, m1)) := by
  unfold sendRoute at h
  unfold VAYUIpcInt_waitClearInterrupt
  by_cases h1 : p = m.procIds VAYU_INDEX_DSP1
  · rw [if_pos h1] at h ⊢
    cases h; rfl
  rw [if_neg h1] at h ⊢
  by_cases h2 : p = m.procIds VAYU_INDEX_DSP2
  · rw [if_pos h2] at h ⊢
    cases h; rfl
  rw [if_neg h2] at h ⊢
  by_cases h3 : p = m.procIds VAYU_INDEX_IPU1
  · rw [if_pos h3] at h ⊢
    cases h; rfl
  rw [if_neg h3] at h ⊢
  by_cases h4 : p = m.procIds VAYU_INDEX_IPU2
  · rw [if_pos h4] at h ⊢
    cases h; rfl
  rw [if_neg h4] at h
  cases h

/-- The loop stops when some read finds the low six bits of the register zero. -/
theorem waitStatusClear_stops (pf : Platform) (r : Region) (offset : Nat) :
    ∀ (fuel : Nat) (m : VAYUIpcInt_ModuleObject),
      (∃ n, n < fuel ∧
        pf.readReg (traceAfterReads pf r offset n m.trace) r offset % 4294967296 &&& 0x3F = 0) →
      ∃ m1, waitStatusClear pf r offset fuel m = some m1 := by
  intro fuel
  induction fuel with
  | zero =>
    intro m h
    obtain ⟨n, hn, _⟩ := h
    omega
  | succ fuel ih =>
    intro m h
    obtain ⟨n, hn, hz⟩ := h
    unfold waitStatusClear
    by_cases hv : (REG32_read pf m r offset).1 &&& 0x3F ≠ 0
    · rw [if_pos hv]
      cases n with
      | zero => exact absurd hz hv
      | succ n => exact ih _ ⟨n, by omega, hz⟩
    · rw [if_neg hv]
      exact ⟨_, rfl⟩

/-- When the loop has stopped, it has only read the register: every read but the last found
a bit set, the last found the low six bits zero, and nothing was written. -/
theorem waitStatusClear_reads (pf : Platform) (r : Region) (offset : Nat) :
    ∀ (fuel : Nat) (m m1 : VAYUIpcInt_ModuleObject),
      waitStatusClear pf r offset fuel m = some m1 →
      ∃ (vs : List Nat) (v : Nat), m1 = { m with trace :=
          m.trace ++ (vs.map (fun x => Call.regRead r offset x) ++ [Call.regRead r offset v]) } ∧
        v &&& 0x3F = 0 ∧ ∀ x ∈ vs, x &&& 0x3F ≠ 0 := by
  intro fuel
  induction fuel with
  | zero =>
    intro m m1 h
    cases h
  | succ fuel ih =>
    intro m m1 h
    unfold waitStatusClear at h
    by_cases hv : (REG32_read pf m r offset).1 &&& 0x3F ≠ 0
    · rw [if_pos hv] at h
      obtain ⟨vs, v, h1, h2, h3⟩ := ih _ _ h
      refine ⟨(REG32_read pf m r offset).1 :: vs, v, ?_, h2, ?_⟩
      · rw [h1]
        simp [REG32_read, record]
      · intro x hx
        rcases List.mem_cons.1 hx with hx | hx
        · rw [hx]; exact hv
        · exact h3 x hx
    · rw [if_neg hv] at h
      simp only [Option.some.injEq] at h
      refine ⟨[], (REG32_read pf m r offset).1, ?_, by simpa using hv, fun x hx => by cases hx⟩
      rw [← h]
      simp [REG32_read, record]


/-- C21 (counterexample): on a hardware whose message-status registers always report an
undrained message, VAYUIpcInt_sendInterrupt to IPU2 writes the word to the message register of
sub-mailbox 6 of mailbox 6 at once; it reads no register. -/
theorem C21_send_while_occupied_counterexample :
    (∀ tr, busyPlatform.readReg tr Region.mailbox6
      (MAILBOX_MSGSTATUS_m_OFFSET HOST_IPU2_SUB_MBOX) &&& 0x3F ≠ 0) ∧
    sendRoute exampleModule 1 = some (Region.mailbox6, HOST_IPU2_SUB_MBOX) ∧
    (VAYUIpcInt_sendInterrupt exampleCodes exampleModule 1 77 0xCAFE).1 = 0 ∧
    (VAYUIpcInt_sendInterrupt exampleCodes exampleModule 1 77 0xCAFE).2.trace =
      [Call.regWrite Region.mailbox6 0x58 0xCAFE] :=
  ⟨fun _ => (by decide : (1 : Nat) &&& 0x3F ≠ 0), rfl, rfl, rfl⟩

/-- C21 (amended): for every known target processor and every hardware,
VAYUIpcInt_sendInterrupt makes exactly one register access, the write of the word to the message
register of the target sub-channel, without reading the occupancy, and returns
VAYUIPCINT_SUCCESS. The wait for the occupancy to clear is the separate function
VAYUIpcInt_waitClearInterrupt: it returns as soon as a read of the message-status register of
the target sub-channel finds the low six bits zero, every earlier read having found a message,
and writes nothing; a send that follows it writes the word after that read. -/
theorem C21_send_writes_at_once (k : Codes) (pf : Platform) (m : VAYUIpcInt_ModuleObject)
    (p intId value fuel : Nat) (hknown : knownProc m.procIds p) :
    ∃ r sub, sendRoute m p = some (r, sub) ∧
      VAYUIpcInt_sendInterrupt k m p intId value =
        (k.VAYUIPCINT_SUCCESS, { m with trace := m.trace ++
          [Call.regWrite r (MAILBOX_MESSAGE_m_OFFSET sub) (value % 4294967296)] }) ∧
      ((∃ n, n < fuel ∧ pf.readReg (traceAfterReads pf r (MAILBOX_MSGSTATUS_m_OFFSET sub) n
            m.trace) r (MAILBOX_MSGSTATUS_m_OFFSET sub) % 4294967296 &&& 0x3F = 0) →
        ∃ m1, VAYUIpcInt_waitClearInterrupt k pf fuel m p intId =
          some (k.VAYUIPCINT_SUCCESS, m1)) ∧
      (∀ st m1, VAYUIpcInt_waitClearInterrupt k pf fuel m p intId = some (st, m1) →
        st = k.VAYUIPCINT_SUCCESS ∧
        ∃ (vs : List Nat) (v : Nat),
          m1.trace = m.trace ++
            (vs.map (fun x => Call.regRead r (MAILBOX_MSGSTATUS_m_OFFSET sub) x) ++
              [Call.regRead r (MAILBOX_MSGSTATUS_m_OFFSET sub) v]) ∧
          v &&& 0x3F = 0 ∧ (∀ x ∈ vs, x &&& 0x3F ≠ 0) ∧
          (VAYUIpcInt_sendInterrupt k m1 p intId value).2.trace = m1.trace ++
            [Call.regWrite r (MAILBOX_MESSAGE_m_OFFSET sub) (value % 4294967296)]) := by
  obtain ⟨r, sub, hroute⟩ := sendRoute_known m p hknown
  refine ⟨r, sub, hroute, sendInterrupt_route k m p intId value r sub hroute, ?_, ?_⟩
  · intro h
    obtain ⟨m1, h1⟩ := waitStatusClear_stops pf r _ fuel m h
    rw [waitClearInterrupt_route k pf fuel m p intId r sub hroute, h1]
    exact ⟨m1, rfl⟩
  · intro st m1 h
    rw [waitClearInterrupt_route k pf fuel m p intId r sub hroute] at h
    cases hw : waitStatusClear pf r (MAILBOX_MSGSTATUS_m_OFFSET sub) fuel m with
    | none =>
      rw [hw] at h
      cases h
    | some m2 =>
      rw [hw] at h
      simp only [Option.map_some', Option.some.injEq, Prod.mk.injEq] at h
      obtain ⟨hst, hm⟩ := h
      subst hm
      obtain ⟨vs, v, h1, h2, h3⟩ := waitStatusClear_reads pf r _ fuel m m2 hw
      have hroute2 : sendRoute m2 p = some (r, sub) := by
        rw [h1]
        exact hroute
      refine ⟨hst.symm, vs, v, by rw [h1], h2, h3, ?_⟩
      rw [sendInterrupt_route k m2 p intId value r sub hroute2]
      rfl

theorem C21_send_writes_at_once_witness :
    knownProc exampleModule.procIds 1 ∧
    ∃ m1, VAYUIpcInt_waitClearInterrupt exampleCodes examplePlatform 1 exampleModule 1 77 =
        some (0, m1) ∧
      m1.trace = [Call.regRead Region.mailbox6 0xD8 0] ∧
      (VAYUIpcInt_sendInterrupt exampleCodes m1 1 77 0xCAFE).2.trace =
        [Call.regRead Region.mailbox6 0xD8 0, Call.regWrite Region.mailbox6 0x58 0xCAFE] := by
  obtain ⟨r, sub, hroute, _, hret, _⟩ :=
    C21_send_writes_at_once exampleCodes examplePlatform exampleModule 1 77 0xCAFE 1
      (by decide)
  have hr : (r, sub) = (Region.mailbox6, HOST_IPU2_SUB_MBOX) :=
    Option.some.inj (hroute.symm.trans rfl)
  simp only [Prod.mk.injEq] at hr
  obtain ⟨h1, h2⟩ := hr
  subst h1 h2
  obtain ⟨m1, hm1⟩ := hret ⟨0, by decide, by decide⟩
  refine ⟨by decide, m1, hm1, ?_, ?_⟩
  · have h2 : VAYUIpcInt_waitClearInterrupt exampleCodes examplePlatform 1 exampleModule 1 77 =
        some (0, record exampleModule (Call.regRead Region.mailbox6 0xD8 0)) := rfl
    rw [h2] at hm1
    simp only [Option.some.injEq, Prod.mk.injEq, true_and] at hm1
    rw [← hm1.2]
    rfl
  · have h2 : VAYUIpcInt_waitClearInterrupt exampleCodes examplePlatform 1 exampleModule 1 77 =
        some (0, record exampleModule (Call.regRead Region.mailbox6 0xD8 0)) := rfl
    rw [h2] at hm1
    simp only [Option.some.injEq, Prod.mk.injEq, true_and] at hm1
    rw [← hm1.2]
    rfl


/-! ## The crossbar register of the first registration -/

theorem bit_lt_65536 (x i : Nat) (hx : x < 65536) (h : x.testBit i = true) : i < 16 := by
  by_contra hi
  have h2 : x < 2 ^ i := lt_of_lt_of_le hx
    (by have : (2 : Nat) ^ 16 ≤ 2 ^ i := Nat.pow_le_pow_right (by norm_num) (by omega)
        simpa using this)
  rw [Nat.testBit_lt_two_pow h2] at h
  exact Bool.noConfusion h

theorem low_mask_testBit (i : Nat) : (0x0000FFFF : Nat).testBit i = decide (i < 16) := by
  have h : (0x0000FFFF : Nat) = 2 ^ 16 - 1 := by norm_num
  rw [h, Nat.testBit_two_pow_sub_one]

theorem high_mask_testBit (i : Nat) :
    (0xFFFF0000 : Nat).testBit i = (decide (16 ≤ i) && decide (i < 32)) := by
  have h : (0xFFFF0000 : Nat) = (2 ^ 16 - 1) <<< 16 := by decide
  rw [h, Nat.testBit_shiftLeft, Nat.testBit_two_pow_sub_one]
  by_cases h1 : 16 ≤ i
  · by_cases h2 : i < 32
    · simp [h1, h2]; omega
    · simp [h1, h2]; omega
  · simp [h1]

/-- The upper half-word is replaced and the lower half-word is kept. -/
theorem xbar_upper (reg src : Nat) :
    ((reg &&& 0x0000FFFF) ||| (src <<< 16)) &&& 0x0000FFFF = reg &&& 0x0000FFFF ∧
    ((reg &&& 0x0000FFFF) ||| (src <<< 16)) >>> 16 = src := by
  constructor
  · apply Nat.eq_of_testBit_eq
    intro i
    simp only [Nat.testBit_and, Nat.testBit_or, Nat.testBit_shiftLeft, low_mask_testBit]
    by_cases h : i < 16
    · have h2 : ¬ 16 ≤ i := by omega
      simp [h, h2]
    · simp [h]
  · apply Nat.eq_of_testBit_eq
    intro i
    simp only [Nat.testBit_shiftRight, Nat.testBit_and, Nat.testBit_or, Nat.testBit_shiftLeft,
      low_mask_testBit]
    have h : ¬ 16 + i < 16 := by omega
    simp [h]

/-- The lower half-word is replaced and the upper half-word is kept. -/
theorem xbar_lower (reg src : Nat) (hs : src < 65536) :
    ((reg &&& 0xFFFF0000) ||| src) &&& 0xFFFF0000 = reg &&& 0xFFFF0000 ∧
    ((reg &&& 0xFFFF0000) ||| src) &&& 0x0000FFFF = src := by
  constructor
  · apply Nat.eq_of_testBit_eq
    intro i
    simp only [Nat.testBit_and, Nat.testBit_or, high_mask_testBit]
    by_cases hb : src.testBit i = true
    · have hi := bit_lt_65536 src i hs hb
      have h2 : ¬ 16 ≤ i := by omega
      simp [h2]
    · have hb2 : src.testBit i = false := by simpa using hb
      simp [hb2]
  · apply Nat.eq_of_testBit_eq
    intro i
    simp only [Nat.testBit_and, Nat.testBit_or, high_mask_testBit, low_mask_testBit]
    by_cases hb : src.testBit i = true
    · have hi := bit_lt_65536 src i hs hb
      simp [hb, hi]
    · have hb2 : src.testBit i = false := by simpa using hb
      by_cases h : i < 16
      · have h2 : ¬ 16 ≤ i := by omega
        simp [hb2, h2]
      · simp [hb2, h]

theorem xbar_value_lt (reg src : Nat) (hr : reg < 4294967296) (hs : src < 65536) :
    (reg &&& 0x0000FFFF) ||| (src <<< 16) < 4294967296 ∧
    (reg &&& 0xFFFF0000) ||| src < 4294967296 := by
  have h32 : (4294967296 : Nat) = 2 ^ 32 := by norm_num
  rw [h32] at hr ⊢
  constructor
  · apply Nat.or_lt_two_pow
    · exact lt_of_le_of_lt Nat.and_le_left hr
    · rw [Nat.shiftLeft_eq]
      have : src * 2 ^ 16 < 65536 * 2 ^ 16 := Nat.mul_lt_mul_of_pos_right hs (by norm_num)
      calc src * 2 ^ 16 < 65536 * 2 ^ 16 := this
        _ = 2 ^ 32 := by norm_num
  · apply Nat.or_lt_two_pow
    · exact lt_of_le_of_lt Nat.and_le_left hr
    · exact lt_of_lt_of_le hs (by norm_num)

/-- The macro of the register offset without wrap-around, for the interrupt ids from 40 on. -/
theorem xbar_offset (intId : Nat) (hlo : 40 ≤ intId) (hhi : intId < 1073741824) :
    (intId + 4294967296 - 32) % 4294967296 = intId - 32 ∧
    CTRL_MODULE_INT_m_OFFSET (intId - 32) =
      0xA4C + (intId - 32 - 8) / 2 * 4 - (if intId - 32 > 131 then 4 else 0) ∧
    ((intId - 32 + 4294967296 - CTRL_MODULE_INT_BASE) % 4294967296) % 2 = (intId - 32 - 8) % 2 := by
  refine ⟨by omega, ?_, ?_⟩
  · unfold CTRL_MODULE_INT_m_OFFSET CTRL_MODULE_MPU_OFFSET CTRL_MODULE_INT_BASE
    split_ifs <;> omega
  · unfold CTRL_MODULE_INT_BASE
    omega

theorem xbarSource_known (m : VAYUIpcInt_ModuleObject) (p : Nat)
    (h1 : m.procIds VAYU_INDEX_IPU1 ≠ m.procIds VAYU_INDEX_DSP2)
    (h2 : m.procIds VAYU_INDEX_DSP1 ≠ m.procIds VAYU_INDEX_IPU2)
    (h3 : m.procIds VAYU_INDEX_DSP1 ≠ m.procIds VAYU_INDEX_DSP2) :
    (p = m.procIds VAYU_INDEX_DSP1 ∨ p = m.procIds VAYU_INDEX_IPU1 → xbarSource m p = 251) ∧
    (p = m.procIds VAYU_INDEX_DSP2 ∨ p = m.procIds VAYU_INDEX_IPU2 →
      p ≠ m.procIds VAYU_INDEX_IPU1 → xbarSource m p = 255) := by
  unfold xbarSource
  constructor
  · rintro (h | h)
    · rw [if_pos h]; rfl
    · by_cases ha : p = m.procIds VAYU_INDEX_DSP1
      · rw [if_pos ha]; rfl
      · rw [if_neg ha, if_neg (by rw [h]; exact h1), if_pos h]; rfl
  · rintro (h | h) hne
    · rw [if_neg (by rw [h]; exact fun e => h3 e.symm), if_pos h]; rfl
    · rw [if_neg (by rw [h]; exact fun e => h2 e.symm)]
      by_cases hb : p = m.procIds VAYU_INDEX_DSP2
      · rw [if_pos hb]; rfl
      · rw [if_neg hb, if_neg hne, if_pos h]; rfl

theorem xbarSource_lt (m : VAYUIpcInt_ModuleObject) (p : Nat) : xbarSource m p < 65536 := by
  unfold xbarSource
  split_ifs <;> decide


theorem readsOf_append (r : Region) (o : Nat) (a b : List Call) :
    readsOf r o (a ++ b) = readsOf r o a ++ readsOf r o b := by
  induction a with
  | nil => rfl
  | cons c cs ih =>
    cases c <;> simp [readsOf, ih]
    split <;> simp

theorem registerFinish_trace (m : VAYUIpcInt_ModuleObject) (p : Nat) (st : Int) (e : ElemPtr) :
    (registerFinish m p st e).2.trace = m.trace := by
  unfold registerFinish
  split <;> rfl

theorem interruptEnable_frame (pf : Platform) (m : VAYUIpcInt_ModuleObject) (p i : Nat) :
    ∃ d, VAYUIpcInt_interruptEnable pf m p i = { m with trace := m.trace ++ d } ∧
      xbarWrites d = [] ∧ ∀ o, readsOf Region.controlModule o d = [] := by
  unfold VAYUIpcInt_interruptEnable
  split_ifs
  · exact ⟨_, SET_BIT_eq _ _ _ _ _, rfl, fun _ => rfl⟩
  · exact ⟨_, SET_BIT_eq _ _ _ _ _, rfl, fun _ => rfl⟩
  · exact ⟨_, SET_BIT_eq _ _ _ _ _, rfl, fun _ => rfl⟩
  · exact ⟨_, SET_BIT_eq _ _ _ _ _, rfl, fun _ => rfl⟩
  · exact ⟨[], by simp, rfl, fun _ => rfl⟩

/-- The first part of a registration touches no crossbar register, whatever the state. -/
theorem registerObject_frame (k : Codes) (pf : Platform) (m : VAYUIpcInt_ModuleObject)
    (p i f a : Nat) :
    ∃ d, (registerObject k pf m p i f a).trace = m.trace ++ d ∧ xbarWrites d = [] ∧
      (∀ o, readsOf Region.controlModule o d = []) ∧
      (registerObject k pf m p i f a).isrHandles = m.isrHandles ∧
      (registerObject k pf m p i f a).procIds = m.procIds := by
  unfold registerObject
  simp only []
  split
  · exact ⟨[], by simp [setObject], rfl, fun _ => rfl, rfl, rfl⟩
  · obtain ⟨d, hd, h1, h2⟩ := interruptEnable_frame pf
      (setObject m p { m.isrObjects p with
        isrRefCount := Atomic_inc_return (Atomic_cmpmask_and_set (m.isrObjects p).isrRefCount
          (VAYUIPCINT_MAKE_MAGICSTAMP k 0) (VAYUIPCINT_MAKE_MAGICSTAMP k 0)),
        fxn := f, fxnArgs := a, recvIntId := i }) p i
    rw [hd]
    exact ⟨d, rfl, h1, h2, rfl, rfl⟩

/-- On a line without a handle, the second part of a registration programs the crossbar and
then touches no crossbar register. -/
theorem registerHandle_first (k : Codes) (pf : Platform) (m1 : VAYUIpcInt_ModuleObject)
    (p i : Nat) (hnone : m1.isrHandles.find? (fun x => x.intId = i) = none) :
    ∃ d, (registerHandle k pf m1 p i).2.trace = (programXbar pf m1 p i).trace ++ d ∧
      xbarWrites d = [] ∧ ∀ o, readsOf Region.controlModule o d = [] := by
  unfold registerHandle
  rw [hnone]
  simp only []
  split_ifs <;> rw [registerFinish_trace] <;> simp only [record, List.append_assoc] <;>
    exact ⟨_, rfl, rfl, fun _ => rfl⟩

/-- The access that programs the crossbar: one read and one write of the same register. -/
theorem programXbar_write (pf : Platform) (m : VAYUIpcInt_ModuleObject) (p i : Nat) :
    ∃ reg v, reg < 4294967296 ∧
      programXbar pf m p i = { m with trace := m.trace ++
        [Call.regRead Region.controlModule
            (CTRL_MODULE_INT_m_OFFSET ((i + 4294967296 - 32) % 4294967296)) reg,
          Call.regWrite Region.controlModule
            (CTRL_MODULE_INT_m_OFFSET ((i + 4294967296 - 32) % 4294967296)) v] } ∧
      ((((i + 4294967296 - 32) % 4294967296 + 4294967296 - CTRL_MODULE_INT_BASE) % 4294967296)
          % 2 ≠ 0 →
        v = ((reg &&& 0x0000FFFF) ||| (xbarSource m p <<< 16)) % 4294967296) ∧
      ((((i + 4294967296 - 32) % 4294967296 + 4294967296 - CTRL_MODULE_INT_BASE) % 4294967296)
          % 2 = 0 →
        v = ((reg &&& 0xFFFF0000) ||| xbarSource m p) % 4294967296) := by
  unfold programXbar
  simp only [REG32_read, REG32_write, record, List.append_assoc, List.singleton_append]
  split_ifs with h
  · exact ⟨_, _, Nat.mod_lt _ (by norm_num), rfl, fun _ => rfl, fun h0 => absurd h0 h⟩
  · exact ⟨_, _, Nat.mod_lt _ (by norm_num), rfl, fun h0 => absurd (not_not.1 h) h0, fun _ => rfl⟩

theorem xbarSource_congr (m m1 : VAYUIpcInt_ModuleObject) (p : Nat)
    (h : m1.procIds = m.procIds) : xbarSource m1 p = xbarSource m p := by
  unfold xbarSource
  rw [h]

/-- C26: the first registration on physical interrupt id intId (40 <= intId < 2^30, no
handle for the line yet) by a processor p, whatever the answers of the hardware and of the
services: the call returns; with m = intId - 32 it reads the control-module register at offset
0xA4C + ((m - 8) / 2) * 4 - (4 if m > 131 else 0) once and writes this register once, and
writes no other crossbar register; when m - 8 is odd the value written has the crossbar source
of p in its upper 16 bits and the lower 16 bits of the value read, when m - 8 is even it has
the source in its lower 16 bits and the upper 16 bits of the value read; the source is 251
for DSP1 and IPU1 and 255 for DSP2 and IPU2 (the ids of the two mailboxes being distinct). -/
theorem C26_first_registration_programs_crossbar (k : Codes) (pf : Platform)
    (m : VAYUIpcInt_ModuleObject) (p intId f a : Nat)
    (hp : p < MultiProc_MAXPROCESSORS)
    (hfirst : ∀ e ∈ m.isrHandles, e.intId ≠ intId)
    (hlo : 40 ≤ intId) (hhi : intId < 1073741824)
    (h1 : m.procIds VAYU_INDEX_IPU1 ≠ m.procIds VAYU_INDEX_DSP2)
    (h2 : m.procIds VAYU_INDEX_DSP1 ≠ m.procIds VAYU_INDEX_IPU2)
    (h3 : m.procIds VAYU_INDEX_DSP1 ≠ m.procIds VAYU_INDEX_DSP2)
    (h4 : m.procIds VAYU_INDEX_IPU1 ≠ m.procIds VAYU_INDEX_IPU2) :
    ∃ st m1 reg v, VAYUIpcInt_interruptRegister k pf m p intId f a = .ok (st, m1) ∧
      reg < 4294967296 ∧
      readsOf Region.controlModule
        (0xA4C + (intId - 32 - 8) / 2 * 4 - (if intId - 32 > 131 then 4 else 0))
        (m1.trace.drop m.trace.length) = [reg] ∧
      xbarWrites (m1.trace.drop m.trace.length) =
        [(0xA4C + (intId - 32 - 8) / 2 * 4 - (if intId - 32 > 131 then 4 else 0), v)] ∧
      ((intId - 32 - 8) % 2 = 1 →
        v &&& 0x0000FFFF = reg &&& 0x0000FFFF ∧ v >>> 16 = xbarSource m p) ∧
      ((intId - 32 - 8) % 2 = 0 →
        v &&& 0xFFFF0000 = reg &&& 0xFFFF0000 ∧ v &&& 0x0000FFFF = xbarSource m p) ∧
      (p = m.procIds VAYU_INDEX_DSP1 ∨ p = m.procIds VAYU_INDEX_IPU1 →
        xbarSource m p = 251) ∧
      (p = m.procIds VAYU_INDEX_DSP2 ∨ p = m.procIds VAYU_INDEX_IPU2 →
        xbarSource m p = 255) := by
  obtain ⟨hline, hoff, hpar⟩ := xbar_offset intId hlo hhi
  obtain ⟨d0, ht0, hx0, hr0, hh0, hp0⟩ := registerObject_frame k pf m p intId f a
  unfold VAYUIpcInt_interruptRegister
  rw [if_neg (not_not.2 hp)]
  obtain ⟨m0, hm0⟩ : ∃ m0, registerObject k pf m p intId f a = m0 := ⟨_, rfl⟩
  rw [hm0] at ht0 hh0 hp0 ⊢
  have hnone : m0.isrHandles.find? (fun x => x.intId = intId) = none := by
    rw [hh0]
    exact find_none_of _ _ (fun x hx => by simpa using hfirst x hx)
  obtain ⟨d1, ht1, hx1, hr1⟩ := registerHandle_first k pf m0 p intId hnone
  obtain ⟨reg, v, hreg, htx, hodd, heven⟩ := programXbar_write pf m0 p intId
  rw [hline, hoff] at htx
  rw [hline, hpar] at hodd heven
  have hsrc : xbarSource m0 p = xbarSource m p := xbarSource_congr m m0 p hp0
  rw [hsrc] at hodd heven
  have hlt := xbarSource_lt m p
  obtain ⟨hv1, hv2⟩ := xbar_value_lt reg (xbarSource m p) hreg hlt
  obtain ⟨hs1, hs2⟩ := xbarSource_known m p h1 h2 h3
  have htrace : (registerHandle k pf m0 p intId).2.trace = m.trace ++ (d0 ++
      ([Call.regRead Region.controlModule
          (0xA4C + (intId - 32 - 8) / 2 * 4 - (if intId - 32 > 131 then 4 else 0)) reg,
        Call.regWrite Region.controlModule
          (0xA4C + (intId - 32 - 8) / 2 * 4 - (if intId - 32 > 131 then 4 else 0)) v] ++ d1)) := by
    rw [ht1, htx]
    simp only [ht0, List.append_assoc]
  refine ⟨(registerHandle k pf m0 p intId).1, (registerHandle k pf m0 p intId).2, reg, v,
    rfl, hreg, ?_, ?_, ?_, ?_, hs1, ?_⟩
  · rw [htrace, List.drop_left, readsOf_append, readsOf_append, hr0, hr1]
    simp [readsOf]
  · rw [htrace, List.drop_left]
    unfold xbarWrites at hx0 hx1 ⊢
    rw [writesIn_append, writesIn_append, hx0, hx1]
    simp [writesIn]
  · intro ho
    rw [hodd (by omega), Nat.mod_eq_of_lt hv1]
    exact xbar_upper reg (xbarSource m p)
  · intro he
    rw [heven he, Nat.mod_eq_of_lt hv2]
    exact xbar_lower reg (xbarSource m p) hlt
  · intro h
    refine hs2 h ?_
    rcases h with h | h
    · rw [h]; exact fun e => h1 e.symm
    · rw [h]; exact fun e => h4 e.symm

theorem C26_first_registration_programs_crossbar_witness :
    (∀ e ∈ exampleModule.isrHandles, e.intId ≠ 77) ∧
    ∃ st m1 reg v, VAYUIpcInt_interruptRegister exampleCodes examplePlatform exampleModule 1 77 0x500 0x600 = .ok (st, m1) ∧
      reg < 4294967296 ∧
      readsOf Region.controlModule
        (0xA4C + (77 - 32 - 8) / 2 * 4 - (if 77 - 32 > 131 then 4 else 0))
        (m1.trace.drop exampleModule.trace.length) = [reg] ∧
      xbarWrites (m1.trace.drop exampleModule.trace.length) =
        [(0xA4C + (77 - 32 - 8) / 2 * 4 - (if 77 - 32 > 131 then 4 else 0), v)] ∧
      ((77 - 32 - 8) % 2 = 1 →
        v &&& 0x0000FFFF = reg &&& 0x0000FFFF ∧ v >>> 16 = xbarSource exampleModule 1) ∧
      ((77 - 32 - 8) % 2 = 0 →
        v &&& 0xFFFF0000 = reg &&& 0xFFFF0000 ∧ v &&& 0x0000FFFF = xbarSource exampleModule 1) ∧
      (1 = exampleModule.procIds VAYU_INDEX_DSP1 ∨ 1 = exampleModule.procIds VAYU_INDEX_IPU1 →
        xbarSource exampleModule 1 = 251) ∧
      (1 = exampleModule.procIds VAYU_INDEX_DSP2 ∨ 1 = exampleModule.procIds VAYU_INDEX_IPU2 →
        xbarSource exampleModule 1 = 255) :=
  ⟨fun e he => absurd he (List.not_mem_nil e),
    C26_first_registration_programs_crossbar exampleCodes examplePlatform exampleModule 1 77
      0x500 0x600 (by decide) (fun e he => absurd he (List.not_mem_nil e)) (by decide)
      (by decide) (by decide) (by decide) (by decide) (by decide)⟩

end VAYUIpcInt

namespace MessageQ

/-- C29 (code): with 2 reserved entries, so that the reserved maximum is index 1,
MessageQ_create with the explicit queueIndex 2 is not rejected: the guard
queueIndex > numReserved lets the index numReserved pass, the call returns the new object
bound to index 2 and the table has changed. -/
theorem C29_create_accepts_index_numReserved :
    exampleState.numReservedEntries - 1 < 2 ∧
    (2 : Nat) ≠ exampleTarget.MessageQ_ANY ∧
    MessageQ_create exampleTarget (some 0x1000) true exampleState 2 =
      .ok (some (0x1000, 2),
        { exampleState with queues := [none, none, some 0x1000, none] }) ∧
    { exampleState with queues := [none, none, some 0x1000, none] } ≠ exampleState := by
  refine ⟨by decide, by decide, rfl, by decide⟩

/-- With `MessageQ_ANY` the lowest free slot at or above the reserved entries is taken: here
slot 2 is in use and the object goes to slot 3. -/
theorem create_any_takes_lowest_hole :
    MessageQ_create exampleTarget (some 0x1000) true
        { exampleState with queues := [none, none, some 0x700, none] } 0xFFFF =
      .ok (some (0x1000, 3),
        { exampleState with queues := [none, none, some 0x700, some 0x1000] }) := by
  rfl

/-- With `MessageQ_ANY` and no free slot above the reserved entries the table grows by 32
entries and the object goes to the old size. -/
theorem create_any_grows :
    MessageQ_create exampleTarget (some 0x1000) true
        { exampleState with queues := [none, none, some 0x700, some 0x800] } 0xFFFF =
      .ok (some (0x1000, 4),
        { queues := [none, none, some 0x700, some 0x800, some 0x1000] ++
            List.replicate 31 none,
          numQueues := 36, canFreeQueues := true, numReservedEntries := 2 }) := by
  rfl

end MessageQ

namespace VAYUDspHalMmu

theorem pagesOf_append (a b : List Call) : pagesOf (a ++ b) = pagesOf a ++ pagesOf b := by
  induction a with
  | nil => rfl
  | cons x xs ih =>
    cases x <;> simp [pagesOf, ih]

theorem toInt32_of_range (x : Int) (h0 : 0 ≤ x) (h1 : x < 2147483648) : toInt32 x = x := by
  unfold toInt32
  have h : x % 4294967296 = x := Int.emod_eq_of_lt h0 (by omega)
  rw [h, if_pos h1]

theorem and_low_mask (x : Nat) :
    x &&& (4096 - 1) = x % 4096 ∧ x &&& (65536 - 1) = x % 65536 ∧
    x &&& (1048576 - 1) = x % 1048576 ∧ x &&& (16777216 - 1) = x % 16777216 :=
  ⟨Nat.and_pow_two_sub_one_eq_mod x 12, Nat.and_pow_two_sub_one_eq_mod x 16,
    Nat.and_pow_two_sub_one_eq_mod x 20, Nat.and_pow_two_sub_one_eq_mod x 24⟩

theorem and_page_mask (x : Nat) (hx : x < 4294967296) :
    x &&& not32 (4096 - 1) = x / 4096 * 4096 := by
  have hm : not32 (4096 - 1) = (2 ^ 20 - 1) <<< 12 := by decide
  have hd : x / 4096 * 4096 = (x >>> 12) <<< 12 := by
    rw [Nat.shiftLeft_eq, Nat.shiftRight_eq_div_pow]
  rw [hm, hd]
  apply Nat.eq_of_testBit_eq
  intro i
  simp only [Nat.testBit_and, Nat.testBit_shiftLeft, Nat.testBit_shiftRight,
    Nat.testBit_two_pow_sub_one]
  by_cases h1 : 12 ≤ i
  · have e : 12 + (i - 12) = i := by omega
    by_cases h2 : i - 12 < 20
    · simp [h1, h2, e]
    · have hlt : x < 2 ^ i :=
        lt_of_lt_of_le hx (by
          have : (4294967296 : Nat) = 2 ^ 32 := by norm_num
          rw [this]
          exact Nat.pow_le_pow_right (by norm_num) (by omega))
      simp [h1, h2, e, Nat.testBit_lt_two_pow hlt]
  · simp [h1]


theorem MMUPAGE_ALIGN_4KB (x : Nat) (hx : x + 4095 < 4294967296) :
    MMUPAGE_ALIGN x 4096 = (x + 4095) / 4096 * 4096 := by
  unfold MMUPAGE_ALIGN
  have e : x + 4096 - 1 = x + 4095 := by omega
  rw [e, Nat.mod_eq_of_lt hx, and_page_mask _ hx]

theorem pgszOf_named (c : Consts) (hc : namedPageSizes c) (sz : Nat)
    (hsz : sz = 16777216 ∨ sz = 1048576 ∨ sz = 65536 ∨ sz = 4096) : pgszOf c sz ≠ none := by
  obtain ⟨h4, h64, h1, h16⟩ := hc
  unfold pgszOf
  rw [h4, h64, h1, h16]
  split_ifs with a b c d
  · simp
  · simp
  · simp
  · simp
  · omega

theorem attrs_accepted (c : Consts) (e : VAYUDSP_HalMmuEntryInfo) (h : validAttrs c e) :
    elszOf c e.elementSize ≠ none ∧ endianOf c e.endianism ≠ none ∧
      mixedOf c e.mixedSize ≠ none := by
  obtain ⟨h1, h2, h3⟩ := h
  refine ⟨?_, ?_, ?_⟩
  · unfold elszOf
    split_ifs <;> simp_all
  · unfold endianOf
    split_ifs <;> simp_all
  · unfold mixedOf
    split_ifs <;> simp_all

/-- A page of a known size with valid attributes is stored in both MMUs and the status is
`PROCESSOR_SUCCESS`. -/
theorem halMmuPteSet_ok (c : Consts) (hal : VAYUDSP_HalObject) (tr : List Call)
    (te : VAYUDSP_HalMmuEntryInfo) (hs : 0 ≤ c.PROCESSOR_SUCCESS)
    (hp : pgszOf c te.size ≠ none) (h1 : elszOf c te.elementSize ≠ none)
    (h2 : endianOf c te.endianism ≠ none) (h3 : mixedOf c te.mixedSize ≠ none) :
    ∃ d, _VAYUDSP_halMmuPteSet c hal tr te = (c.PROCESSOR_SUCCESS, tr ++ d) ∧
      pagesOf d = [te] ∧ Call.configError ∉ d := by
  unfold _VAYUDSP_halMmuPteSet VAYUDSP_InternalMMU_PteSet
  simp only [if_neg hp, if_neg h1, if_neg h2, if_neg h3, ge_iff_le, if_pos hs, ne_eq,
    not_true_eq_false, if_false, List.append_assoc]
  exact ⟨_, rfl, rfl, by simp⟩

theorem pageSizeFor_spec (c : Consts) (hc : namedPageSizes c) (n va : Nat) (hn : 0 < n)
    (hn4 : n % 4096 = 0) (hva : va % 4096 = 0) :
    ∃ sz, pageSizeFor c (n : Int) va = some sz ∧
      (sz = 16777216 ∨ sz = 1048576 ∨ sz = 65536 ∨ sz = 4096) ∧ sz ≤ n ∧ va % sz = 0 := by
  obtain ⟨h4, h64, h1, h16⟩ := hc
  obtain ⟨e4, e64, e1, e16⟩ := and_low_mask va
  unfold pageSizeFor
  rw [h4, h64, h1, h16, e4, e64, e1, e16]
  split_ifs with a b c d
  · exact ⟨_, rfl, by simp, by omega, a.2⟩
  · exact ⟨_, rfl, by simp, by omega, b.2⟩
  · exact ⟨_, rfl, by simp, by omega, c.2⟩
  · exact ⟨_, rfl, by simp, by omega, d.2⟩
  · exfalso
    apply d
    constructor
    · push_cast
      omega
    · exact hva

theorem addEntryLoop_done (c : Consts) (hal : VAYUDSP_HalObject) (fuel : Nat)
    (ce : VAYUDSP_HalMmuEntryInfo) (st : Int) (tr : List Call) :
    addEntryLoop c hal fuel ce 0 st tr = some (st, tr) := by
  cases fuel <;> simp [addEntryLoop]

/-- The loop, from a size left that is a multiple of 4KB and a virtual address aligned to
4KB: with one unit of fuel per 4KB it ends with success, and the pages it hands on tile the
extent. -/
theorem addEntryLoop_tiles (c : Consts) (hal : VAYUDSP_HalObject) (hc : namedPageSizes c)
    (hs : 0 ≤ c.PROCESSOR_SUCCESS) :
    ∀ (fuel n : Nat) (ce : VAYUDSP_HalMmuEntryInfo) (tr : List Call),
      n / 4096 ≤ fuel → n % 4096 = 0 → n < 2147483648 →
      ce.slaveVirtAddr % 4096 = 0 → ce.slaveVirtAddr + n ≤ 4294967296 →
      validAttrs c ce →
      ∃ d, addEntryLoop c hal fuel ce (n : Int) c.PROCESSOR_SUCCESS tr =
          some (c.PROCESSOR_SUCCESS, tr ++ d) ∧
        Call.configError ∉ d ∧ (∀ p ∈ pagesOf d, pageOk p) ∧
        contiguous ce.slaveVirtAddr ce.masterPhyAddr (pagesOf d) ∧
        ((pagesOf d).map (fun p => p.size)).sum = n := by
  intro fuel
  induction fuel with
  | zero =>
    intro n ce tr hf hn4 _ _ _ _
    have hn : n = 0 := by omega
    subst hn
    refine ⟨[], ?_, by simp, by simp [pagesOf], by simp [pagesOf, contiguous],
      by simp [pagesOf]⟩
    rw [List.append_nil]
    exact addEntryLoop_done c hal 0 ce _ tr
  | succ fuel ih =>
    intro n ce tr hf hn4 hn31 hva hend hattr
    rcases Nat.eq_zero_or_pos n with hn | hn
    · subst hn
      refine ⟨[], ?_, by simp, by simp [pagesOf], by simp [pagesOf, contiguous],
        by simp [pagesOf]⟩
      rw [List.append_nil]
      exact addEntryLoop_done c hal _ ce _ tr
    · obtain ⟨sz, hpick, hsz, hle, hal2⟩ := pageSizeFor_spec c hc n ce.slaveVirtAddr hn hn4 hva
      obtain ⟨a1, a2, a3⟩ := attrs_accepted c ce hattr
      obtain ⟨d0, hset, hpages0, hcfg0⟩ := halMmuPteSet_ok c hal tr { ce with size := sz } hs
        (pgszOf_named c hc sz hsz) a1 a2 a3
      have hcond : ((n : Int) ≠ 0 ∧ c.PROCESSOR_SUCCESS ≥ 0) := ⟨by omega, hs⟩
      have hnot : ¬ c.PROCESSOR_SUCCESS < 0 := by omega
      have hcur : toInt32 ((n : Int) - (sz : Int)) = ((n - sz : Nat) : Int) := by
        rw [toInt32_of_range _ (by omega) (by omega)]
        omega
      have hsz4 : sz % 4096 = 0 := by
        rcases hsz with h | h | h | h <;> rw [h]
      have hstep : addEntryLoop c hal (fuel + 1) ce (n : Int) c.PROCESSOR_SUCCESS tr =
          addEntryLoop c hal fuel
            { ce with
              size := sz,
              masterPhyAddr := (ce.masterPhyAddr + sz) % 4294967296,
              slaveVirtAddr := (ce.slaveVirtAddr + sz) % 4294967296 }
            ((n - sz : Nat) : Int) c.PROCESSOR_SUCCESS (tr ++ d0) := by
        rw [addEntryLoop, if_pos hcond, hpick]
        simp only []
        rw [if_pos hs, hset]
        simp only []
        rw [if_neg hnot, hcur]
      rw [hstep]
      have hpage : pageOk { ce with size := sz } := ⟨hsz, hal2⟩
      rcases Nat.eq_or_lt_of_le hle with heq | hlt
      · -- the page is the whole of what is left
        have h0 : n - sz = 0 := by omega
        rw [h0]
        refine ⟨d0, addEntryLoop_done c hal fuel _ _ _, hcfg0, ?_, ?_, ?_⟩
        · rw [hpages0]
          intro p hp
          rw [List.mem_singleton.1 hp]
          exact hpage
        · rw [hpages0]
          exact ⟨rfl, rfl, trivial⟩
        · rw [hpages0]
          simp only [List.map_cons, List.map_nil, List.sum_cons, List.sum_nil]
          omega
      · have hva2 : (ce.slaveVirtAddr + sz) % 4294967296 = ce.slaveVirtAddr + sz :=
          Nat.mod_eq_of_lt (by omega)
        rw [hva2]
        obtain ⟨d1, hrun, hcfg1, hok1, hcont1, hsum1⟩ := ih (n - sz)
          { ce with
            size := sz,
            masterPhyAddr := (ce.masterPhyAddr + sz) % 4294967296,
            slaveVirtAddr := ce.slaveVirtAddr + sz }
          (tr ++ d0) (by omega) (by omega) (by omega)
          (by show (ce.slaveVirtAddr + sz) % 4096 = 0; omega)
          (by show ce.slaveVirtAddr + sz + (n - sz) ≤ 4294967296; omega) hattr
        refine ⟨d0 ++ d1, by rw [hrun, List.append_assoc], ?_, ?_, ?_, ?_⟩
        · intro h
          rcases List.mem_append.1 h with h | h
          · exact hcfg0 h
          · exact hcfg1 h
        · rw [pagesOf_append, hpages0]
          intro p hp
          rcases List.mem_cons.1 hp with h | h
          · rw [h]
            exact hpage
          · exact hok1 p h
        · rw [pagesOf_append, hpages0]
          exact ⟨rfl, rfl, hcont1⟩
        · rw [pagesOf_append, hpages0]
          simp only [List.singleton_append, List.map_cons, List.sum_cons, hsum1]
          omega


/-- The example entry splits into pages of 64KB, 1MB, 64KB and 4KB. -/
theorem exampleEntry_pages :
    (_VAYUDSP_halMmuAddEntry exampleConsts exampleHal 289 exampleEntry).map
        (fun r => (r.1, (pagesOf r.2).map
          (fun p => (p.size, p.slaveVirtAddr, p.masterPhyAddr)))) =
      some (0, [(0x10000, 0x00FF0000, 0x9F000000), (0x100000, 0x01000000, 0x9F010000),
        (0x10000, 0x01100000, 0x9F110000), (0x1000, 0x01110000, 0x9F120000)]) := by
  decide

/-- C30: for every MMU entry with 32-bit addresses whose 4KB-aligned extent
S = roundup(size + (va mod 4096), 4096) is below 2^31 and does not run past the end of the
32-bit address space, and whose element size, endianism and mixed-size attributes are valid
(page sizes as named, PROCESSOR_SUCCESS not negative): with S / 4096 units of fuel or more the
page-splitting loop of _VAYUDSP_halMmuAddEntry ends and the function returns
PROCESSOR_SUCCESS; it never reaches the configuration-error branch; each page handed to
_VAYUDSP_halMmuPteSet has one of the sizes 16MB, 1MB, 64KB, 4KB and a virtual address aligned
to its size; the pages start at va rounded down to 4KB, each page starts where the page before
it ends, their sizes add up to S, and the physical address starts at pa rounded down to 4KB
and advances by the same amounts (on 32 bits). -/
theorem C30_page_splitting_tiles_extent (c : Consts) (hal : VAYUDSP_HalObject)
    (e : VAYUDSP_HalMmuEntryInfo) (fuel : Nat)
    (hc : namedPageSizes c) (hs : 0 ≤ c.PROCESSOR_SUCCESS)
    (hva : e.slaveVirtAddr < 4294967296) (hpa : e.masterPhyAddr < 4294967296)
    (hS : alignedExtent e < 2147483648)
    (hend : e.slaveVirtAddr / 4096 * 4096 + alignedExtent e ≤ 4294967296)
    (hattr : validAttrs c e) (hfuel : alignedExtent e / 4096 ≤ fuel) :
    ∃ tr, _VAYUDSP_halMmuAddEntry c hal fuel e = some (c.PROCESSOR_SUCCESS, tr) ∧
      Call.configError ∉ tr ∧
      (∀ p ∈ pagesOf tr, pageOk p) ∧
      contiguous (e.slaveVirtAddr / 4096 * 4096) (e.masterPhyAddr / 4096 * 4096)
        (pagesOf tr) ∧
      ((pagesOf tr).map (fun p => p.size)).sum = alignedExtent e := by
  have h4 : c.PAGE_SIZE_4KB = 4096 := hc.1
  have hext : (e.size + e.slaveVirtAddr % 4096 + 4095) / 4096 * 4096 = alignedExtent e := rfl
  have hlt : e.size + e.slaveVirtAddr % 4096 + 4095 < 4294967296 := by
    unfold alignedExtent at hS
    omega
  have hmul : alignedExtent e % 4096 = 0 := by
    unfold alignedExtent
    omega
  unfold _VAYUDSP_halMmuAddEntry
  rw [h4, (and_low_mask e.slaveVirtAddr).1, Nat.mod_eq_of_lt (by omega),
    MMUPAGE_ALIGN_4KB _ hlt, and_page_mask _ hva, and_page_mask _ hpa, hext,
    toInt32_of_range _ (by omega) (by omega)]
  obtain ⟨d, hrun, hcfg, hok, hcont, hsum⟩ := addEntryLoop_tiles c hal hc hs fuel
    (alignedExtent e)
    { e with
      size := alignedExtent e,
      slaveVirtAddr := e.slaveVirtAddr / 4096 * 4096,
      masterPhyAddr := e.masterPhyAddr / 4096 * 4096 }
    [] hfuel hmul hS (by show e.slaveVirtAddr / 4096 * 4096 % 4096 = 0; omega) hend hattr
  rw [List.nil_append] at hrun
  exact ⟨d, hrun, hcfg, hok, hcont, hsum⟩

theorem C30_page_splitting_tiles_extent_witness :
    namedPageSizes exampleConsts ∧ validAttrs exampleConsts exampleEntry ∧
    alignedExtent exampleEntry = 0x121000 ∧
    ∃ tr, _VAYUDSP_halMmuAddEntry exampleConsts exampleHal 289 exampleEntry = some (exampleConsts.PROCESSOR_SUCCESS, tr) ∧
      Call.configError ∉ tr ∧
      (∀ p ∈ pagesOf tr, pageOk p) ∧
      contiguous (exampleEntry.slaveVirtAddr / 4096 * 4096) (exampleEntry.masterPhyAddr / 4096 * 4096)
        (pagesOf tr) ∧
      ((pagesOf tr).map (fun p => p.size)).sum = alignedExtent exampleEntry :=
  ⟨⟨rfl, rfl, rfl, rfl⟩, ⟨Or.inr (Or.inr (Or.inl rfl)), Or.inl rfl, Or.inl rfl⟩, by decide,
    C30_page_splitting_tiles_extent exampleConsts exampleHal exampleEntry 289
      ⟨rfl, rfl, rfl, rfl⟩ (by decide) (by decide) (by decide) (by decide) (by decide)
      ⟨Or.inr (Or.inr (Or.inl rfl)), Or.inl rfl, Or.inl rfl⟩ (by decide)⟩

end VAYUDspHalMmu
